import Mathlib

/-!
# komari-agent: disk aggregation, memory accounting and GPU identity

A shallow embedding of `monitoring/unit/disk.go`, `monitoring/unit/mem.go` and
`monitoring/unit/gpu_linux.go`.

Conventions of the embedding

* A Go `string` is a `List Char` (the text is taken to be valid UTF-8, so that
  byte-wise prefix, substring and equality tests on it agree with the same tests
  on code points whenever the needle is ASCII, which all needles of the source are).
* `uint64` values are natural numbers; every addition and subtraction that can wrap
  in Go is reduced modulo `2 ^ 64` explicitly.
* The operating system is a parameter: the partition enumeration is an
  `Except` value, the per-mountpoint usage query is a function into `Option`,
  the configuration flags and `runtime.GOOS` are arguments.
* `unicode.ToLower` is the ASCII rule of the Go library followed, for code points
  above 127, by a case table that is a parameter (`tbl`); `unicode.ToUpper` likewise
  (`utbl`).
* The regular expressions of `gpu_linux.go` are embedded as the tests and searches
  that `regexp.MatchString` and `regexp.FindStringSubmatch` perform for them.
-/

namespace Komari

/-- Go strings, as lists of code points. -/
abbrev Str := List Char

/-! ## The `strings` functions the source calls -/

/-- Go `unicode.ToLower`: ASCII is handled directly, everything else goes through
the Unicode case table `tbl`. -/
def toLowerRune (tbl : Char → Char) (c : Char) : Char :=
  if c.toNat ≤ 127 then
    if 'A'.toNat ≤ c.toNat ∧ c.toNat ≤ 'Z'.toNat then Char.ofNat (c.toNat + 32) else c
  else tbl c

/-- Go `strings.ToLower`. -/
def toLower (tbl : Char → Char) (s : Str) : Str := s.map (toLowerRune tbl)

/-- Go `strings.HasPrefix s p`. -/
def hasPrefix (s p : Str) : Bool := p.isPrefixOf s

/-- Go `strings.Contains s sub`. -/
def contains : Str → Str → Bool
  | [], sub => sub.isPrefixOf []
  | c :: s, sub => sub.isPrefixOf (c :: s) || contains s sub

/-- Go `strings.Join elems sep`. -/
def join : List Str → Str → Str
  | [], _ => []
  | [a], _ => a
  | a :: b :: rest, sep => a ++ sep ++ join (b :: rest) sep

/-! ## `disk.go` -/

/-- The fields of gopsutil `disk.PartitionStat` the source reads. -/
structure PartitionStat where
  Device : Str
  Mountpoint : Str
  Fstype : Str
  Opts : List Str
deriving DecidableEq, Repr, Inhabited

/-- The local `mountpointsToExclude` of `isPhysicalDisk`. -/
def mountpointsToExclude : List Str :=
  [ "/tmp".toList,
    "/var/tmp".toList,
    "/dev/shm".toList,
    "/run".toList,
    "/run/lock".toList,
    "/run/user".toList,
    "/var/lib/containers".toList,
    "/var/lib/docker".toList,
    "/proc".toList,
    "/dev/pts".toList,
    "/sys".toList,
    "/sys/fs/cgroup".toList,
    "/dev/mqueue".toList,
    "/etc/resolv.conf".toList,
    "/etc/host".toList,
    "/dev/hugepages".toList,
    "/nix/store".toList ]

/-- The local `fstypeToExclude` of `isPhysicalDisk`. -/
def fstypeToExclude : List Str :=
  [ "tmpfs".toList,
    "devtmpfs".toList,
    "nfs".toList,
    "cifs".toList,
    "smb".toList,
    "vboxsf".toList,
    "9p".toList,
    "fuse".toList,
    "overlay".toList,
    "proc".toList,
    "devpts".toList,
    "sysfs".toList,
    "cgroup".toList,
    "mqueue".toList,
    "hugetlbfs".toList ]

/-- The function `isPhysicalDisk` of `disk.go`, statement by statement: each
`return` of the source is one branch, each `for … { if … { return false } }` is a
`List.any`. -/
def isPhysicalDisk (tbl : Char → Char) (part : PartitionStat) : Bool :=
  if part.Mountpoint = "/".toList then true
  else
    let mountpoint := toLower tbl part.Mountpoint
    if mountpointsToExclude.any (fun mp => mountpoint == mp || hasPrefix mountpoint mp) then false
    else
      let fstype := toLower tbl part.Fstype
      if fstype == "autofs".toList && !hasPrefix part.Device "/dev/".toList then false
      else if fstype == "fuseblk".toList then true
      else if fstypeToExclude.any (fun fs => fstype == fs || hasPrefix fstype fs) then false
      else
        let optsStr := toLower tbl (join part.Opts ",".toList)
        if contains optsStr "remote".toList || contains optsStr "network".toList then false
        else if hasPrefix part.Device "/dev/loop".toList then false
        else true

/-- The fields of gopsutil `disk.UsageStat` the source reads (both `uint64`). -/
structure UsageStat where
  Total : Nat
  Used : Nat
deriving DecidableEq, Repr, Inhabited

/-- The struct `DiskInfo` of `disk.go`. -/
structure DiskInfo where
  Total : Nat
  Used : Nat
deriving DecidableEq, Repr

/-- Addition of two `uint64` values, as Go computes it. -/
def add64 (a b : Nat) : Nat := (a + b) % 2 ^ 64

/-- Go `strings.Index s "/"`-style search for a one-character needle: the position
of its first occurrence, or `-1`. -/
def index (s : Str) (c : Char) : Int :=
  if c ∈ s then (s.indexOf c : Int) else -1

/-- Go `strings.Split s sep` for a one-character separator. -/
def split : Str → Char → List Str
  | [], _ => [[]]
  | c :: s, sep =>
    if c = sep then [] :: split s sep
    else
      match split s sep with
      | [] => [[c]]
      | h :: t => (c :: h) :: t

/-- Go `unicode.IsSpace`. -/
def isSpace (c : Char) : Bool :=
  let n := c.toNat
  n = 0x09 || n = 0x0A || n = 0x0B || n = 0x0C || n = 0x0D || n = 0x20 ||
  n = 0x85 || n = 0xA0 || n = 0x1680 || (0x2000 ≤ n && n ≤ 0x200A) ||
  n = 0x2028 || n = 0x2029 || n = 0x202F || n = 0x205F || n = 0x3000

/-- Go `strings.TrimSpace`. -/
def trimSpace (s : Str) : Str :=
  ((s.dropWhile isSpace).reverse.dropWhile isSpace).reverse

/-- Go `fmt.Sprintf("%s (%s)", a, b)`. -/
def sprintfLabel (a b : Str) : Str := a ++ " (".toList ++ b ++ ")".toList

/-- The map `deviceMap` of `Disk`, `map[string]*disk.UsageStat`, as an association
list with one entry per key, in insertion order. -/
abbrev DeviceMap := List (Str × UsageStat)

/-- The map read `deviceMap[k]` with its `ok` flag. -/
def mapGet : DeviceMap → Str → Option UsageStat
  | [], _ => none
  | (k', u) :: m, k => if k' = k then some u else mapGet m k

/-- The map write `deviceMap[k] = u`. -/
def mapSet (m : DeviceMap) (k : Str) (u : UsageStat) : DeviceMap :=
  if k ∈ m.map Prod.fst then m.map (fun e => if e.1 = k then (k, u) else e)
  else m ++ [(k, u)]

/-- The order in which `for _, u := range deviceMap` visits the entries. Go leaves it
unspecified, so it is a parameter: any rearrangement of the entries. -/
structure RangeOrder where
  order : DeviceMap → DeviceMap
  perm : ∀ m, (order m).Perm m

/-- The variable `deviceID` of `Disk` after lines 49-55: the device, cut before its
first `/` for ZFS. -/
def deviceID (tbl : Char → Char) (part : PartitionStat) : Str :=
  let deviceID := part.Device
  if toLower tbl part.Fstype = "zfs".toList then
    let idx := index deviceID '/'
    if idx ≠ -1 then deviceID.take idx.toNat else deviceID
  else deviceID

/-- One iteration of the loop `for _, part := range usage` in `Disk` (the
classification branch). -/
def diskStep (tbl : Char → Char) (usage : Str → Option UsageStat)
    (deviceMap : DeviceMap) (part : PartitionStat) : DeviceMap :=
  if isPhysicalDisk tbl part then
    match usage part.Mountpoint with
    | none => deviceMap
    | some u =>
      match mapGet deviceMap (deviceID tbl part) with
      | some existing =>
        if u.Total > existing.Total then mapSet deviceMap (deviceID tbl part) u
        else deviceMap
      | none => mapSet deviceMap (deviceID tbl part) u
  else deviceMap

/-- The statement pair `diskinfo.Total += u.Total; diskinfo.Used += u.Used`. -/
def addUsage (diskinfo : DiskInfo) (u : UsageStat) : DiskInfo :=
  { Total := add64 diskinfo.Total u.Total, Used := add64 diskinfo.Used u.Used }

/-- One iteration of the loop over the allow-list entries in `Disk`. -/
def includeStep (usage : Str → Option UsageStat) (diskinfo : DiskInfo)
    (mountpoint : Str) : DiskInfo :=
  let mountpoint := trimSpace mountpoint
  if mountpoint ≠ [] then
    match usage mountpoint with
    | none => diskinfo
    | some u => addUsage diskinfo u
  else diskinfo

/-- The function `Disk` of `disk.go`. `partitions` is the outcome of
`disk.Partitions(true)`, `includeMountpoints` is `flags.IncludeMountpoints`, `usage`
is `disk.Usage`, and `ord` is the iteration order of the final `range`. -/
def Disk {ε : Type} (tbl : Char → Char) (partitions : Except ε (List PartitionStat))
    (includeMountpoints : Str) (usage : Str → Option UsageStat) (ord : RangeOrder) :
    DiskInfo :=
  match partitions with
  | .error _ => { Total := 0, Used := 0 }
  | .ok parts =>
    if includeMountpoints ≠ [] then
      (split includeMountpoints ';').foldl (includeStep usage) { Total := 0, Used := 0 }
    else
      let deviceMap := parts.foldl (diskStep tbl usage) []
      ((ord.order deviceMap).map Prod.snd).foldl addUsage { Total := 0, Used := 0 }

/-- The function `DiskList` of `disk.go`. -/
def DiskList {ε : Type} (tbl : Char → Char) (partitions : Except ε (List PartitionStat))
    (includeMountpoints : Str) : Except ε (List Str) :=
  if includeMountpoints ≠ [] then
    .ok ((split includeMountpoints ';').foldl
      (fun diskList mountpoint =>
        let mountpoint := trimSpace mountpoint
        if mountpoint ≠ [] then diskList ++ [mountpoint] else diskList) [])
  else
    match partitions with
    | .error err => .error err
    | .ok parts =>
      .ok (parts.foldl
        (fun diskList part =>
          if isPhysicalDisk tbl part
          then diskList ++ [sprintfLabel part.Mountpoint part.Fstype]
          else diskList) [])

/-! ### The aggregate in the words of the specification -/

/-- The partitions that `isPhysicalDisk` accepts and whose usage query succeeds. -/
def accepted (tbl : Char → Char) (usage : Str → Option UsageStat)
    (parts : List PartitionStat) : List PartitionStat :=
  parts.filter (fun p => isPhysicalDisk tbl p && (usage p.Mountpoint).isSome)

/-- The logical device key of the specification: the device, except that for fstype
`zfs` (case-insensitive) it is the part of the device before its first `/`. -/
def logicalDeviceKey (tbl : Char → Char) (p : PartitionStat) : Str :=
  if toLower tbl p.Fstype = "zfs".toList then p.Device.takeWhile (fun c => c ≠ '/')
  else p.Device

/-- The total the usage query reports for a partition (0 when the query fails). -/
def reportedTotal (usage : Str → Option UsageStat) (p : PartitionStat) : Nat :=
  match usage p.Mountpoint with
  | some u => u.Total
  | none => 0

/-- The used value the usage query reports for a partition (0 when the query fails). -/
def reportedUsed (usage : Str → Option UsageStat) (p : PartitionStat) : Nat :=
  match usage p.Mountpoint with
  | some u => u.Used
  | none => 0

/-- The distinct logical device keys of the accepted partitions. -/
def distinctKeys (tbl : Char → Char) (usage : Str → Option UsageStat)
    (parts : List PartitionStat) : List Str :=
  ((accepted tbl usage parts).map (logicalDeviceKey tbl)).dedup

/-- The maximum reported total among the accepted partitions with key `k`. -/
def maxTotal (tbl : Char → Char) (usage : Str → Option UsageStat)
    (parts : List PartitionStat) (k : Str) : Nat :=
  (((accepted tbl usage parts).filter (fun p => logicalDeviceKey tbl p = k)).map
    (reportedTotal usage)).foldr max 0

/-! ### Predicates used in the proofs about `Disk` -/

/-- Partition `p` reaches the map update of `diskStep` with key `k` and usage `u`. -/
def Contributes (tbl : Char → Char) (usage : Str → Option UsageStat)
    (p : PartitionStat) (k : Str) (u : UsageStat) : Prop :=
  isPhysicalDisk tbl p = true ∧ usage p.Mountpoint = some u ∧ deviceID tbl p = k

/-- What holds of `deviceMap` after the loop has processed `parts`: one entry per key,
every contributing partition has its key in the map, and the entry of a key is the
usage of a contributing partition whose total no contributing partition of that key
exceeds. -/
def MapInv (tbl : Char → Char) (usage : Str → Option UsageStat)
    (parts : List PartitionStat) (m : DeviceMap) : Prop :=
  (m.map Prod.fst).Nodup ∧
  (∀ p ∈ parts, ∀ k u, Contributes tbl usage p k u → k ∈ m.map Prod.fst) ∧
  (∀ k u, (k, u) ∈ m →
    (∃ p ∈ parts, Contributes tbl usage p k u) ∧
    ∀ p ∈ parts, ∀ u', Contributes tbl usage p k u' → u'.Total ≤ u.Total)

/-- The iteration order that visits the entries in insertion order. -/
def insertionOrder : RangeOrder := ⟨id, fun _ => List.Perm.refl _⟩

/-- The iteration order that visits the entries in reverse insertion order. -/
def reverseOrder : RangeOrder := ⟨List.reverse, fun m => List.reverse_perm m⟩

/-- The entries of the allow-list that `Disk` sums, in the words of the
specification: the usage of every semicolon-separated entry that is non-empty after
trimming and whose usage query succeeds. -/
def allowUsages (usage : Str → Option UsageStat) (includeMountpoints : Str) :
    List UsageStat :=
  (((split includeMountpoints ';').map trimSpace).filter (fun e => e ≠ [])).filterMap usage

/-- An entry has the form `<mountpoint> (<fstype>)`. -/
def IsLabel (e : Str) : Prop := ∃ mp fs : Str, e = sprintfLabel mp fs

/-! ### Data for the concrete runs -/

/-- A usage oracle for the runs below. -/
def usageDemo (mp : Str) : Option UsageStat :=
  if mp = "/".toList then some ⟨1000, 300⟩
  else if mp = "/a".toList then some ⟨100, 10⟩
  else if mp = "/b".toList then some ⟨200, 50⟩
  else if mp = "/c".toList then some ⟨200, 70⟩
  else if mp = "/tmp".toList then some ⟨64, 4⟩
  else none

/-- A partition list for the runs below: a root disk, three datasets of one ZFS
pool, a tmpfs, and a disk whose usage query fails. -/
def partsDemo : List PartitionStat :=
  [ ⟨"/dev/sda1".toList, "/".toList, "ext4".toList, ["rw".toList]⟩,
    ⟨"pool/a".toList, "/a".toList, "zfs".toList, []⟩,
    ⟨"pool/b".toList, "/b".toList, "zfs".toList, []⟩,
    ⟨"pool/c".toList, "/c".toList, "zfs".toList, []⟩,
    ⟨"tmpfs".toList, "/tmp".toList, "tmpfs".toList, []⟩,
    ⟨"/dev/sdb1".toList, "/gone".toList, "ext4".toList, []⟩ ]

/-- Two datasets of one ZFS pool that report the same total and different used
values. -/
def poolB : PartitionStat := ⟨"pool/b".toList, "/b".toList, "zfs".toList, []⟩

/-- The second dataset, listed after `poolB`. -/
def poolC : PartitionStat := ⟨"pool/c".toList, "/c".toList, "zfs".toList, []⟩

/-! ## `mem.go` -/

/-- The struct `RamInfo` of `mem.go`. -/
structure RamInfo where
  Total : Nat
  Used : Nat
  Mode : Str
deriving DecidableEq, Repr, Inhabited

/-- The struct `ProcMemInfo` of `mem.go` (all fields `uint64`). -/
structure ProcMemInfo where
  MemTotal : Nat
  MemFree : Nat
  MemAvailable : Nat
  Buffers : Nat
  Cached : Nat
  SwapTotal : Nat
  SwapFree : Nat
  SwapCached : Nat
  Shmem : Nat
  SReclaimable : Nat
  Zswap : Nat
  Zswapped : Nat
deriving DecidableEq, Repr, Inhabited

/-- Every field of the snapshot is a `uint64` value. -/
def ProcMemInfo.InRange (i : ProcMemInfo) : Prop :=
  i.MemTotal < 2 ^ 64 ∧ i.MemFree < 2 ^ 64 ∧ i.MemAvailable < 2 ^ 64 ∧ i.Buffers < 2 ^ 64 ∧
  i.Cached < 2 ^ 64 ∧ i.SwapTotal < 2 ^ 64 ∧ i.SwapFree < 2 ^ 64 ∧ i.SwapCached < 2 ^ 64 ∧
  i.Shmem < 2 ^ 64 ∧ i.SReclaimable < 2 ^ 64 ∧ i.Zswap < 2 ^ 64 ∧ i.Zswapped < 2 ^ 64

instance (i : ProcMemInfo) : Decidable i.InRange := by
  unfold ProcMemInfo.InRange
  infer_instance

/-- Subtraction of two `uint64` values, as Go computes it (it wraps below zero). -/
def sub64 (a b : Nat) : Nat := (a + (2 ^ 64 - b % 2 ^ 64)) % 2 ^ 64

/-- The function `GetMemHtopLike` of `mem.go`. `goos` is `runtime.GOOS` and
`readProcMeminfo` is the outcome of `ReadProcMeminfo()`, which is consulted on Linux
only. -/
def GetMemHtopLike {ε : Type} (goos : Str) (readProcMeminfo : Except ε ProcMemInfo) :
    RamInfo :=
  let raminfo : RamInfo := { Total := 0, Used := 0, Mode := "htoplike".toList }
  if goos = "linux".toList then
    match readProcMeminfo with
    | .ok info =>
      if info.MemTotal > 0 then
        let usedDiff := add64 (add64 (add64 info.MemFree info.Cached) info.SReclaimable)
          info.Buffers
        let used :=
          if info.MemTotal ≥ usedDiff then sub64 info.MemTotal usedDiff
          else sub64 info.MemTotal info.MemFree
        let used :=
          if info.Zswap > 0 ∨ info.Zswapped > 0 then
            if used > info.Zswap then sub64 used info.Zswap else 0
          else used
        { Total := info.MemTotal, Used := used, Mode := "htoplike".toList }
      else raminfo
    | .error _ => raminfo
  else raminfo

/-- The used-memory formula of the `htoplike` model in the words of the
specification, on `uint64` values: `usedDiff = MemFree + Cached + SReclaimable +
Buffers` (wrapping); `base` is `MemTotal - usedDiff` when `MemTotal >= usedDiff` and
the wrapping difference `MemTotal - MemFree` otherwise; the result is `base` when
`Zswap` and `Zswapped` are both zero, else `base - Zswap` when `base > Zswap`, else 0. -/
def htopUsed (i : ProcMemInfo) : Nat :=
  let usedDiff := (i.MemFree + i.Cached + i.SReclaimable + i.Buffers) % 2 ^ 64
  let base :=
    if i.MemTotal ≥ usedDiff then i.MemTotal - usedDiff
    else if i.MemFree ≤ i.MemTotal then i.MemTotal - i.MemFree
    else i.MemTotal + 2 ^ 64 - i.MemFree
  if i.Zswap = 0 ∧ i.Zswapped = 0 then base
  else if base > i.Zswap then base - i.Zswap
  else 0

/-- A snapshot with the given `MemTotal`, `MemFree`, `Cached`, `SReclaimable`,
`Buffers` and `Zswap`, every other counter zero. -/
def snapshot (memTotal memFree cached sReclaimable buffers zswap : Nat) : ProcMemInfo :=
  { MemTotal := memTotal, MemFree := memFree, MemAvailable := 0, Buffers := buffers,
    Cached := cached, SwapTotal := 0, SwapFree := 0, SwapCached := 0, Shmem := 0,
    SReclaimable := sReclaimable, Zswap := zswap, Zswapped := 0 }

/-- The fields of gopsutil `mem.VirtualMemoryStat` the source reads (all `uint64`). -/
structure VirtualMemoryStat where
  Total : Nat
  Available : Nat
  Free : Nat
deriving DecidableEq, Repr, Inhabited

/-- The fields of gopsutil `mem.SwapMemoryStat` the source reads (both `uint64`). -/
structure SwapMemoryStat where
  Total : Nat
  Used : Nat
deriving DecidableEq, Repr, Inhabited

/-- The two switches of `pkg_flags.GlobalConfig` that `Ram` reads. -/
structure GlobalConfig where
  MemoryIncludeCache : Bool
  MemoryReportRawUsed : Bool
deriving DecidableEq, Repr, Inhabited

/-- The function `GetMemGopsutil` of `mem.go`; `virtualMemory` is the outcome of
`mem.VirtualMemory()`. -/
def GetMemGopsutil {ε : Type} (virtualMemory : Except ε VirtualMemoryStat) : RamInfo :=
  let raminfo : RamInfo := { Total := 0, Used := 0, Mode := "gopsutil".toList }
  match virtualMemory with
  | .ok v => { Total := v.Total, Used := sub64 v.Total v.Available, Mode := "gopsutil".toList }
  | .error _ => raminfo

/-- The function `Ram` of `mem.go`. -/
def Ram {ε : Type} (cfg : GlobalConfig) (goos : Str)
    (readProcMeminfo : Except ε ProcMemInfo) (virtualMemory : Except ε VirtualMemoryStat) :
    RamInfo :=
  if cfg.MemoryIncludeCache then
    match virtualMemory with
    | .error _ => { Total := 0, Used := 0, Mode := [] }
    | .ok v => { Total := v.Total, Used := sub64 v.Total v.Free, Mode := "includeCache".toList }
  else if cfg.MemoryReportRawUsed then GetMemHtopLike goos readProcMeminfo
  else if goos = "linux".toList ∧ (GetMemHtopLike goos readProcMeminfo).Total > 0 then
    GetMemHtopLike goos readProcMeminfo
  else GetMemGopsutil virtualMemory

/-- The function `Swap` of `mem.go`; `swapMemory` is the outcome of
`mem.SwapMemory()`. -/
def Swap {ε : Type} (goos : Str) (readProcMeminfo : Except ε ProcMemInfo)
    (swapMemory : Except ε SwapMemoryStat) : RamInfo :=
  let swapinfo : RamInfo := { Total := 0, Used := 0, Mode := [] }
  let fallback : RamInfo :=
    match swapMemory with
    | .error _ => swapinfo
    | .ok s => { Total := s.Total, Used := s.Used, Mode := [] }
  if goos = "linux".toList then
    match readProcMeminfo with
    | .ok info =>
      let usedDeductions := add64 info.SwapFree info.SwapCached
      if info.SwapTotal ≥ usedDeductions then
        { Total := info.SwapTotal, Used := sub64 info.SwapTotal usedDeductions, Mode := [] }
      else
        { Total := info.SwapTotal, Used := sub64 info.SwapTotal info.SwapFree, Mode := [] }
    | .error _ => fallback
  else fallback

/-- A snapshot with the given `SwapTotal`, `SwapFree` and `SwapCached`, every other
counter zero. -/
def swapSnapshot (swapTotal swapFree swapCached : Nat) : ProcMemInfo :=
  { MemTotal := 0, MemFree := 0, MemAvailable := 0, Buffers := 0, Cached := 0,
    SwapTotal := swapTotal, SwapFree := swapFree, SwapCached := swapCached, Shmem := 0,
    SReclaimable := 0, Zswap := 0, Zswapped := 0 }

/-- The used value of `Swap` on a snapshot, in the words of the specification, on
`uint64` values: `SwapTotal - (SwapFree + SwapCached)` when `SwapTotal` is at least
that (wrapping) sum, and the wrapping difference `SwapTotal - SwapFree` otherwise. -/
def swapUsed (i : ProcMemInfo) : Nat :=
  let usedDeductions := (i.SwapFree + i.SwapCached) % 2 ^ 64
  if i.SwapTotal ≥ usedDeductions then i.SwapTotal - usedDeductions
  else if i.SwapFree ≤ i.SwapTotal then i.SwapTotal - i.SwapFree
  else i.SwapTotal + 2 ^ 64 - i.SwapFree

/-! ### Parsing in `mem.go` -/

/-- The loop of Go `strings.Fields`: `cur` holds the field being read, reversed. -/
def fieldsAux : Str → Str → List Str
  | [], cur => if cur = [] then [] else [cur.reverse]
  | c :: s, cur =>
    if isSpace c then
      if cur = [] then fieldsAux s [] else cur.reverse :: fieldsAux s []
    else fieldsAux s (c :: cur)

/-- Go `strings.Fields`: the maximal runs of non-space characters. -/
def fields (s : Str) : List Str := fieldsAux s []

/-- Go `strings.TrimSuffix s suffix`. -/
def trimSuffix (s suffix : Str) : Str :=
  if suffix.isSuffixOf s then s.take (s.length - suffix.length) else s

/-- The constant `cutoff` of Go `strconv.ParseUint` for base 10: the smallest number
whose tenfold exceeds `maxUint64`. -/
def cutoff10 : Nat := (2 ^ 64 - 1) / 10 + 1

/-- The loop of Go `strconv.ParseUint(s, 10, 64)`: a character that is not a decimal
digit is a syntax error (a letter is a digit of value 10 or more, which base 10
rejects), `n >= cutoff` and a wrapped or too large `n + d` are range errors. -/
def parseUintLoop : Str → Nat → Option Nat
  | [], n => some n
  | c :: s, n =>
    if '0'.toNat ≤ c.toNat ∧ c.toNat ≤ '9'.toNat then
      let d := c.toNat - '0'.toNat
      if n ≥ cutoff10 then none
      else
        let n := (n * 10) % 2 ^ 64
        let n1 := (n + d) % 2 ^ 64
        if n1 < n ∨ n1 > 2 ^ 64 - 1 then none
        else parseUintLoop s n1
    else none

/-- Go `strconv.ParseUint(s, 10, 64)`; `none` stands for a non-nil error. -/
def parseUint (s : Str) : Option Nat :=
  if s = [] then none else parseUintLoop s 0

/-- The `switch key` of `ReadProcMeminfo`. -/
def setField (info : ProcMemInfo) (key : Str) (val : Nat) : ProcMemInfo :=
  if key = "MemTotal".toList then { info with MemTotal := val }
  else if key = "MemFree".toList then { info with MemFree := val }
  else if key = "MemAvailable".toList then { info with MemAvailable := val }
  else if key = "Buffers".toList then { info with Buffers := val }
  else if key = "Cached".toList then { info with Cached := val }
  else if key = "SwapTotal".toList then { info with SwapTotal := val }
  else if key = "SwapFree".toList then { info with SwapFree := val }
  else if key = "SwapCached".toList then { info with SwapCached := val }
  else if key = "Shmem".toList then { info with Shmem := val }
  else if key = "SReclaimable".toList then { info with SReclaimable := val }
  else if key = "Zswap".toList then { info with Zswap := val }
  else if key = "Zswapped".toList then { info with Zswapped := val }
  else info

/-- One iteration of the loop `for scanner.Scan()` of `ReadProcMeminfo`. -/
def meminfoStep (info : ProcMemInfo) (line : Str) : ProcMemInfo :=
  match fields line with
  | p0 :: p1 :: _ =>
    let key := trimSuffix p0 ":".toList
    match parseUint p1 with
    | none => info
    | some val => setField info key ((val * 1024) % 2 ^ 64)
  | _ => info

/-- The value `&ProcMemInfo{}`. -/
def zeroMemInfo : ProcMemInfo :=
  { MemTotal := 0, MemFree := 0, MemAvailable := 0, Buffers := 0, Cached := 0,
    SwapTotal := 0, SwapFree := 0, SwapCached := 0, Shmem := 0, SReclaimable := 0,
    Zswap := 0, Zswapped := 0 }

/-- The function `ReadProcMeminfo` of `mem.go`. `openFile` is the outcome of
`os.Open("/proc/meminfo")` together with what the scanner then delivers: the lines it
returns and its final `scanner.Err()`. The result is the pair `(info, err)`. -/
def ReadProcMeminfo {ε : Type} (openFile : Except ε (List Str × Option ε)) :
    Option ProcMemInfo × Option ε :=
  match openFile with
  | .error err => (none, some err)
  | .ok (lines, scanErr) => (some (lines.foldl meminfoStep zeroMemInfo), scanErr)

/-- The loop `for scanner.Scan()` of `CallFree`, with the counter `lineNum`. -/
def callFreeLoop : List Str → Nat → RamInfo → RamInfo
  | [], _, raminfo => raminfo
  | line :: rest, lineNum, raminfo =>
    let lineNum := lineNum + 1
    if lineNum = 1 then callFreeLoop rest lineNum raminfo
    else if hasPrefix line "Mem:".toList then
      match fields line with
      | _ :: f1 :: f2 :: _ =>
        let raminfo :=
          match parseUint f1 with
          | some total => { raminfo with Total := total }
          | none => raminfo
        match parseUint f2 with
        | some used => { raminfo with Used := used }
        | none => raminfo
      | _ => raminfo
    else callFreeLoop rest lineNum raminfo

/-- The function `CallFree` of `mem.go`. `freeOutput` is the outcome of running
`free -b`: the lines of its standard output, or the error of `cmd.Run()`. -/
def CallFree {ε : Type} (goos : Str) (freeOutput : Except ε (List Str)) : RamInfo :=
  let raminfo : RamInfo := { Total := 0, Used := 0, Mode := "callFree".toList }
  if goos ≠ "linux".toList ∧ goos ≠ "freebsd".toList then raminfo
  else
    match freeOutput with
    | .error _ => raminfo
    | .ok lines => callFreeLoop lines 0 raminfo

/-! ### Meminfo and `free` lines in the words of the specification -/

/-- The 12 recognised keys of the memory-info file. -/
def meminfoKeys : List Str :=
  [ "MemTotal".toList, "MemFree".toList, "MemAvailable".toList, "Buffers".toList,
    "Cached".toList, "SwapTotal".toList, "SwapFree".toList, "SwapCached".toList,
    "Shmem".toList, "SReclaimable".toList, "Zswap".toList, "Zswapped".toList ]

/-- The counter of a snapshot that a recognised key names (0 for any other key). -/
def getField (info : ProcMemInfo) (key : Str) : Nat :=
  if key = "MemTotal".toList then info.MemTotal
  else if key = "MemFree".toList then info.MemFree
  else if key = "MemAvailable".toList then info.MemAvailable
  else if key = "Buffers".toList then info.Buffers
  else if key = "Cached".toList then info.Cached
  else if key = "SwapTotal".toList then info.SwapTotal
  else if key = "SwapFree".toList then info.SwapFree
  else if key = "SwapCached".toList then info.SwapCached
  else if key = "Shmem".toList then info.Shmem
  else if key = "SReclaimable".toList then info.SReclaimable
  else if key = "Zswap".toList then info.Zswap
  else if key = "Zswapped".toList then info.Zswapped
  else 0

/-- The number an unsigned decimal denotes. -/
def decimalValue (s : Str) : Nat :=
  s.foldl (fun n c => 10 * n + (c.toNat - '0'.toNat)) 0

/-- The text `s` is an unsigned decimal: one or more of the digits `0` to `9`. -/
def IsDecimal (s : Str) : Prop :=
  s ≠ [] ∧ ∀ c ∈ s, '0'.toNat ≤ c.toNat ∧ c.toNat ≤ '9'.toNat

instance (s : Str) : Decidable (IsDecimal s) := by
  unfold IsDecimal
  infer_instance

/-- The first field without one trailing colon. -/
def dropColon (s : Str) : Str :=
  if s.getLast? = some ':' then s.dropLast else s

/-- What a line of the memory-info text sets: when the line has at least two
whitespace-separated fields, its first field minus one trailing colon is one of the 12
recognised keys, and its second field is an unsigned decimal that fits in 64 bits, the
key and the decimal's value; nothing otherwise. -/
def lineEntry (line : Str) : Option (Str × Nat) :=
  match fields line with
  | p0 :: p1 :: _ =>
    if dropColon p0 ∈ meminfoKeys ∧ IsDecimal p1 ∧ decimalValue p1 < 2 ^ 64 then
      some (dropColon p0, decimalValue p1)
    else none
  | _ => none

/-- A memory-info text for the runs: two recognised lines among a line without value,
an unrecognised key, a malformed number and a number beyond 64 bits. -/
def meminfoDemo : List Str :=
  [ "MemTotal:       16384 kB".toList,
    "MemFree:".toList,
    "HugePages_Total:       7".toList,
    "Cached:         12x4 kB".toList,
    "Buffers:        99999999999999999999 kB".toList,
    "SwapTotal:\t2048 kB".toList ]

/-- An output of `free -b` for the runs. -/
def freeDemo : List Str :=
  [ "               total        used        free      shared  buff/cache   available".toList,
    "Mem:      8000000   3200000   1000000   1000   3800000   4500000".toList,
    "Swap:     2000000   0   2000000".toList ]

/-- An output of `free -b` whose total does not fit in 64 bits. -/
def freeHuge : List Str :=
  [ "               total        used        free".toList,
    "Mem:      99999999999999999999   5   7".toList ]

/-! ## `gpu_linux.go` -/

/-- Go `strings.LastIndex s c` for a one-character needle: the position of its last
occurrence, or `-1`. -/
def lastIndex (s : Str) (c : Char) : Int :=
  if c ∈ s then ((s.length - 1 - s.reverse.indexOf c : Nat) : Int) else -1

/-- Go `unicode.ToUpper`: ASCII is handled directly, everything else goes through the
Unicode case table `utbl`. -/
def toUpperRune (utbl : Char → Char) (c : Char) : Char :=
  if c.toNat ≤ 127 then
    if 'a'.toNat ≤ c.toNat ∧ c.toNat ≤ 'z'.toNat then Char.ofNat (c.toNat - 32) else c
  else utbl c

/-- Go `strings.ToUpper`. -/
def toUpper (utbl : Char → Char) (s : Str) : Str := s.map (toUpperRune utbl)

/-- The class `\d` of Go regular expressions. -/
def isDigit (c : Char) : Bool := decide ('0'.toNat ≤ c.toNat ∧ c.toNat ≤ '9'.toNat)

/-- The class `[a-z]`. -/
def isLowerLetter (c : Char) : Bool := decide ('a'.toNat ≤ c.toNat ∧ c.toNat ≤ 'z'.toNat)

/-- The class `[a-z0-9]`. -/
def isLowerAlnum (c : Char) : Bool := isLowerLetter c || isDigit c

/-- The class `\s` of Go regular expressions: tab, line feed, form feed, carriage
return, space. -/
def isReSpace (c : Char) : Bool :=
  c.toNat = 0x09 || c.toNat = 0x0A || c.toNat = 0x0C || c.toNat = 0x0D || c.toNat = 0x20

/-- Go `regexp.FindStringSubmatch`, reduced to submatch 1, for an expression whose
match at a given start is unique: the leftmost start at which `matchHere` succeeds
decides. -/
def findSubmatch (matchHere : Str → Option Str) : Str → Option Str
  | [] => matchHere []
  | c :: s =>
    match matchHere (c :: s) with
    | some m => some m
    | none => findSubmatch matchHere s

/-- The expression `adreno[-_](\d+)` matched at the start of `s`: submatch 1, the
greedy digit run. -/
def matchAdrenoHere (s : Str) : Option Str :=
  if "adreno".toList.isPrefixOf s then
    match s.drop 6 with
    | sep :: rest =>
      if sep = '-' ∨ sep = '_' then
        if rest.takeWhile isDigit ≠ [] then some (rest.takeWhile isDigit) else none
      else none
    | [] => none
  else none

/-- The expression `mali[-_]([a-z]\d+)` matched at the start of `s`: submatch 1. -/
def matchMaliHere (s : Str) : Option Str :=
  if "mali".toList.isPrefixOf s then
    match s.drop 4 with
    | sep :: l :: rest =>
      if (sep = '-' ∨ sep = '_') ∧ isLowerLetter l = true then
        if rest.takeWhile isDigit ≠ [] then some (l :: rest.takeWhile isDigit) else none
      else none
    | _ => none
  else none

/-- The expression `sun\d+i-([a-z0-9]+)` matched at the start of `s`: submatch 1. The
greedy digit run must be followed by `i-`; a shorter run would be followed by a digit. -/
def matchSunHere (s : Str) : Option Str :=
  if "sun".toList.isPrefixOf s then
    if (s.drop 3).takeWhile isDigit ≠ [] then
      match (s.drop 3).dropWhile isDigit with
      | 'i' :: '-' :: rest =>
        if rest.takeWhile isLowerAlnum ≠ [] then some (rest.takeWhile isLowerAlnum) else none
      | _ => none
    else none
  else none

/-- The conversion `bytes.ReplaceAll(rawBytes, []byte{0}, []byte(" "))`. -/
def replaceNul (rawBytes : Str) : Str :=
  rawBytes.map (fun c => if c = Char.ofNat 0 then ' ' else c)

/-- The function `parseSocModel` of `gpu_linux.go`. -/
def parseSocModel (tbl utbl : Char → Char) (driver rawBytes : Str) : Str :=
  let content := replaceNul rawBytes
  let lower := toLower tbl content
  if driver = "msm".toList ∨ contains lower "adreno".toList = true then
    match findSubmatch matchAdrenoHere lower with
    | some m => "Qualcomm Adreno ".toList ++ m
    | none => "Qualcomm Adreno".toList
  else if driver = "panfrost".toList ∨ driver = "lima".toList ∨
      contains lower "mali".toList = true then
    match findSubmatch matchMaliHere lower with
    | some m => "ARM Mali ".toList ++ toUpper utbl m
    | none => "ARM Mali".toList
  else if (driver = "vc4".toList ∨ driver = "vc4-drm".toList ∨ driver = "v3d".toList) ∧
      contains lower "bcm2712".toList = true then
    "Broadcom VideoCore VII (Pi 5)".toList
  else if (driver = "vc4".toList ∨ driver = "vc4-drm".toList ∨ driver = "v3d".toList) ∧
      contains lower "bcm2711".toList = true then
    "Broadcom VideoCore VI (Pi 4)".toList
  else if (driver = "vc4".toList ∨ driver = "vc4-drm".toList ∨ driver = "v3d".toList) ∧
      (contains lower "bcm2837".toList = true ∨ contains lower "bcm2835".toList = true) then
    "Broadcom VideoCore IV".toList
  else if contains lower "allwinner".toList = true ∨ contains lower "sun50i".toList = true ∨
      contains lower "sun8i".toList = true then
    match findSubmatch matchSunHere lower with
    | some m => "Allwinner ".toList ++ toUpper utbl m
    | none => "Allwinner Display Engine".toList
  else if driver = "tegra".toList ∧ contains lower "tegra194".toList = true then
    "NVIDIA Tegra Xavier".toList
  else if driver = "tegra".toList ∧ contains lower "tegra234".toList = true then
    "NVIDIA Orin".toList
  else if driver = "tegra".toList ∧ contains lower "tegra210".toList = true then
    "NVIDIA Tegra X1".toList
  else []

/-- Go `filepath.Base` on Linux (separator `/`, no volume names). -/
def filepathBase (path : Str) : Str :=
  if path = [] then ".".toList
  else
    let path := (path.reverse.dropWhile (fun c => c = '/')).reverse
    let i := lastIndex path '/'
    let path := if i ≥ 0 then path.drop (i + 1).toNat else path
    if path = [] then "/".toList else path

/-- The keys of the map `excludedDrivers` of `getFromSysfsDRM`. -/
def excludedDrivers : List Str :=
  [ "virtio-pci".toList, "virtio_gpu".toList, "bochs-drm".toList, "qxl".toList,
    "vmwgfx".toList, "cirrus".toList, "vboxvideo".toList, "hyperv_fb".toList,
    "simpledrm".toList, "simplefb".toList, "cirrus-qemu".toList ]

/-- The `switch driverName` of `getFromSysfsDRM`: the label it returns, if any. -/
def driverLabel (driverName : Str) : Option Str :=
  if driverName = "vc4".toList ∨ driverName = "vc4-drm".toList then
    some "Broadcom VideoCore IV/VI (Raspberry Pi)".toList
  else if driverName = "v3d".toList ∨ driverName = "v3d-drm".toList then
    some "Broadcom V3D (Raspberry Pi 4/5)".toList
  else if driverName = "msm".toList ∨ driverName = "msm_drm".toList then
    some "Qualcomm Adreno (Unknown Model)".toList
  else if driverName = "panfrost".toList then some "ARM Mali (Panfrost)".toList
  else if driverName = "lima".toList then some "ARM Mali (Lima)".toList
  else if driverName = "sun4i-drm".toList ∨ driverName = "sunxi-drm".toList then
    some "Allwinner Display Engine".toList
  else if driverName = "tegra".toList then some "NVIDIA Tegra".toList
  else if driverName = "ast".toList then
    some "ASPEED Technology, Inc. ASPEED Graphics Family".toList
  else if driverName = "i915".toList ∨ driverName = "i915-drm".toList then
    some "Intel Integrated Graphics".toList
  else if driverName = "mgag200".toList then some "Matrox G200 Series".toList
  else none

/-- What `getFromSysfsDRM` reads of one `/sys/class/drm/card*` directory: the target
of the `device/driver` link (absent when `os.Readlink` fails) and the content of
`device/of_node/compatible` (absent when `os.ReadFile` fails). -/
structure DrmCard where
  driverLink : Option Str
  compatible : Option Str
deriving DecidableEq, Repr, Inhabited

/-- The loop `for _, path := range matches` of `getFromSysfsDRM`: the name it returns,
if it returns one. -/
def drmLoop (tbl utbl : Char → Char) : List DrmCard → Option Str
  | [] => none
  | card :: rest =>
    match card.driverLink with
    | none => drmLoop tbl utbl rest
    | some driverLink =>
      let driverName := filepathBase driverLink
      if driverName ∈ excludedDrivers then drmLoop tbl utbl rest
      else
        let exactModel :=
          match card.compatible with
          | some compatibleBytes => parseSocModel tbl utbl driverName compatibleBytes
          | none => []
        if exactModel ≠ [] then some exactModel
        else
          match driverLabel driverName with
          | some label => some label
          | none =>
            if driverName ≠ [] then some ("Direct Render Manager ".toList ++ driverName)
            else drmLoop tbl utbl rest

/-- The function `getFromSysfsDRM` of `gpu_linux.go`. `cards` are the matches of the
glob in order, `model` is the outcome of reading the device-tree model file. -/
def getFromSysfsDRM (tbl utbl : Char → Char) (cards : List DrmCard) (model : Option Str) :
    Str :=
  match drmLoop tbl utbl cards with
  | some name => name
  | none =>
    match model with
    | some model =>
      if contains model "Raspberry Pi".toList then "Broadcom VideoCore (Integrated)".toList
      else "None".toList
    | none => "None".toList

/-! ### The GPU resolvers in the words of the specification -/

/-- At offset `i` of `s` stands `adreno-` or `adreno_`, immediately followed by a
digit. -/
def adrenoAt (s : Str) (i : Nat) : Bool :=
  ("adreno-".toList.isPrefixOf (s.drop i) || "adreno_".toList.isPrefixOf (s.drop i)) &&
    (match s.drop (i + 7) with
     | d :: _ => isDigit d
     | [] => false)

/-- The maximal digit run that follows the seven characters `adreno-` or `adreno_` at
offset `i`. -/
def digitRunAt (s : Str) (i : Nat) : Str := (s.drop (i + 7)).takeWhile isDigit

/-- The driver name of a card: the base name of its driver link, absent when the link
cannot be resolved. -/
def DrmCard.driverName (card : DrmCard) : Option Str := card.driverLink.map filepathBase

/-- The card qualifies: its driver is present and not in the excluded-driver set. -/
def DrmCard.qualifies (card : DrmCard) : Bool :=
  match card.driverName with
  | some d => decide (d ∉ excludedDrivers)
  | none => false

/-- The known drivers and their fixed labels. -/
def knownDriverLabels : List (Str × Str) :=
  [ ("vc4".toList, "Broadcom VideoCore IV/VI (Raspberry Pi)".toList),
    ("vc4-drm".toList, "Broadcom VideoCore IV/VI (Raspberry Pi)".toList),
    ("v3d".toList, "Broadcom V3D (Raspberry Pi 4/5)".toList),
    ("v3d-drm".toList, "Broadcom V3D (Raspberry Pi 4/5)".toList),
    ("msm".toList, "Qualcomm Adreno (Unknown Model)".toList),
    ("msm_drm".toList, "Qualcomm Adreno (Unknown Model)".toList),
    ("panfrost".toList, "ARM Mali (Panfrost)".toList),
    ("lima".toList, "ARM Mali (Lima)".toList),
    ("sun4i-drm".toList, "Allwinner Display Engine".toList),
    ("sunxi-drm".toList, "Allwinner Display Engine".toList),
    ("tegra".toList, "NVIDIA Tegra".toList),
    ("ast".toList, "ASPEED Technology, Inc. ASPEED Graphics Family".toList),
    ("i915".toList, "Intel Integrated Graphics".toList),
    ("i915-drm".toList, "Intel Integrated Graphics".toList),
    ("mgag200".toList, "Matrox G200 Series".toList) ]

/-- The fixed label of a driver, when the driver is a known one. -/
def knownLabel (d : Str) : Option Str :=
  (knownDriverLabels.find? (fun e => decide (e.1 = d))).map Prod.snd

/-- What a qualifying card makes `getFromSysfsDRM` return: the result of
`parseSocModel` on its compatible blob if there is one and the result is non-empty,
else the fixed label of a known driver, else `Direct Render Manager <driver>`. -/
def cardResult (tbl utbl : Char → Char) (card : DrmCard) : Str :=
  match card.driverName with
  | none => []
  | some d =>
    let exact :=
      match card.compatible with
      | some blob => parseSocModel tbl utbl d blob
      | none => []
    if exact ≠ [] then exact
    else
      match knownLabel d with
      | some label => label
      | none => "Direct Render Manager ".toList ++ d

/-- The result when no card qualifies: the VideoCore label when the device-tree model
text is readable and contains `Raspberry Pi`, and `None` otherwise. -/
def boardResult (model : Option Str) : Str :=
  match model with
  | some m =>
    if "Raspberry Pi".toList <:+: m then "Broadcom VideoCore (Integrated)".toList
    else "None".toList
  | none => "None".toList

/-- DRM cards for the runs: an unreadable driver link, a virtual GPU, an Adreno with a
compatible blob, and an Intel card that is never reached. -/
def cardsDemo : List DrmCard :=
  [ ⟨none, some "qcom,adreno-630.2".toList⟩,
    ⟨some "../../../bus/virtio/drivers/virtio_gpu".toList, none⟩,
    ⟨some "../../../../bus/platform/drivers/msm".toList,
      some "qcom,adreno-750.1\x00qcom,adreno".toList⟩,
    ⟨some "../../../bus/pci/drivers/i915".toList, none⟩ ]

/-! ### `getFromLspci` -/

/-- The closure `extractName` of `getFromLspci`. -/
def extractName (line : Str) : Str :=
  let idx := lastIndex line ':'
  if idx = -1 ∨ idx = (line.length : Int) - 1 then []
  else
    let name := trimSpace (line.drop (idx + 1).toNat)
    let parenIdx := lastIndex name '('
    if parenIdx ≠ -1 then trimSpace (name.take parenIdx.toNat) else name

/-- A literal `p` of a Go regular expression under the flag `(?i)` matches the
character `c`: the two lie in one orbit of `unicode.SimpleFold`. For the lower-case
ASCII letters and the other ASCII characters that the patterns of the source are made
of, the orbit is the letter and its capital, with the long s (U+017F) added for `s`
and the Kelvin sign (U+212A) added for `k`. -/
def foldEq (p c : Char) : Bool :=
  c = p ||
  (decide ('a'.toNat ≤ p.toNat ∧ p.toNat ≤ 'z'.toNat) && decide (c.toNat + 32 = p.toNat)) ||
  (p = 's' && c.toNat = 0x17F) ||
  (p = 'k' && c.toNat = 0x212A)

/-- A literal string under `(?i)` matched at the start of `s`: the rest of `s` after
the match. -/
def matchFold : Str → Str → Option Str
  | [], s => some s
  | _ :: _, [] => none
  | p :: ps, c :: s => if foldEq p c then matchFold ps s else none

/-- The unanchored expression `(?i)pat` for a literal `pat`, as
`regexp.MatchString` decides it. -/
def searchFold (pat : Str) : Str → Bool
  | [] => (matchFold pat []).isSome
  | c :: s => (matchFold pat (c :: s)).isSome || searchFold pat s

/-- The expression `(?i)^cirrus logic (cl[-\s]?)?gd 5`, as `regexp.MatchString`
decides it: after `cirrus logic ` comes `gd 5`, or `cl` and `gd 5`, or `cl`, one of
`-` and `\s`, and `gd 5`. -/
def matchCirrus (name : Str) : Bool :=
  match matchFold "cirrus logic ".toList name with
  | none => false
  | some r =>
    (matchFold "gd 5".toList r).isSome ||
    (match matchFold "cl".toList r with
     | none => false
     | some r2 =>
       (matchFold "gd 5".toList r2).isSome ||
       (match r2 with
        | c :: r3 => (c = '-' || isReSpace c) && (matchFold "gd 5".toList r3).isSome
        | [] => false))

/-- The list `excludePatterns` of `getFromLspci`, each expression as the test
`regexp.MatchString(pattern, name)` it stands for. -/
def excludePatterns : List (Str → Bool) :=
  [ fun name => hasPrefix name "1111".toList,
    matchCirrus,
    searchFold "virtio".toList,
    searchFold "vmware".toList,
    searchFold "qxl".toList,
    searchFold "hyper-v".toList ]

/-- The closure `isExcluded` of `getFromLspci`. -/
def isExcluded (name : Str) : Bool :=
  excludePatterns.any (fun pattern => pattern name)

/-- The list `priorityVendors` of `getFromLspci`. -/
def priorityVendors : List Str :=
  [ "nvidia".toList, "amd".toList, "radeon".toList, "intel".toList, "arc".toList,
    "snap".toList, "qualcomm".toList, "snapdragon".toList ]

/-- The inner loop `for _, vendor := range priorityVendors` of the first pass: the
name it returns, if it returns one. -/
def vendorLoop (lower line : Str) : List Str → Option Str
  | [] => none
  | vendor :: rest =>
    if contains lower vendor then
      if extractName line ≠ [] ∧ isExcluded (extractName line) = false then
        some (extractName line)
      else vendorLoop lower line rest
    else vendorLoop lower line rest

/-- The first pass of `getFromLspci` over the lines: the name it returns, if it
returns one. -/
def priorityLoop (tbl : Char → Char) : List Str → Option Str
  | [] => none
  | line :: lines =>
    let lower := toLower tbl line
    if (!contains lower "vga".toList && !contains lower "3d".toList &&
        !contains lower "display".toList) = true then
      priorityLoop tbl lines
    else
      match vendorLoop lower line priorityVendors with
      | some name => some name
      | none => priorityLoop tbl lines

/-- The second pass of `getFromLspci` over the lines: the name it returns, if it
returns one. -/
def fallbackLoop (tbl : Char → Char) : List Str → Option Str
  | [] => none
  | line :: lines =>
    let lower := toLower tbl line
    if (contains lower "vga".toList || contains lower "3d".toList ||
        contains lower "display".toList) = true then
      if extractName line ≠ [] ∧ isExcluded (extractName line) = false then
        some (extractName line)
      else fallbackLoop tbl lines
    else fallbackLoop tbl lines

/-- The function `getFromLspci` of `gpu_linux.go`; `lspci` is the outcome of running
the `lspci` command, its standard output as one text. -/
def getFromLspci {ε : Type} (tbl : Char → Char) (lspci : Except ε Str) : Str :=
  match lspci with
  | .error _ => "None".toList
  | .ok out =>
    let lines := split out '\n'
    match priorityLoop tbl lines with
    | some name => name
    | none =>
      match fallbackLoop tbl lines with
      | some name => name
      | none => "None".toList

/-! ### `getFromLspci` in the words of the specification -/

/-- The text after the last occurrence of `c` (the whole text when `c` is absent). -/
def afterLast (c : Char) (s : Str) : Str :=
  (s.reverse.takeWhile (fun x => x ≠ c)).reverse

/-- The text before the last occurrence of `c` (empty when `c` is absent). -/
def beforeLast (c : Char) (s : Str) : Str :=
  ((s.reverse.dropWhile (fun x => x ≠ c)).drop 1).reverse

/-- The device name of a line: the text after the line's last colon, trimmed, cut
before its last `(` when it has one and trimmed again; empty when the line has no
colon. -/
def nameOf (line : Str) : Str :=
  if ':' ∈ line then
    let name := trimSpace (afterLast ':' line)
    if '(' ∈ name then trimSpace (beforeLast '(' name) else name
  else []

/-- The line is of a display class: its lower-cased text contains `vga`, `3d` or
`display`. -/
def isDisplayLine (tbl : Char → Char) (line : Str) : Bool :=
  contains (toLower tbl line) "vga".toList || contains (toLower tbl line) "3d".toList ||
    contains (toLower tbl line) "display".toList

/-- Case-insensitive reading of a character: the pairs of a character and the
lower-case letter it is read as. These are the capitals and, as in Unicode simple case
folding, the long s (U+017F) for `s` and the Kelvin sign (U+212A) for `k`. -/
def foldPairs : List (Char × Char) :=
  [ ('A', 'a'), ('B', 'b'), ('C', 'c'), ('D', 'd'), ('E', 'e'), ('F', 'f'), ('G', 'g'),
    ('H', 'h'), ('I', 'i'), ('J', 'j'), ('K', 'k'), ('L', 'l'), ('M', 'm'), ('N', 'n'),
    ('O', 'o'), ('P', 'p'), ('Q', 'q'), ('R', 'r'), ('S', 's'), ('T', 't'), ('U', 'u'),
    ('V', 'v'), ('W', 'w'), ('X', 'x'), ('Y', 'y'), ('Z', 'z'),
    (Char.ofNat 0x17F, 's'), (Char.ofNat 0x212A, 'k') ]

/-- The character `c` is the pattern character `p` up to case. -/
def sameFolded (p c : Char) : Bool := decide (c = p) || decide ((c, p) ∈ foldPairs)

/-- The text `s` is the pattern `pat` up to case, character by character. -/
def foldSame (pat s : Str) : Bool :=
  decide (pat.length = s.length) && (List.zip pat s).all (fun pc => sameFolded pc.1 pc.2)

/-- The text `s` starts with the pattern `pat` up to case. -/
def foldPrefix (pat s : Str) : Bool := foldSame pat (s.take pat.length)

/-- The text `s` contains the pattern `pat` up to case. -/
def foldInfix (pat s : Str) : Bool := s.tails.any (fun t => foldPrefix pat t)

/-- The beginnings that the Cirrus Logic exclusion pattern stands for: `cirrus logic `,
then optionally `cl` with optionally one hyphen or white-space character (tab, line
feed, form feed, carriage return, space), then `gd 5`. -/
def cirrusPrefixes : List Str :=
  [ "cirrus logic gd 5".toList,
    "cirrus logic clgd 5".toList,
    "cirrus logic cl-gd 5".toList,
    "cirrus logic cl\tgd 5".toList,
    "cirrus logic cl\ngd 5".toList,
    "cirrus logic cl\x0cgd 5".toList,
    "cirrus logic cl\rgd 5".toList,
    "cirrus logic cl gd 5".toList ]

/-- The name matches an exclusion pattern: it starts with `1111`, or it starts, up to
case, with one of the Cirrus Logic GD 5 beginnings, or it contains, up to case,
`virtio`, `vmware`, `qxl` or `hyper-v`. -/
def matchesExclusion (name : Str) : Bool :=
  "1111".toList.isPrefixOf name ||
  cirrusPrefixes.any (fun p => foldPrefix p name) ||
  foldInfix "virtio".toList name ||
  foldInfix "vmware".toList name ||
  foldInfix "qxl".toList name ||
  foldInfix "hyper-v".toList name

/-- The line is a candidate: it is of a display class, its name is non-empty and
matches no exclusion pattern. -/
def isCandidate (tbl : Char → Char) (line : Str) : Bool :=
  isDisplayLine tbl line && decide (nameOf line ≠ []) && !matchesExclusion (nameOf line)

/-- The candidate test with the exclusion test as `getFromLspci` computes it; used in
the proofs about the two passes. -/
def codeCandidate (tbl : Char → Char) (line : Str) : Bool :=
  isDisplayLine tbl line && decide (nameOf line ≠ []) && !isExcluded (nameOf line)

/-- The lower-cased line contains one of the priority vendors. -/
def hasPriorityVendor (tbl : Char → Char) (line : Str) : Bool :=
  priorityVendors.any (fun vendor => contains (toLower tbl line) vendor)

/-- The description of an `lspci` line: the line without its leading slot-address
token and the blank after it. -/
def description (line : Str) : Str :=
  (line.dropWhile (fun c => c ≠ ' ')).drop 1

/-- An `lspci` output for the runs: a paravirtual adapter of VGA class, a network
card of the priority vendor Intel, an ASPEED adapter, and an NVIDIA adapter. -/
def lspciDemo : Str :=
  ("00:01.0 VGA compatible controller: Red Hat, Inc. Virtio GPU (rev 01)\n" ++
   "00:02.0 Ethernet controller: Intel Corporation 82574L Gigabit Network Connection\n" ++
   "00:03.0 VGA compatible controller: ASPEED Technology, Inc. ASPEED Graphics Family (rev 41)\n" ++
   "01:00.0 VGA compatible controller: NVIDIA Corporation Device 2504 (rev a1)\n").toList

/-- Display-class lines whose device name matches an exclusion pattern, one or more
for each of the six patterns, in several spellings. -/
def excludedDemo : List Str :=
  [ "00:02.0 VGA compatible controller: Device 1234:1111 (rev 02)".toList,
    "00:02.0 VGA compatible controller: Cirrus Logic GD 5446".toList,
    "00:02.0 VGA compatible controller: CIRRUS LOGIC CL-GD 5430 (rev 01)".toList,
    "00:02.0 VGA compatible controller: Cirrus Logic CL GD 5480".toList,
    "00:02.0 VGA compatible controller: cirrus logic clgd 5434".toList,
    "00:01.0 VGA compatible controller: Red Hat, Inc. Virtio GPU (rev 01)".toList,
    "00:01.0 Display controller: Red Hat, Inc. VIRTIO 1.0 GPU".toList,
    "00:0f.0 VGA compatible controller: VMware SVGA II Adapter".toList,
    "00:02.0 VGA compatible controller: Red Hat, Inc. QXL paravirtual graphic card (rev 04)".toList,
    "00:08.0 VGA compatible controller: Microsoft Corporation Hyper-V virtual VGA".toList ]

/-- An `lspci` output with a single device, a network card on bus `3d`. -/
def lspciBus3d : Str :=
  "3d:00.0 Ethernet controller: Intel Corporation Ethernet Connection X722 for 10GbE SFP+ (rev 09)\n".toList

/-! ## Facts about the `strings` functions -/

theorem hasPrefix_iff (s p : Str) : hasPrefix s p = true ↔ p <+: s := by
  simp [hasPrefix]

theorem contains_iff (s sub : Str) : contains s sub = true ↔ sub <:+: s := by
  induction s with
  | nil =>
    simp only [contains, List.isPrefixOf_iff_prefix]
    constructor
    · intro h; exact h.isInfix
    · intro h; rw [List.eq_nil_of_infix_nil h]
  | cons c s ih =>
    simp only [contains, Bool.or_eq_true, List.isPrefixOf_iff_prefix, ih]
    exact List.infix_cons_iff.symm

theorem toLower_append (tbl : Char → Char) (a b : Str) :
    toLower tbl (a ++ b) = toLower tbl a ++ toLower tbl b := by
  simp [toLower]

theorem toLower_join (tbl : Char → Char) (l : List Str) :
    toLower tbl (join l ",".toList) = join (l.map (toLower tbl)) ",".toList := by
  induction l with
  | nil => rfl
  | cons a t ih =>
    cases t with
    | nil => rfl
    | cons b rest =>
      simp only [join, List.map, toLower_append] at ih ⊢
      rw [ih]
      rfl

/-- A needle without the separator that begins inside `u ++ c :: v` and is a prefix
of it lies inside `u`. -/
theorem prefix_of_prefix_append_sep {sub u v : Str} {c : Char} (hc : c ∉ sub)
    (h : sub <+: u ++ c :: v) : sub <+: u := by
  have h2 : u ++ [c] <+: u ++ c :: v := ⟨v, by simp⟩
  rcases List.prefix_or_prefix_of_prefix h h2 with h3 | h3
  · rcases List.prefix_concat_iff.mp (by simpa using h3) with h4 | h4
    · exact absurd (by rw [h4]; simp) hc
    · exact h4
  · exact absurd (h3.subset (by simp)) hc

/-- A needle without the separator that occurs in `u ++ c :: v` occurs in `u` or
in `v`. -/
theorem infix_append_sep {sub : Str} {c : Char} (hc : c ∉ sub) :
    ∀ (u v : Str), sub <:+: u ++ c :: v → sub <:+: u ∨ sub <:+: v := by
  intro u
  induction u with
  | nil =>
    intro v h
    rcases List.infix_cons_iff.mp (by simpa using h) with h1 | h1
    · left
      exact (prefix_of_prefix_append_sep (u := []) hc (by simpa using h1)).isInfix
    · right; exact h1
  | cons x u ih =>
    intro v h
    rcases List.infix_cons_iff.mp (by simpa using h) with h1 | h1
    · left
      exact (prefix_of_prefix_append_sep (u := x :: u) hc (by simpa using h1)).isInfix
    · rcases ih v h1 with h2 | h2
      · left; exact List.infix_cons_iff.mpr (Or.inr h2)
      · right; exact h2

/-- A non-empty needle without a comma occurs in the comma-joined options exactly
when it occurs in one of the options. -/
theorem infix_join_iff {sub : Str} (hc : ',' ∉ sub) (hne : sub ≠ []) (l : List Str) :
    sub <:+: join l ",".toList ↔ ∃ o ∈ l, sub <:+: o := by
  induction l with
  | nil =>
    simp only [join, List.not_mem_nil, false_and, exists_false, iff_false]
    intro h
    exact hne (List.eq_nil_of_infix_nil h)
  | cons a t ih =>
    cases t with
    | nil => simp [join]
    | cons b rest =>
      have hj : join (a :: b :: rest) ",".toList = a ++ ',' :: join (b :: rest) ",".toList := by
        simp [join]
      rw [hj]
      constructor
      · intro h
        rcases infix_append_sep hc _ _ h with h1 | h1
        · exact ⟨a, by simp, h1⟩
        · obtain ⟨o, ho, h2⟩ := ih.mp h1
          exact ⟨o, List.mem_cons_of_mem _ ho, h2⟩
      · rintro ⟨o, ho, h2⟩
        rcases List.mem_cons.mp ho with rfl | ho
        · exact h2.trans ⟨[], ',' :: join (b :: rest) ",".toList, by simp⟩
        · exact (ih.mpr ⟨o, ho, h2⟩).trans ⟨a ++ [','], [], by simp⟩

/-- The loop `for _, p := range l { if x == p || strings.HasPrefix(x, p) {…} }`
fires exactly when some entry of `l` is a prefix of `x`. -/
theorem any_eq_or_hasPrefix_iff (x : Str) (l : List Str) :
    l.any (fun p => x == p || hasPrefix x p) = true ↔ ∃ p ∈ l, p <+: x := by
  simp only [List.any_eq_true, Bool.or_eq_true, beq_iff_eq, hasPrefix_iff]
  constructor
  · rintro ⟨p, hp, h | h⟩
    · exact ⟨p, hp, h ▸ List.prefix_refl _⟩
    · exact ⟨p, hp, h⟩
  · rintro ⟨p, hp, h⟩
    exact ⟨p, hp, Or.inr h⟩

/-- The option test of `isPhysicalDisk`, on the joined lower-cased options, is a
test on the single options. -/
theorem contains_opts_iff (tbl : Char → Char) (opts : List Str) (sub : Str)
    (hc : ',' ∉ sub) (hne : sub ≠ []) :
    contains (toLower tbl (join opts ",".toList)) sub = true ↔
      ∃ o ∈ opts, sub <:+: toLower tbl o := by
  rw [contains_iff, toLower_join, infix_join_iff hc hne]
  simp

/-! ## The classification rule -/

/-- The branches of `isPhysicalDisk`, read off as one condition. -/
theorem isPhysicalDisk_cases (tbl : Char → Char) (part : PartitionStat) :
    isPhysicalDisk tbl part = true ↔
      (part.Mountpoint = "/".toList ∨
        ((∀ mp ∈ mountpointsToExclude, ¬ mp <+: toLower tbl part.Mountpoint) ∧
         ¬ (toLower tbl part.Fstype = "autofs".toList ∧ ¬ "/dev/".toList <+: part.Device) ∧
         (toLower tbl part.Fstype = "fuseblk".toList ∨
           ((∀ fs ∈ fstypeToExclude, ¬ fs <+: toLower tbl part.Fstype) ∧
            (∀ o ∈ part.Opts, ¬ "remote".toList <:+: toLower tbl o ∧
                              ¬ "network".toList <:+: toLower tbl o) ∧
            ¬ "/dev/loop".toList <+: part.Device)))) := by
  have hr := contains_opts_iff tbl part.Opts "remote".toList (by decide) (by decide)
  have hn := contains_opts_iff tbl part.Opts "network".toList (by decide) (by decide)
  have hm := any_eq_or_hasPrefix_iff (toLower tbl part.Mountpoint) mountpointsToExclude
  have hf := any_eq_or_hasPrefix_iff (toLower tbl part.Fstype) fstypeToExclude
  have hd := hasPrefix_iff part.Device "/dev/".toList
  have hl := hasPrefix_iff part.Device "/dev/loop".toList
  unfold isPhysicalDisk
  by_cases h1 : part.Mountpoint = "/".toList
  · simp [h1]
  simp only [h1, if_false, false_or]
  by_cases h2 : ∃ p ∈ mountpointsToExclude, p <+: toLower tbl part.Mountpoint
  · rw [if_pos (hm.mpr h2)]
    constructor
    · intro h; cases h
    · rintro ⟨h, -⟩
      obtain ⟨p, hp, hpre⟩ := h2
      exact absurd hpre (h p hp)
  rw [if_neg (fun h => h2 (hm.mp h))]
  have h2a : ∀ mp ∈ mountpointsToExclude, ¬ mp <+: toLower tbl part.Mountpoint :=
    fun mp hmp hpre => h2 ⟨mp, hmp, hpre⟩
  by_cases h3 : toLower tbl part.Fstype = "autofs".toList ∧ ¬ "/dev/".toList <+: part.Device
  · have : (toLower tbl part.Fstype == "autofs".toList &&
        !hasPrefix part.Device "/dev/".toList) = true := by
      simp only [Bool.and_eq_true, beq_iff_eq, Bool.not_eq_true_eq_eq_false]
      refine ⟨h3.1, ?_⟩
      cases hh : hasPrefix part.Device "/dev/".toList
      · rfl
      · exact absurd (hd.mp hh) h3.2
    rw [if_pos this]
    constructor
    · intro h; cases h
    · rintro ⟨-, h, -⟩
      exact absurd h3 h
  have h3b : ¬ ((toLower tbl part.Fstype == "autofs".toList &&
        !hasPrefix part.Device "/dev/".toList) = true) := by
    intro h
    simp only [Bool.and_eq_true, beq_iff_eq, Bool.not_eq_true_eq_eq_false] at h
    refine h3 ⟨h.1, fun hp => ?_⟩
    rw [hd.mpr hp] at h
    exact Bool.noConfusion h.2
  rw [if_neg h3b]
  by_cases h4 : toLower tbl part.Fstype = "fuseblk".toList
  · rw [if_pos (by simpa using h4)]
    simp only [true_iff]
    exact ⟨h2a, h3, Or.inl h4⟩
  rw [if_neg (by simpa using h4)]
  by_cases h5 : ∃ p ∈ fstypeToExclude, p <+: toLower tbl part.Fstype
  · rw [if_pos (hf.mpr h5)]
    constructor
    · intro h; cases h
    · rintro ⟨-, -, h | ⟨h, -⟩⟩
      · exact absurd h h4
      · obtain ⟨p, hp, hpre⟩ := h5
        exact absurd hpre (h p hp)
  rw [if_neg (fun h => h5 (hf.mp h))]
  have h5a : ∀ fs ∈ fstypeToExclude, ¬ fs <+: toLower tbl part.Fstype :=
    fun fs hfs hpre => h5 ⟨fs, hfs, hpre⟩
  by_cases h6 : (∃ o ∈ part.Opts, "remote".toList <:+: toLower tbl o) ∨
      (∃ o ∈ part.Opts, "network".toList <:+: toLower tbl o)
  · have : (contains (toLower tbl (join part.Opts ",".toList)) "remote".toList ||
        contains (toLower tbl (join part.Opts ",".toList)) "network".toList) = true := by
      rw [Bool.or_eq_true, hr, hn]; exact h6
    rw [if_pos this]
    constructor
    · intro h; cases h
    · rintro ⟨-, -, h | ⟨-, h, -⟩⟩
      · exact absurd h h4
      · rcases h6 with ⟨o, ho, hc⟩ | ⟨o, ho, hc⟩
        · exact absurd hc (h o ho).1
        · exact absurd hc (h o ho).2
  have h6b : ¬ ((contains (toLower tbl (join part.Opts ",".toList)) "remote".toList ||
        contains (toLower tbl (join part.Opts ",".toList)) "network".toList) = true) := by
    rw [Bool.or_eq_true, hr, hn]; exact h6
  rw [if_neg h6b]
  have h6a : ∀ o ∈ part.Opts, ¬ "remote".toList <:+: toLower tbl o ∧
      ¬ "network".toList <:+: toLower tbl o :=
    fun o ho => ⟨fun hc => h6 (Or.inl ⟨o, ho, hc⟩), fun hc => h6 (Or.inr ⟨o, ho, hc⟩)⟩
  by_cases h7 : "/dev/loop".toList <+: part.Device
  · rw [if_pos (hl.mpr h7)]
    constructor
    · intro h; cases h
    · rintro ⟨-, -, h | ⟨-, -, h⟩⟩
      · exact absurd h h4
      · exact absurd h7 h
  rw [if_neg (fun h => h7 (hl.mp h))]
  simp only [true_iff]
  exact ⟨h2a, h3, Or.inr ⟨h5a, h6a, h7⟩⟩

/-- C1: `isPhysicalDisk` is the ordered first-match-wins rule list. It returns true
iff the mountpoint is exactly `/`, or else (a) the lower-cased mountpoint has none of
the 17 excluded paths as a prefix, (b) it is not the case that the lower-cased fstype
is `autofs` while the device does not start with `/dev/`, and (c) either the
lower-cased fstype is `fuseblk`, or the lower-cased fstype has none of the 15 excluded
fstypes as a prefix, no mount option contains `remote` or `network` after
lower-casing, and the device does not start with `/dev/loop`. -/
theorem isPhysicalDisk_iff_rules (tbl : Char → Char) (part : PartitionStat) :
    mountpointsToExclude.length = 17 ∧ fstypeToExclude.length = 15 ∧
    (isPhysicalDisk tbl part = true ↔
      (part.Mountpoint = "/".toList ∨
        ((∀ mp ∈ mountpointsToExclude, ¬ mp <+: toLower tbl part.Mountpoint) ∧
         ¬ (toLower tbl part.Fstype = "autofs".toList ∧ ¬ "/dev/".toList <+: part.Device) ∧
         (toLower tbl part.Fstype = "fuseblk".toList ∨
           ((∀ fs ∈ fstypeToExclude, ¬ fs <+: toLower tbl part.Fstype) ∧
            (∀ o ∈ part.Opts, ¬ "remote".toList <:+: toLower tbl o ∧
                              ¬ "network".toList <:+: toLower tbl o) ∧
            ¬ "/dev/loop".toList <+: part.Device))))) := by
  exact ⟨rfl, rfl, isPhysicalDisk_cases tbl part⟩

/-- Lower-casing leaves the excluded mountpoint paths as they are. -/
theorem toLower_excluded_mountpoint (tbl : Char → Char) :
    ∀ mp ∈ mountpointsToExclude, toLower tbl mp = mp := by
  intro mp hmp
  simp only [mountpointsToExclude, List.mem_cons, List.mem_singleton, List.not_mem_nil,
    or_false] at hmp
  rcases hmp with h | h | h | h | h | h | h | h | h | h | h | h | h | h | h | h | h <;>
    (subst h; rfl)

/-- C2: a partition mounted at exactly `/` is physical, whatever its device,
filesystem type and mount options. -/
theorem isPhysicalDisk_root (tbl : Char → Char) (part : PartitionStat)
    (h : part.Mountpoint = "/".toList) : isPhysicalDisk tbl part = true :=
  (isPhysicalDisk_cases tbl part).mpr (Or.inl h)

/-- C2 at a loop-mounted tmpfs root whose options mention `remote` and `network`. -/
theorem isPhysicalDisk_root_witness :
    isPhysicalDisk id
      ⟨"/dev/loop0".toList, "/".toList, "tmpfs".toList,
        ["remote".toList, "network".toList]⟩ = true :=
  isPhysicalDisk_root id _ rfl

/-- C3: a partition whose mountpoint equals or starts with one of the excluded
paths is not physical, for every filesystem type, device and option set. -/
theorem isPhysicalDisk_excluded_mountpoint (tbl : Char → Char) (part : PartitionStat)
    (h : ∃ mp ∈ mountpointsToExclude, mp <+: part.Mountpoint) :
    isPhysicalDisk tbl part = false := by
  obtain ⟨mp, hmp, hpre⟩ := h
  have hlow : mp <+: toLower tbl part.Mountpoint := by
    have := List.IsPrefix.map (toLowerRune tbl) hpre
    rw [← toLower_excluded_mountpoint tbl mp hmp]
    exact this
  have hroot : ∀ q ∈ mountpointsToExclude, ¬ q <+: "/".toList := by decide
  cases hres : isPhysicalDisk tbl part
  · rfl
  · rcases (isPhysicalDisk_cases tbl part).mp hres with h1 | ⟨h1, -⟩
    · exact absurd (h1 ▸ hpre) (hroot mp hmp)
    · exact absurd hlow (h1 mp hmp)

/-- C3 at `/run/lock/foo` on an ext4 block device, and at the same mountpoint with
type fuseblk. -/
theorem isPhysicalDisk_excluded_mountpoint_witness :
    isPhysicalDisk id
        ⟨"/dev/sda1".toList, "/run/lock/foo".toList, "ext4".toList, ["rw".toList]⟩ = false ∧
    isPhysicalDisk id
        ⟨"/dev/sdb1".toList, "/run/lock/foo".toList, "fuseblk".toList, []⟩ = false :=
  ⟨isPhysicalDisk_excluded_mountpoint id _ ⟨"/run".toList, by decide, by decide⟩,
   isPhysicalDisk_excluded_mountpoint id _ ⟨"/run/lock".toList, by decide, by decide⟩⟩

/-- C4, as the code has it: a partition of type `fuseblk` whose lower-cased mountpoint
has none of the excluded paths as a prefix is physical, regardless of device and
options, although `fuseblk` starts with the excluded type `fuse`. -/
theorem isPhysicalDisk_fuseblk (tbl : Char → Char) (part : PartitionStat)
    (hfs : part.Fstype = "fuseblk".toList)
    (hmp : ∀ mp ∈ mountpointsToExclude, ¬ mp <+: toLower tbl part.Mountpoint) :
    isPhysicalDisk tbl part = true ∧
      "fuse".toList ∈ fstypeToExclude ∧ "fuse".toList <+: "fuseblk".toList := by
  have hlow : toLower tbl part.Fstype = "fuseblk".toList := by rw [hfs]; rfl
  refine ⟨(isPhysicalDisk_cases tbl part).mpr (Or.inr ⟨hmp, ?_, Or.inl hlow⟩),
    by decide, by decide⟩
  rintro ⟨h, -⟩
  rw [hlow] at h
  exact absurd h (by decide)

/-- C4 at a loop device mounted on `/mnt/win` with options `remote` and `network`. -/
theorem isPhysicalDisk_fuseblk_witness :
    isPhysicalDisk id
      ⟨"/dev/loop0".toList, "/mnt/win".toList, "fuseblk".toList,
        ["remote".toList, "network".toList]⟩ = true :=
  (isPhysicalDisk_fuseblk id _ rfl (by decide)).1

/-- C4 as stated fails: the mountpoint `/TMP/win` of this `fuseblk` partition neither
equals nor starts with an excluded path, yet `isPhysicalDisk` returns false, because
the mountpoint is lower-cased before the prefix test and `/tmp/win` starts with
`/tmp`. -/
theorem isPhysicalDisk_fuseblk_upper_mountpoint :
    (∀ mp ∈ mountpointsToExclude, ¬ mp <+: "/TMP/win".toList) ∧
    isPhysicalDisk id
      ⟨"/dev/sdb1".toList, "/TMP/win".toList, "fuseblk".toList, []⟩ = false := by
  decide

/-! ## The device map -/

theorem mapGet_eq_none_iff (m : DeviceMap) (k : Str) :
    mapGet m k = none ↔ k ∉ m.map Prod.fst := by
  induction m with
  | nil => simp [mapGet]
  | cons e m ih =>
    obtain ⟨k', u'⟩ := e
    by_cases hk : k' = k
    · have h1 : mapGet ((k', u') :: m) k = some u' := by
        show (if k' = k then some u' else mapGet m k) = some u'
        rw [if_pos hk]
      rw [h1]
      constructor
      · intro h; cases h
      · intro h
        exact absurd (List.mem_cons.mpr (Or.inl hk.symm)) h
    · have h1 : mapGet ((k', u') :: m) k = mapGet m k := by
        show (if k' = k then some u' else mapGet m k) = mapGet m k
        rw [if_neg hk]
      rw [h1, ih]
      constructor
      · intro h h2
        rcases List.mem_cons.mp h2 with h3 | h3
        · exact hk h3.symm
        · exact h h3
      · intro h h2
        exact h (List.mem_cons_of_mem _ h2)

theorem mem_of_mapGet_eq_some (m : DeviceMap) (k : Str) (u : UsageStat)
    (h : mapGet m k = some u) : (k, u) ∈ m := by
  induction m with
  | nil => simp [mapGet] at h
  | cons e m ih =>
    obtain ⟨k', u'⟩ := e
    by_cases hk : k' = k
    · simp only [mapGet, if_pos hk, Option.some.injEq] at h
      rw [hk, h]
      exact List.mem_cons_self _ _
    · simp only [mapGet, if_neg hk] at h
      exact List.mem_cons_of_mem _ (ih h)

theorem mem_mapSet (m : DeviceMap) (k : Str) (u : UsageStat) (k' : Str) (u' : UsageStat) :
    (k', u') ∈ mapSet m k u ↔ (k' = k ∧ u' = u) ∨ (k' ≠ k ∧ (k', u') ∈ m) := by
  unfold mapSet
  split_ifs with hk
  · simp only [List.mem_map]
    constructor
    · rintro ⟨e, he, heq⟩
      by_cases h1 : e.1 = k
      · rw [if_pos h1] at heq
        left
        exact ⟨(Prod.mk.inj heq).1.symm, (Prod.mk.inj heq).2.symm⟩
      · rw [if_neg h1] at heq
        subst heq
        exact Or.inr ⟨h1, he⟩
    · rintro (⟨h1, h2⟩ | ⟨h1, h2⟩)
      · obtain ⟨e, he, hek⟩ := List.mem_map.mp hk
        exact ⟨e, he, by rw [if_pos hek, h1, h2]⟩
      · exact ⟨(k', u'), h2, by rw [if_neg h1]⟩
  · simp only [List.mem_append, List.mem_singleton, Prod.mk.injEq]
    constructor
    · rintro (h | ⟨h1, h2⟩)
      · right
        refine ⟨?_, h⟩
        rintro rfl
        exact hk (List.mem_map.mpr ⟨(k', u'), h, rfl⟩)
      · exact Or.inl ⟨h1, h2⟩
    · rintro (⟨h1, h2⟩ | ⟨-, h2⟩)
      · exact Or.inr ⟨h1, h2⟩
      · exact Or.inl h2

theorem keys_mapSet_of_mem (m : DeviceMap) (k : Str) (u : UsageStat)
    (hk : k ∈ m.map Prod.fst) : (mapSet m k u).map Prod.fst = m.map Prod.fst := by
  unfold mapSet
  rw [if_pos hk, List.map_map]
  apply List.map_congr_left
  intro e _
  by_cases h1 : e.1 = k
  · simp [h1]
  · simp [h1]

theorem keys_mapSet_of_not_mem (m : DeviceMap) (k : Str) (u : UsageStat)
    (hk : k ∉ m.map Prod.fst) : (mapSet m k u).map Prod.fst = m.map Prod.fst ++ [k] := by
  unfold mapSet
  rw [if_neg hk]
  simp

/-! ## Wrapping sums -/

theorem foldl_addUsage (l : List UsageStat) :
    ∀ d : DiskInfo, d.Total < 2 ^ 64 → d.Used < 2 ^ 64 →
      l.foldl addUsage d =
        ⟨(d.Total + (l.map UsageStat.Total).sum) % 2 ^ 64,
         (d.Used + (l.map UsageStat.Used).sum) % 2 ^ 64⟩ := by
  induction l with
  | nil =>
    intro d h1 h2
    obtain ⟨t, w⟩ := d
    simp only [List.foldl_nil, List.map_nil, List.sum_nil, Nat.add_zero, DiskInfo.mk.injEq]
    exact ⟨(Nat.mod_eq_of_lt h1).symm, (Nat.mod_eq_of_lt h2).symm⟩
  | cons u l ih =>
    intro d h1 h2
    rw [List.foldl_cons, ih (addUsage d u) (Nat.mod_lt _ (by norm_num))
      (Nat.mod_lt _ (by norm_num))]
    simp only [addUsage, add64, List.map_cons, List.sum_cons, DiskInfo.mk.injEq]
    constructor
    · rw [Nat.add_mod, Nat.mod_mod, ← Nat.add_mod, Nat.add_assoc]
    · rw [Nat.add_mod, Nat.mod_mod, ← Nat.add_mod, Nat.add_assoc]

theorem foldl_addUsage_zero (l : List UsageStat) :
    l.foldl addUsage ⟨0, 0⟩ =
      ⟨(l.map UsageStat.Total).sum % 2 ^ 64, (l.map UsageStat.Used).sum % 2 ^ 64⟩ := by
  rw [foldl_addUsage l ⟨0, 0⟩ (by norm_num) (by norm_num)]
  simp

/-! ## The logical device key -/

theorem take_indexOf_eq_takeWhile (c : Char) (s : Str) :
    s.take (s.indexOf c) = s.takeWhile (fun x => x ≠ c) := by
  induction s with
  | nil => rfl
  | cons x s ih =>
    by_cases hx : x = c
    · subst hx
      simp [List.takeWhile]
    · rw [List.indexOf_cons_ne _ hx, List.take_succ_cons, ih]
      simp [List.takeWhile, hx]

theorem takeWhile_ne_of_not_mem (c : Char) (s : Str) (h : c ∉ s) :
    s.takeWhile (fun x => x ≠ c) = s := by
  induction s with
  | nil => rfl
  | cons x s ih =>
    have hx : x ≠ c := fun e => h (e ▸ List.mem_cons_self _ _)
    have hs : c ∉ s := fun e => h (List.mem_cons_of_mem _ e)
    have h1 : List.takeWhile (fun x => decide (x ≠ c)) (x :: s)
        = x :: List.takeWhile (fun x => decide (x ≠ c)) s := by
      simp [List.takeWhile, hx]
    rw [h1, ih hs]

/-- The key computed by lines 49-55 of `Disk` is the logical device key of the
specification. -/
theorem deviceID_eq_logicalDeviceKey (tbl : Char → Char) (p : PartitionStat) :
    deviceID tbl p = logicalDeviceKey tbl p := by
  unfold deviceID logicalDeviceKey index
  by_cases hz : toLower tbl p.Fstype = "zfs".toList
  · simp only [hz, if_true]
    by_cases hc : '/' ∈ p.Device
    · have hne : ((List.indexOf '/' p.Device : Nat) : Int) ≠ -1 := by omega
      simp only [hc, if_true, hne, ne_eq, not_false_eq_true, Int.toNat_ofNat]
      exact take_indexOf_eq_takeWhile '/' p.Device
    · simp only [hc, if_false, ne_eq, not_true_eq_false]
      exact (takeWhile_ne_of_not_mem '/' p.Device hc).symm
  · simp only [hz, if_false]

/-! ## The invariant of the dedup loop -/

theorem mapInv_nil (tbl : Char → Char) (usage : Str → Option UsageStat) :
    MapInv tbl usage [] [] := by
  refine ⟨List.nodup_nil, ?_, ?_⟩
  · intro p hp; cases hp
  · intro k u h; cases h

/-- A partition that does not reach the map update leaves the invariant in place. -/
theorem mapInv_skip (tbl : Char → Char) (usage : Str → Option UsageStat)
    (parts : List PartitionStat) (m : DeviceMap) (q : PartitionStat)
    (hq : ∀ k u, ¬ Contributes tbl usage q k u) (h : MapInv tbl usage parts m) :
    MapInv tbl usage (parts ++ [q]) m := by
  obtain ⟨h1, h2, h3⟩ := h
  refine ⟨h1, ?_, ?_⟩
  · intro p hp k u hc
    rcases List.mem_append.mp hp with hp | hp
    · exact h2 p hp k u hc
    · rw [List.mem_singleton.mp hp] at hc
      exact absurd hc (hq k u)
  · intro k u hku
    obtain ⟨⟨p, hp, hc⟩, hmax⟩ := h3 k u hku
    refine ⟨⟨p, List.mem_append_left _ hp, hc⟩, ?_⟩
    intro p' hp' u' hc'
    rcases List.mem_append.mp hp' with hp' | hp'
    · exact hmax p' hp' u' hc'
    · rw [List.mem_singleton.mp hp'] at hc'
      exact absurd hc' (hq k u')

/-- A contributing partition whose total does not exceed the entry of its key leaves
the map, and the invariant, in place. -/
theorem mapInv_keep (tbl : Char → Char) (usage : Str → Option UsageStat)
    (parts : List PartitionStat) (m : DeviceMap) (q : PartitionStat) (u e : UsageStat)
    (hc : Contributes tbl usage q (deviceID tbl q) u)
    (he : (deviceID tbl q, e) ∈ m) (hle : u.Total ≤ e.Total)
    (h : MapInv tbl usage parts m) : MapInv tbl usage (parts ++ [q]) m := by
  obtain ⟨h1, h2, h3⟩ := h
  refine ⟨h1, ?_, ?_⟩
  · intro p hp k w hcp
    rcases List.mem_append.mp hp with hp | hp
    · exact h2 p hp k w hcp
    · rw [List.mem_singleton.mp hp] at hcp
      rw [← hcp.2.2]
      exact List.mem_map.mpr ⟨(deviceID tbl q, e), he, rfl⟩
  · intro k w hkw
    obtain ⟨⟨p, hp, hcp⟩, hmax⟩ := h3 k w hkw
    refine ⟨⟨p, List.mem_append_left _ hp, hcp⟩, ?_⟩
    intro p' hp' u' hc'
    rcases List.mem_append.mp hp' with hp' | hp'
    · exact hmax p' hp' u' hc'
    · rw [List.mem_singleton.mp hp'] at hc'
      have hu : u' = u := Option.some.inj (hc'.2.1.symm.trans hc.2.1)
      have hk : deviceID tbl q = k := hc'.2.2
      obtain ⟨⟨pe, hpe, hce⟩, -⟩ := h3 (deviceID tbl q) e he
      have : e.Total ≤ w.Total := hmax pe hpe e (hk ▸ hce)
      rw [hu]
      exact le_trans hle this

/-- A contributing partition written into the map keeps the invariant, provided its
total exceeds that of every earlier contributing partition of its key. -/
theorem mapInv_set (tbl : Char → Char) (usage : Str → Option UsageStat)
    (parts : List PartitionStat) (m : DeviceMap) (q : PartitionStat) (u : UsageStat)
    (hc : Contributes tbl usage q (deviceID tbl q) u)
    (hnew : ∀ p ∈ parts, ∀ u', Contributes tbl usage p (deviceID tbl q) u' →
      u'.Total ≤ u.Total)
    (h : MapInv tbl usage parts m) :
    MapInv tbl usage (parts ++ [q]) (mapSet m (deviceID tbl q) u) := by
  obtain ⟨h1, h2, h3⟩ := h
  have hkeys : ∀ k, k ∈ m.map Prod.fst → k ∈ (mapSet m (deviceID tbl q) u).map Prod.fst := by
    intro k hk
    by_cases hin : deviceID tbl q ∈ m.map Prod.fst
    · rw [keys_mapSet_of_mem m _ u hin]; exact hk
    · rw [keys_mapSet_of_not_mem m _ u hin]; exact List.mem_append_left _ hk
  refine ⟨?_, ?_, ?_⟩
  · by_cases hin : deviceID tbl q ∈ m.map Prod.fst
    · rw [keys_mapSet_of_mem m _ u hin]; exact h1
    · rw [keys_mapSet_of_not_mem m _ u hin]
      exact List.Nodup.append h1 (List.nodup_singleton _)
        (List.disjoint_singleton.mpr hin)
  · intro p hp k w hcp
    rcases List.mem_append.mp hp with hp | hp
    · exact hkeys k (h2 p hp k w hcp)
    · rw [List.mem_singleton.mp hp] at hcp
      rw [← hcp.2.2]
      exact List.mem_map.mpr
        ⟨(deviceID tbl q, u), (mem_mapSet m _ u _ u).mpr (Or.inl ⟨rfl, rfl⟩), rfl⟩
  · intro k w hkw
    rcases (mem_mapSet m _ u k w).mp hkw with ⟨hk, hw⟩ | ⟨hk, hmem⟩
    · subst hk hw
      refine ⟨⟨q, List.mem_append_right _ (List.mem_singleton.mpr rfl), hc⟩, ?_⟩
      intro p' hp' u' hc'
      rcases List.mem_append.mp hp' with hp' | hp'
      · exact hnew p' hp' u' hc'
      · rw [List.mem_singleton.mp hp'] at hc'
        exact le_of_eq (congrArg UsageStat.Total
          (Option.some.inj (hc'.2.1.symm.trans hc.2.1)))
    · obtain ⟨⟨p, hp, hcp⟩, hmax⟩ := h3 k w hmem
      refine ⟨⟨p, List.mem_append_left _ hp, hcp⟩, ?_⟩
      intro p' hp' u' hc'
      rcases List.mem_append.mp hp' with hp' | hp'
      · exact hmax p' hp' u' hc'
      · rw [List.mem_singleton.mp hp'] at hc'
        exact absurd hc'.2.2.symm hk

/-- One iteration of the loop keeps the invariant. -/
theorem mapInv_step (tbl : Char → Char) (usage : Str → Option UsageStat)
    (parts : List PartitionStat) (m : DeviceMap) (q : PartitionStat)
    (h : MapInv tbl usage parts m) :
    MapInv tbl usage (parts ++ [q]) (diskStep tbl usage m q) := by
  unfold diskStep
  by_cases hphys : isPhysicalDisk tbl q = true
  · rw [if_pos hphys]
    cases hu : usage q.Mountpoint with
    | none =>
      refine mapInv_skip tbl usage parts m q ?_ h
      intro k u hc
      rw [hc.2.1] at hu
      cases hu
    | some u =>
      have hc : Contributes tbl usage q (deviceID tbl q) u := ⟨hphys, hu, rfl⟩
      cases hg : mapGet m (deviceID tbl q) with
      | none =>
        refine mapInv_set tbl usage parts m q u hc ?_ h
        intro p hp u' hcp
        exact absurd (h.2.1 p hp _ u' hcp) ((mapGet_eq_none_iff m _).mp hg)
      | some e =>
        have he := mem_of_mapGet_eq_some m _ e hg
        by_cases hgt : u.Total > e.Total
        · simp only [hgt, if_true]
          refine mapInv_set tbl usage parts m q u hc ?_ h
          intro p hp u' hcp
          exact le_trans ((h.2.2 _ e he).2 p hp u' hcp) (le_of_lt hgt)
        · simp only [hgt, if_false]
          exact mapInv_keep tbl usage parts m q u e hc he (not_lt.mp hgt) h
  · rw [if_neg hphys]
    exact mapInv_skip tbl usage parts m q (fun k u hc => hphys hc.1) h

/-- The invariant holds of the map the loop builds. -/
theorem mapInv_foldl (tbl : Char → Char) (usage : Str → Option UsageStat)
    (parts : List PartitionStat) :
    MapInv tbl usage parts (parts.foldl (diskStep tbl usage) []) := by
  induction parts using List.reverseRecOn with
  | nil => exact mapInv_nil tbl usage
  | append_singleton l q ih =>
    rw [List.foldl_append]
    exact mapInv_step tbl usage l _ q ih

/-! ## From the map to the sums of the specification -/

theorem mem_accepted (tbl : Char → Char) (usage : Str → Option UsageStat)
    (parts : List PartitionStat) (p : PartitionStat) :
    p ∈ accepted tbl usage parts ↔
      p ∈ parts ∧ isPhysicalDisk tbl p = true ∧ ∃ u, usage p.Mountpoint = some u := by
  unfold accepted
  rw [List.mem_filter, Bool.and_eq_true, Option.isSome_iff_exists]

theorem entry_unique (m : DeviceMap) (hnd : (m.map Prod.fst).Nodup) (k : Str)
    (a b : UsageStat) (ha : (k, a) ∈ m) (hb : (k, b) ∈ m) : a = b := by
  induction m with
  | nil => cases ha
  | cons e m ih =>
    rw [List.map_cons, List.nodup_cons] at hnd
    rcases List.mem_cons.mp ha with ha | ha <;> rcases List.mem_cons.mp hb with hb | hb
    · have := ha.trans hb.symm
      exact (Prod.mk.inj this).2
    · exact absurd (List.mem_map.mpr ⟨(k, b), hb, by rw [← ha]⟩) hnd.1
    · exact absurd (List.mem_map.mpr ⟨(k, a), ha, by rw [← hb]⟩) hnd.1
    · exact ih hnd.2 ha hb

theorem foldr_max_eq (l : List Nat) (n : Nat) (hmem : n ∈ l) (hle : ∀ x ∈ l, x ≤ n) :
    l.foldr max 0 = n := by
  have hub : ∀ l : List Nat, (∀ x ∈ l, x ≤ n) → l.foldr max 0 ≤ n := by
    intro l
    induction l with
    | nil => intro _; exact Nat.zero_le _
    | cons a l ih =>
      intro h
      rw [List.foldr_cons]
      exact max_le (h a (List.mem_cons_self _ _))
        (ih (fun x hx => h x (List.mem_cons_of_mem _ hx)))
  have hlb : ∀ l : List Nat, n ∈ l → n ≤ l.foldr max 0 := by
    intro l
    induction l with
    | nil => intro h; cases h
    | cons a l ih =>
      intro h
      rw [List.foldr_cons]
      rcases List.mem_cons.mp h with h | h
      · rw [h]; exact le_max_left _ _
      · exact le_trans (ih h) (le_max_right _ _)
  exact le_antisymm (hub l hle) (hlb l hmem)

/-- The keys of the built map are the distinct keys of the accepted partitions. -/
theorem keys_perm_distinctKeys (tbl : Char → Char) (usage : Str → Option UsageStat)
    (parts : List PartitionStat) (m : DeviceMap) (h : MapInv tbl usage parts m) :
    (m.map Prod.fst).Perm (distinctKeys tbl usage parts) := by
  refine (List.perm_ext_iff_of_nodup h.1 (List.nodup_dedup _)).mpr ?_
  intro k
  rw [List.mem_dedup]
  constructor
  · intro hk
    obtain ⟨e, he, hek⟩ := List.mem_map.mp hk
    obtain ⟨⟨p, hp, hc⟩, -⟩ := h.2.2 k e.2 (by rw [← hek]; exact he)
    refine List.mem_map.mpr ⟨p, (mem_accepted tbl usage parts p).mpr ⟨hp, hc.1, e.2, hc.2.1⟩, ?_⟩
    rw [← deviceID_eq_logicalDeviceKey]
    exact hc.2.2
  · intro hk
    obtain ⟨p, hp, hk⟩ := List.mem_map.mp hk
    obtain ⟨hp1, hp2, u, hu⟩ := (mem_accepted tbl usage parts p).mp hp
    exact h.2.1 p hp1 k u ⟨hp2, hu, by rw [deviceID_eq_logicalDeviceKey]; exact hk⟩

/-- The entry of a key holds the maximum total of the accepted partitions of that
key. -/
theorem maxTotal_eq_entry (tbl : Char → Char) (usage : Str → Option UsageStat)
    (parts : List PartitionStat) (m : DeviceMap) (h : MapInv tbl usage parts m)
    (k : Str) (u : UsageStat) (hku : (k, u) ∈ m) :
    maxTotal tbl usage parts k = u.Total := by
  obtain ⟨⟨p, hp, hc⟩, hmax⟩ := h.2.2 k u hku
  unfold maxTotal
  apply foldr_max_eq
  · refine List.mem_map.mpr ⟨p, ?_, ?_⟩
    · rw [List.mem_filter]
      refine ⟨(mem_accepted tbl usage parts p).mpr ⟨hp, hc.1, u, hc.2.1⟩, ?_⟩
      rw [← deviceID_eq_logicalDeviceKey, hc.2.2]
      exact decide_eq_true rfl
    · unfold reportedTotal
      rw [hc.2.1]
  · intro x hx
    obtain ⟨p', hp', hx'⟩ := List.mem_map.mp hx
    rw [List.mem_filter] at hp'
    obtain ⟨hp1, hp2, u', hu'⟩ := (mem_accepted tbl usage parts p').mp hp'.1
    have hk' : logicalDeviceKey tbl p' = k := of_decide_eq_true hp'.2
    have := hmax p' hp1 u' ⟨hp2, hu', by rw [deviceID_eq_logicalDeviceKey]; exact hk'⟩
    rw [← hx']
    unfold reportedTotal
    rw [hu']
    exact this

/-- The result of `Disk` in the classification branch, in terms of the built map. -/
theorem Disk_classify_eq {ε : Type} (tbl : Char → Char) (parts : List PartitionStat)
    (usage : Str → Option UsageStat) (ord : RangeOrder) :
    Disk tbl (Except.ok parts : Except ε (List PartitionStat)) [] usage ord =
      ⟨((parts.foldl (diskStep tbl usage) []).map (fun e => e.2.Total)).sum % 2 ^ 64,
       ((parts.foldl (diskStep tbl usage) []).map (fun e => e.2.Used)).sum % 2 ^ 64⟩ := by
  unfold Disk
  simp only [ne_eq, not_true_eq_false, if_false]
  rw [foldl_addUsage_zero]
  have hp := ord.perm (parts.foldl (diskStep tbl usage) [])
  rw [List.map_map, List.map_map]
  rw [(hp.map (UsageStat.Total ∘ Prod.snd)).sum_eq, (hp.map (UsageStat.Used ∘ Prod.snd)).sum_eq]
  rfl

/-- C5: in classification mode (empty allow-list, enumeration succeeds), with P the
partitions that `isPhysicalDisk` accepts and whose usage query succeeds, `Total` is
the sum modulo 2^64, over the distinct logical device keys of P, of the maximum total
reported among the partitions of P with that key, and `Used` is the sum of the used
value of one partition of P per key, one that attains that maximum; this holds for
every partition list, every usage oracle and every iteration order of the map. -/
theorem Disk_classification_dedup {ε : Type} (tbl : Char → Char)
    (parts : List PartitionStat) (usage : Str → Option UsageStat) (ord : RangeOrder) :
    (Disk tbl (Except.ok parts : Except ε (List PartitionStat)) [] usage ord).Total =
        ((distinctKeys tbl usage parts).map (maxTotal tbl usage parts)).sum % 2 ^ 64 ∧
    ∃ rep : Str → PartitionStat,
      (∀ k ∈ distinctKeys tbl usage parts,
        rep k ∈ accepted tbl usage parts ∧ logicalDeviceKey tbl (rep k) = k ∧
        reportedTotal usage (rep k) = maxTotal tbl usage parts k) ∧
      (Disk tbl (Except.ok parts : Except ε (List PartitionStat)) [] usage ord).Used =
        ((distinctKeys tbl usage parts).map (fun k => reportedUsed usage (rep k))).sum
          % 2 ^ 64 := by
  have hinv := mapInv_foldl tbl usage parts
  have hperm := keys_perm_distinctKeys tbl usage parts _ hinv
  rw [Disk_classify_eq]
  generalize parts.foldl (diskStep tbl usage) [] = m at hinv hperm
  constructor
  · show (m.map (fun e => e.2.Total)).sum % 2 ^ 64 = _
    rw [← (hperm.map (maxTotal tbl usage parts)).sum_eq, List.map_map]
    congr 2
    apply List.map_congr_left
    intro e he
    exact (maxTotal_eq_entry tbl usage parts m hinv e.1 e.2 he).symm
  · have hex : ∀ k, ∃ p : PartitionStat, k ∈ m.map Prod.fst →
        p ∈ parts ∧ ∃ u, (k, u) ∈ m ∧ Contributes tbl usage p k u := by
      intro k
      by_cases hk : k ∈ m.map Prod.fst
      · obtain ⟨e, he, hek⟩ := List.mem_map.mp hk
        obtain ⟨⟨p, hp, hc⟩, -⟩ := hinv.2.2 k e.2 (by rw [← hek]; exact he)
        exact ⟨p, fun _ => ⟨hp, e.2, by rw [← hek]; exact he, hc⟩⟩
      · exact ⟨default, fun h => absurd h hk⟩
    choose rep hrep using hex
    refine ⟨rep, ?_, ?_⟩
    · intro k hk
      obtain ⟨hp, u, hku, hc⟩ := hrep k (hperm.mem_iff.mpr hk)
      refine ⟨(mem_accepted tbl usage parts _).mpr ⟨hp, hc.1, u, hc.2.1⟩, ?_, ?_⟩
      · rw [← deviceID_eq_logicalDeviceKey]; exact hc.2.2
      · rw [maxTotal_eq_entry tbl usage parts m hinv k u hku]
        unfold reportedTotal
        rw [hc.2.1]
    · show (m.map (fun e => e.2.Used)).sum % 2 ^ 64 = _
      rw [← (hperm.map (fun k => reportedUsed usage (rep k))).sum_eq, List.map_map]
      congr 2
      apply List.map_congr_left
      intro e he
      obtain ⟨-, u, hku, hc⟩ := hrep e.1 (List.mem_map.mpr ⟨e, he, rfl⟩)
      have hu : u = e.2 := entry_unique m hinv.1 e.1 u e.2 hku he
      show e.2.Used = reportedUsed usage (rep e.1)
      unfold reportedUsed
      rw [hc.2.1, hu]

/-! ## Ties in the dedup -/

/-- A later partition whose total does not exceed that of an earlier contributing
partition of the same key leaves the map as it is. -/
theorem diskStep_of_le (tbl : Char → Char) (usage : Str → Option UsageStat)
    (pre : List PartitionStat) (p q : PartitionStat) (up uq : UsageStat)
    (hp : p ∈ pre) (hc : Contributes tbl usage p (deviceID tbl q) up)
    (hq : usage q.Mountpoint = some uq) (hle : uq.Total ≤ up.Total) :
    diskStep tbl usage (pre.foldl (diskStep tbl usage) []) q =
      pre.foldl (diskStep tbl usage) [] := by
  have hinv := mapInv_foldl tbl usage pre
  generalize pre.foldl (diskStep tbl usage) [] = m at hinv
  unfold diskStep
  by_cases hphys : isPhysicalDisk tbl q = true
  · rw [if_pos hphys, hq]
    cases hg : mapGet m (deviceID tbl q) with
    | none =>
      exact absurd (hinv.2.1 p hp _ up hc) ((mapGet_eq_none_iff m _).mp hg)
    | some e =>
      have he := mem_of_mapGet_eq_some m _ e hg
      have h1 : up.Total ≤ e.Total := (hinv.2.2 _ e he).2 p hp up hc
      have h2 : ¬ uq.Total > e.Total := not_lt.mpr (le_trans hle h1)
      simp only [h2, if_false]
  · rw [if_neg hphys]

/-- C6, as the code has it: when a partition `q` is listed after a physical partition
`p` with the same logical device key and exactly the same reported total, the dedup
keeps the entry it has (first write wins): the aggregate is what it is without `q`,
and with just these two partitions it is the usage of the earlier one. -/
theorem Disk_tie_keeps_earlier {ε : Type} (tbl : Char → Char)
    (pre post : List PartitionStat) (p q : PartitionStat) (up uq : UsageStat)
    (usage : Str → Option UsageStat) (ord : RangeOrder)
    (hp : p ∈ pre) (hpp : isPhysicalDisk tbl p = true)
    (hkey : logicalDeviceKey tbl p = logicalDeviceKey tbl q)
    (hup : usage p.Mountpoint = some up) (huq : usage q.Mountpoint = some uq)
    (htie : up.Total = uq.Total) :
    Disk tbl (Except.ok (pre ++ q :: post) : Except ε (List PartitionStat)) [] usage ord =
      Disk tbl (Except.ok (pre ++ post) : Except ε (List PartitionStat)) [] usage ord ∧
    Disk tbl (Except.ok [p, q] : Except ε (List PartitionStat)) [] usage ord =
      ⟨up.Total % 2 ^ 64, up.Used % 2 ^ 64⟩ := by
  have hc : Contributes tbl usage p (deviceID tbl q) up :=
    ⟨hpp, hup, by rw [deviceID_eq_logicalDeviceKey, deviceID_eq_logicalDeviceKey, hkey]⟩
  constructor
  · rw [Disk_classify_eq, Disk_classify_eq, List.foldl_append, List.foldl_cons,
      diskStep_of_le tbl usage pre p q up uq hp hc huq (le_of_eq htie.symm),
      List.foldl_append]
  · have h1 := diskStep_of_le tbl usage [p] p q up uq (List.mem_singleton.mpr rfl) hc huq
      (le_of_eq htie.symm)
    have h2 : diskStep tbl usage [] p = [(deviceID tbl p, up)] := by
      unfold diskStep
      rw [if_pos hpp, hup]
      rfl
    rw [Disk_classify_eq]
    have h3 : [p, q].foldl (diskStep tbl usage) [] = [(deviceID tbl p, up)] := by
      rw [List.foldl_cons, List.foldl_cons, List.foldl_nil]
      rw [List.foldl_cons, List.foldl_nil] at h1
      rw [h1, h2]
    rw [h3]
    simp

/-- C6 at the two datasets `pool/b` and `pool/c`, both reporting a total of 200: the
aggregate holds the 50 used bytes of the earlier one. -/
theorem Disk_tie_keeps_earlier_witness :
    Disk id (Except.ok [poolB, poolC] : Except Unit (List PartitionStat)) [] usageDemo
      insertionOrder = ⟨200, 50⟩ :=
  (Disk_tie_keeps_earlier id [poolB] [] poolB poolC ⟨200, 50⟩ ⟨200, 70⟩ usageDemo
    insertionOrder (by decide) (by decide) (by decide) (by decide) (by decide) rfl).2

/-- C6 as stated fails: `pool/b` and `pool/c` are physical, share the key `pool` and
report equal totals, yet the aggregate's `Used` is not that of the later-listed
`pool/c` (70) but that of the earlier `pool/b` (50), in either iteration order. -/
theorem Disk_tie_not_last_write :
    isPhysicalDisk id poolB = true ∧ isPhysicalDisk id poolC = true ∧
    logicalDeviceKey id poolB = logicalDeviceKey id poolC ∧
    reportedTotal usageDemo poolB = reportedTotal usageDemo poolC ∧
    (Disk id (Except.ok [poolB, poolC] : Except Unit (List PartitionStat)) [] usageDemo
      insertionOrder).Used ≠ reportedUsed usageDemo poolC ∧
    (Disk id (Except.ok [poolB, poolC] : Except Unit (List PartitionStat)) [] usageDemo
      reverseOrder).Used ≠ reportedUsed usageDemo poolC ∧
    (Disk id (Except.ok [poolB, poolC] : Except Unit (List PartitionStat)) [] usageDemo
      insertionOrder).Used = reportedUsed usageDemo poolB := by
  decide

/-! ## The allow-list branch -/

theorem foldl_includeStep (usage : Str → Option UsageStat) (es : List Str) :
    ∀ d : DiskInfo, es.foldl (includeStep usage) d =
      ((((es.map trimSpace).filter (fun e => e ≠ [])).filterMap usage).foldl addUsage d) := by
  induction es with
  | nil => intro d; rfl
  | cons e es ih =>
    intro d
    rw [List.foldl_cons, ih]
    by_cases he : trimSpace e = []
    · have h1 : includeStep usage d e = d := by
        unfold includeStep
        simp only [he, ne_eq, not_true_eq_false, if_false]
      rw [h1, List.map_cons, List.filter_cons_of_neg (by simp [he])]
    · rw [List.map_cons, List.filter_cons_of_pos (by simp [he])]
      cases hu : usage (trimSpace e) with
      | none =>
        have h1 : includeStep usage d e = d := by
          unfold includeStep
          simp only [he, ne_eq, not_false_eq_true, if_true, hu]
        rw [h1, List.filterMap_cons_none hu]
      | some u =>
        have h1 : includeStep usage d e = addUsage d u := by
          unfold includeStep
          simp only [he, ne_eq, not_false_eq_true, if_true, hu]
        rw [h1, List.filterMap_cons_some hu, List.foldl_cons]

/-- The result of `Disk` in the allow-list branch. -/
theorem Disk_allow_eq {ε : Type} (tbl : Char → Char) (parts : List PartitionStat)
    (allow : Str) (usage : Str → Option UsageStat) (ord : RangeOrder) (h : allow ≠ []) :
    Disk tbl (Except.ok parts : Except ε (List PartitionStat)) allow usage ord =
      ⟨((allowUsages usage allow).map UsageStat.Total).sum % 2 ^ 64,
       ((allowUsages usage allow).map UsageStat.Used).sum % 2 ^ 64⟩ := by
  unfold Disk
  simp only [ne_eq, h, not_false_eq_true, if_true]
  rw [foldl_includeStep, foldl_addUsage_zero]
  rfl

theorem split_of_not_mem (c : Char) (s : Str) (h : c ∉ s) : split s c = [s] := by
  induction s with
  | nil => rfl
  | cons x s ih =>
    have hx : x ≠ c := fun e => h (e ▸ List.mem_cons_self _ _)
    have hs : c ∉ s := fun e => h (List.mem_cons_of_mem _ e)
    simp only [split, hx, if_false, ih hs]

theorem split_append_sep (c : Char) (a b : Str) (h : c ∉ a) :
    split (a ++ c :: b) c = a :: split b c := by
  induction a with
  | nil => simp [split]
  | cons x a ih =>
    have hx : x ≠ c := fun e => h (e ▸ List.mem_cons_self _ _)
    have hs : c ∉ a := fun e => h (List.mem_cons_of_mem _ e)
    have h1 : split (x :: (a ++ c :: b)) c =
        (match split (a ++ c :: b) c with
          | [] => [[x]]
          | h :: t => (x :: h) :: t) := by
      simp only [split, hx, if_false]
    rw [List.cons_append, h1, ih hs]

theorem split_ne_nil (c : Char) (s : Str) : split s c ≠ [] := by
  induction s with
  | nil => simp [split]
  | cons x s ih =>
    by_cases hx : x = c
    · simp [split, hx]
    · cases hs : split s c with
      | nil => exact absurd hs ih
      | cons h t => simp [split, hx, hs]

/-- Only the empty string splits into a single empty entry. -/
theorem eq_nil_of_split_eq (c : Char) (s : Str) (h : split s c = [[]]) : s = [] := by
  cases s with
  | nil => rfl
  | cons x s =>
    exfalso
    by_cases hx : x = c
    · have h1 : split (x :: s) c = [] :: split s c := by simp [split, hx]
      rw [h1] at h
      exact split_ne_nil c s (List.cons.inj h).2
    · cases hs : split s c with
      | nil => exact split_ne_nil c s hs
      | cons a t =>
        have h1 : split (x :: s) c = (x :: a) :: t := by simp [split, hx, hs]
        rw [h1] at h
        exact List.cons_ne_nil x a (List.cons.inj h).1

theorem allowUsages_perm (usage : Str → Option UsageStat) (a b : Str)
    (h : (split a ';').Perm (split b ';')) :
    (allowUsages usage a).Perm (allowUsages usage b) := by
  unfold allowUsages
  exact ((h.map trimSpace).filter _).filterMap usage

/-- C7: with a non-empty allow-list and a successful enumeration, `Disk` neither
classifies nor deduplicates. Its `Total` and `Used` are the sums modulo 2^64 of the
usage of every semicolon-separated entry that is non-empty after trimming and whose
usage query succeeds (so they depend neither on the partition list nor on the
iteration order); an allow-list whose entries are a permutation of these gives the
same result; and a mountpoint listed twice is counted twice. -/
theorem Disk_allowlist_sum {ε : Type} (tbl : Char → Char) (parts : List PartitionStat)
    (allow : Str) (usage : Str → Option UsageStat) (ord : RangeOrder) (h : allow ≠ []) :
    Disk tbl (Except.ok parts : Except ε (List PartitionStat)) allow usage ord =
      ⟨((allowUsages usage allow).map UsageStat.Total).sum % 2 ^ 64,
       ((allowUsages usage allow).map UsageStat.Used).sum % 2 ^ 64⟩ ∧
    (∀ allow2 : Str, (split allow2 ';').Perm (split allow ';') →
      Disk tbl (Except.ok parts : Except ε (List PartitionStat)) allow2 usage ord =
        Disk tbl (Except.ok parts : Except ε (List PartitionStat)) allow usage ord) ∧
    (∀ (m : Str) (u : UsageStat), ';' ∉ m → trimSpace m ≠ [] →
      usage (trimSpace m) = some u →
      Disk tbl (Except.ok parts : Except ε (List PartitionStat)) m usage ord =
        ⟨u.Total % 2 ^ 64, u.Used % 2 ^ 64⟩ ∧
      Disk tbl (Except.ok parts : Except ε (List PartitionStat)) (m ++ ';' :: m) usage ord =
        ⟨(u.Total + u.Total) % 2 ^ 64, (u.Used + u.Used) % 2 ^ 64⟩) := by
  refine ⟨Disk_allow_eq tbl parts allow usage ord h, ?_, ?_⟩
  · intro allow2 hperm
    have h2 : allow2 ≠ [] := by
      rintro rfl
      have h3 : split allow ';' = [[]] := List.perm_singleton.mp hperm.symm
      exact h (eq_nil_of_split_eq ';' allow h3)
    rw [Disk_allow_eq tbl parts allow usage ord h, Disk_allow_eq tbl parts allow2 usage ord h2]
    have hp := allowUsages_perm usage allow2 allow hperm
    rw [(hp.map UsageStat.Total).sum_eq, (hp.map UsageStat.Used).sum_eq]
  · intro m u hsep hne hu
    have hm : m ≠ [] := by
      rintro rfl
      exact hne rfl
    constructor
    · rw [Disk_allow_eq tbl parts m usage ord hm]
      have : allowUsages usage m = [u] := by
        unfold allowUsages
        rw [split_of_not_mem ';' m hsep]
        simp [hne, hu]
      rw [this]
      simp
    · rw [Disk_allow_eq tbl parts (m ++ ';' :: m) usage ord (by simp)]
      have : allowUsages usage (m ++ ';' :: m) = [u, u] := by
        unfold allowUsages
        rw [split_append_sep ';' m m hsep, split_of_not_mem ';' m hsep]
        simp [hne, hu]
      rw [this]
      simp

/-- C7 at the allow-list `/tmp; /a ;/a;;/nope` over the demo partitions: `/tmp`, which
`isPhysicalDisk` rejects, is counted, `/a` is counted twice, the empty entry and the
entry whose query fails add nothing. -/
theorem Disk_allowlist_sum_witness :
    isPhysicalDisk id ⟨"tmpfs".toList, "/tmp".toList, "tmpfs".toList, []⟩ = false ∧
    Disk id (Except.ok partsDemo : Except Unit (List PartitionStat))
      "/tmp; /a ;/a;;/nope".toList usageDemo insertionOrder = ⟨264, 24⟩ :=
  ⟨by decide,
   (Disk_allowlist_sum id partsDemo "/tmp; /a ;/a;;/nope".toList usageDemo insertionOrder
      (by decide)).1.trans (by decide)⟩

/-! ## Enumeration failure and `DiskList` -/

/-- C8: when the partition enumeration fails, `Disk` returns the zero aggregate,
with or without an allow-list, whereas `DiskList` returns an error exactly when the
allow-list is empty and the enumeration fails, and then it is the enumeration's
error. -/
theorem enumeration_failure {ε : Type} (tbl : Char → Char) (err : ε)
    (partitions : Except ε (List PartitionStat)) (allow : Str)
    (usage : Str → Option UsageStat) (ord : RangeOrder) :
    Disk tbl (Except.error err : Except ε (List PartitionStat)) allow usage ord = ⟨0, 0⟩ ∧
    ((∃ e, DiskList tbl partitions allow = Except.error e) ↔
      (allow = [] ∧ ∃ e, partitions = Except.error e)) ∧
    (∀ e, DiskList tbl partitions allow = Except.error e → partitions = Except.error e) := by
  refine ⟨rfl, ?_, ?_⟩
  · unfold DiskList
    by_cases h : allow = []
    · cases partitions with
      | error e0 => simp [h]
      | ok parts => simp [h]
    · simp [h]
  · intro e
    unfold DiskList
    by_cases h : allow = []
    · cases partitions with
      | error e0 =>
        simp only [h, ne_eq, not_true_eq_false, if_false]
        intro he
        cases he
        rfl
      | ok parts =>
        simp only [h, ne_eq, not_true_eq_false, if_false]
        intro he
        cases he
    · simp only [h, ne_eq, not_false_eq_true, if_true]
      intro he
      cases he

/-- The loop of the allow-list branch of `DiskList` collects the trimmed non-empty
entries. -/
theorem foldl_allow_entries (es : List Str) :
    ∀ acc : List Str,
      es.foldl (fun diskList mountpoint =>
        if trimSpace mountpoint ≠ [] then diskList ++ [trimSpace mountpoint] else diskList) acc =
      acc ++ (es.map trimSpace).filter (fun e => e ≠ []) := by
  induction es with
  | nil => intro acc; simp
  | cons e es ih =>
    intro acc
    rw [List.foldl_cons, ih]
    by_cases he : trimSpace e = []
    · rw [List.map_cons, List.filter_cons_of_neg (by simp [he])]
      simp [he]
    · rw [List.map_cons, List.filter_cons_of_pos (by simp [he])]
      simp [he]

/-- The loop of the classification branch of `DiskList` collects one label per
accepted partition. -/
theorem foldl_labels (tbl : Char → Char) (parts : List PartitionStat) :
    ∀ acc : List Str,
      parts.foldl (fun diskList part =>
        if isPhysicalDisk tbl part
        then diskList ++ [sprintfLabel part.Mountpoint part.Fstype]
        else diskList) acc =
      acc ++ (parts.filter (isPhysicalDisk tbl)).map
        (fun p => sprintfLabel p.Mountpoint p.Fstype) := by
  induction parts with
  | nil => intro acc; simp
  | cons q parts ih =>
    intro acc
    rw [List.foldl_cons, ih]
    by_cases hq : isPhysicalDisk tbl q = true
    · rw [List.filter_cons_of_pos hq]
      simp [hq]
    · rw [List.filter_cons_of_neg hq]
      simp [hq]

theorem not_isLabel_data : ¬ IsLabel "/data".toList := by
  rintro ⟨mp, fs, h⟩
  have h2 := congrArg (fun l => l.reverse.head?) h
  simp [sprintfLabel] at h2

/-- C9 as stated fails in the allow-list branch: with the allow-list `/data` the list
`DiskList` returns is `["/data"]`, the bare mountpoint, which is not of the form
`<mountpoint> (<fstype>)`. -/
theorem DiskList_allow_not_label :
    DiskList id (Except.ok partsDemo : Except Unit (List PartitionStat)) "/data".toList =
      Except.ok ["/data".toList] ∧
    ¬ (∀ e ∈ ["/data".toList], IsLabel e) := by
  refine ⟨by rfl, ?_⟩
  intro h
  exact not_isLabel_data (h _ (List.mem_singleton.mpr rfl))

/-- C9, as the code has it: in the classification branch `DiskList` returns one label
`<mountpoint> (<fstype>)` per partition accepted by `isPhysicalDisk`, in enumeration
order; in the allow-list branch it returns, in order, the trimmed non-empty entries of
the allow-list themselves (bare mountpoints, no filesystem type), whatever the
enumeration gives. -/
theorem DiskList_entries {ε : Type} (tbl : Char → Char)
    (partitions : Except ε (List PartitionStat)) (parts : List PartitionStat) (allow : Str)
    (h : allow ≠ []) :
    DiskList tbl partitions allow =
      Except.ok (((split allow ';').map trimSpace).filter (fun e => e ≠ [])) ∧
    DiskList tbl (Except.ok parts : Except ε (List PartitionStat)) [] =
      Except.ok ((parts.filter (isPhysicalDisk tbl)).map
        (fun p => sprintfLabel p.Mountpoint p.Fstype)) ∧
    (∀ e ∈ (parts.filter (isPhysicalDisk tbl)).map
        (fun p => sprintfLabel p.Mountpoint p.Fstype), IsLabel e) := by
  refine ⟨?_, ?_, ?_⟩
  · unfold DiskList
    simp only [ne_eq, h, not_false_eq_true, if_true]
    rw [foldl_allow_entries]
    rfl
  · unfold DiskList
    simp only [ne_eq, not_true_eq_false, if_false]
    rw [foldl_labels]
    rfl
  · intro e he
    obtain ⟨p, -, hp⟩ := List.mem_map.mp he
    exact ⟨p.Mountpoint, p.Fstype, hp.symm⟩

/-- C9 on the demo partitions: the allow-list ` /tmp ;/data` is echoed as `/tmp` and
`/data`; without an allow-list the four accepted partitions are labelled. -/
theorem DiskList_entries_witness :
    DiskList id (Except.error () : Except Unit (List PartitionStat)) " /tmp ;/data".toList =
      Except.ok ["/tmp".toList, "/data".toList] ∧
    DiskList id (Except.ok partsDemo : Except Unit (List PartitionStat)) [] =
      Except.ok ["/ (ext4)".toList, "/a (zfs)".toList, "/b (zfs)".toList,
        "/c (zfs)".toList, "/gone (ext4)".toList] :=
  ⟨(DiskList_entries id (Except.error ()) partsDemo " /tmp ;/data".toList (by decide)).1.trans
      (congrArg Except.ok (by decide)),
   (DiskList_entries id (Except.error ()) partsDemo " /tmp ;/data".toList
      (by decide)).2.1.trans (congrArg Except.ok (by decide))⟩

/-! ## The htop-like memory model -/

theorem add64_chain (a b c d : Nat) :
    add64 (add64 (add64 a b) c) d = (a + b + c + d) % 2 ^ 64 := by
  unfold add64
  omega

theorem sub64_of_le (a b : Nat) (ha : a < 2 ^ 64) (hb : b ≤ a) : sub64 a b = a - b := by
  unfold sub64
  have h1 : b % 2 ^ 64 = b := Nat.mod_eq_of_lt (lt_of_le_of_lt hb ha)
  rw [h1]
  omega

theorem sub64_of_lt (a b : Nat) (hb : b < 2 ^ 64) (hab : a < b) :
    sub64 a b = a + 2 ^ 64 - b := by
  unfold sub64
  have h1 : b % 2 ^ 64 = b := Nat.mod_eq_of_lt hb
  rw [h1]
  omega

/-- The value `GetMemHtopLike` computes for `Used` is the formula of the
specification. -/
theorem GetMemHtopLike_ok {ε : Type} (info : ProcMemInfo) (hr : info.InRange)
    (hpos : info.MemTotal > 0) :
    GetMemHtopLike "linux".toList (Except.ok info : Except ε ProcMemInfo) =
      ⟨info.MemTotal, htopUsed info, "htoplike".toList⟩ := by
  obtain ⟨hT, hF, -, -, -, -, -, -, -, -, hZ, -⟩ := hr
  unfold GetMemHtopLike htopUsed
  simp only [if_true, hpos, add64_chain]
  generalize (info.MemFree + info.Cached + info.SReclaimable + info.Buffers) % 2 ^ 64 = ud
  congr 1
  have hbase : (if info.MemTotal ≥ ud then sub64 info.MemTotal ud
      else sub64 info.MemTotal info.MemFree) =
      (if info.MemTotal ≥ ud then info.MemTotal - ud
        else if info.MemFree ≤ info.MemTotal then info.MemTotal - info.MemFree
        else info.MemTotal + 2 ^ 64 - info.MemFree) := by
    by_cases h1 : info.MemTotal ≥ ud
    · rw [if_pos h1, if_pos h1, sub64_of_le _ _ hT h1]
    · rw [if_neg h1, if_neg h1]
      by_cases h2 : info.MemFree ≤ info.MemTotal
      · rw [if_pos h2, sub64_of_le _ _ hT h2]
      · rw [if_neg h2, sub64_of_lt _ _ hF (not_le.mp h2)]
  rw [hbase]
  generalize hb : (if info.MemTotal ≥ ud then info.MemTotal - ud
        else if info.MemFree ≤ info.MemTotal then info.MemTotal - info.MemFree
        else info.MemTotal + 2 ^ 64 - info.MemFree) = base
  have hlt : base < 2 ^ 64 := by
    rw [← hb]
    split_ifs <;> omega
  by_cases hz : info.Zswap = 0 ∧ info.Zswapped = 0
  · have hz2 : ¬ (info.Zswap > 0 ∨ info.Zswapped > 0) := by omega
    rw [if_neg hz2, if_pos hz]
  · have hz2 : info.Zswap > 0 ∨ info.Zswapped > 0 := by omega
    rw [if_pos hz2, if_neg hz]
    by_cases h3 : base > info.Zswap
    · rw [if_pos h3, if_pos h3, sub64_of_le _ _ hlt (le_of_lt h3)]
    · rw [if_neg h3, if_neg h3]

/-- C10: on Linux, for every snapshot of `uint64` counters with `MemTotal > 0`, the
htoplike model returns `Total = MemTotal` and `Used` by the formula `htopUsed`
(`usedDiff = MemFree + Cached + SReclaimable + Buffers`; `MemTotal - usedDiff` if
`MemTotal >= usedDiff`, else `MemTotal - MemFree`; then minus `Zswap`, clamped at 0,
unless `Zswap` and `Zswapped` are both 0), with mode `htoplike`. The three examples of
the specification give 600, 500 and 100. With `MemTotal = 0`, with no snapshot, or off
Linux (where no snapshot is read), the result is zero-valued with mode `htoplike`. -/
theorem GetMemHtopLike_formula {ε : Type} (info : ProcMemInfo) (hr : info.InRange)
    (hpos : info.MemTotal > 0) :
    GetMemHtopLike "linux".toList (Except.ok info : Except ε ProcMemInfo) =
      ⟨info.MemTotal, htopUsed info, "htoplike".toList⟩ ∧
    (GetMemHtopLike "linux".toList
      (Except.ok (snapshot 1000 200 100 50 50 0) : Except ε ProcMemInfo)).Used = 600 ∧
    (GetMemHtopLike "linux".toList
      (Except.ok (snapshot 1000 200 100 50 50 100) : Except ε ProcMemInfo)).Used = 500 ∧
    (∀ cached sReclaimable buffers : Nat, 200 + cached + sReclaimable + buffers = 600 →
      (GetMemHtopLike "linux".toList
        (Except.ok (snapshot 300 200 cached sReclaimable buffers 0) :
          Except ε ProcMemInfo)).Used = 100) ∧
    (∀ (goos : Str) (r : Except ε ProcMemInfo),
      (goos ≠ "linux".toList ∨ (∃ e, r = Except.error e) ∨
        (∃ i : ProcMemInfo, r = Except.ok i ∧ i.MemTotal = 0)) →
      GetMemHtopLike goos r = ⟨0, 0, "htoplike".toList⟩) := by
  refine ⟨GetMemHtopLike_ok info hr hpos, ?_, ?_, ?_, ?_⟩
  · rw [GetMemHtopLike_ok _ (by decide) (by decide)]
    decide
  · rw [GetMemHtopLike_ok _ (by decide) (by decide)]
    decide
  · intro c s b h
    have hc : c < 2 ^ 64 := by omega
    have hs : s < 2 ^ 64 := by omega
    have hb : b < 2 ^ 64 := by omega
    rw [GetMemHtopLike_ok _ (by
      unfold ProcMemInfo.InRange snapshot
      simp only
      omega) (by show 0 < 300; norm_num)]
    show htopUsed (snapshot 300 200 c s b 0) = 100
    unfold htopUsed snapshot
    simp only
    have h600 : (200 + c + s + b) % 2 ^ 64 = 600 := by omega
    rw [h600]
    decide
  · intro goos r h
    unfold GetMemHtopLike
    by_cases hg : goos = "linux".toList
    · rw [if_pos hg]
      rcases h with h | ⟨e, rfl⟩ | ⟨i, rfl, hi⟩
      · exact absurd hg h
      · rfl
      · simp only [hi, gt_iff_lt, lt_self_iff_false, if_false]
    · rw [if_neg hg]

/-- C10 at the snapshot `MemTotal = 1000, MemFree = 200, Cached = 100,
SReclaimable = 50, Buffers = 50, Zswap = 100`. -/
theorem GetMemHtopLike_formula_witness :
    GetMemHtopLike "linux".toList
      (Except.ok (snapshot 1000 200 100 50 50 100) : Except Unit ProcMemInfo) =
      ⟨1000, 500, "htoplike".toList⟩ :=
  (GetMemHtopLike_formula (snapshot 1000 200 100 50 50 100) (by decide) (by decide)).1.trans
    (by decide)

/-! ## The selection policy of `Ram` -/

/-- C11: `Ram` follows the ordered selection policy. If `MemoryIncludeCache` is set,
the result is the includeCache model (`Total` = platform total, `Used` = total - free
in `uint64`, mode `includeCache`), or the zero `RamInfo` when the platform reading
fails, whatever `MemoryReportRawUsed` is. Else if `MemoryReportRawUsed` is set, it is
exactly `GetMemHtopLike()`, zero-valued or not. Else on Linux with
`GetMemHtopLike().Total > 0` it is that htoplike value. Otherwise it is the gopsutil
model (`Used` = total - available in `uint64`, mode `gopsutil`). -/
theorem Ram_selection_policy {ε : Type} (cfg : GlobalConfig) (goos : Str)
    (readProcMeminfo : Except ε ProcMemInfo) (virtualMemory : Except ε VirtualMemoryStat) :
    (cfg.MemoryIncludeCache = true →
      (∀ v, virtualMemory = Except.ok v →
        Ram cfg goos readProcMeminfo virtualMemory =
          ⟨v.Total, sub64 v.Total v.Free, "includeCache".toList⟩ ∧
        (v.Total < 2 ^ 64 → v.Free ≤ v.Total →
          (Ram cfg goos readProcMeminfo virtualMemory).Used = v.Total - v.Free)) ∧
      (∀ e, virtualMemory = Except.error e →
        Ram cfg goos readProcMeminfo virtualMemory = ⟨0, 0, []⟩)) ∧
    (cfg.MemoryIncludeCache = false → cfg.MemoryReportRawUsed = true →
      Ram cfg goos readProcMeminfo virtualMemory = GetMemHtopLike goos readProcMeminfo) ∧
    (cfg.MemoryIncludeCache = false → cfg.MemoryReportRawUsed = false →
      goos = "linux".toList → (GetMemHtopLike goos readProcMeminfo).Total > 0 →
      Ram cfg goos readProcMeminfo virtualMemory = GetMemHtopLike goos readProcMeminfo) ∧
    (cfg.MemoryIncludeCache = false → cfg.MemoryReportRawUsed = false →
      ¬ (goos = "linux".toList ∧ (GetMemHtopLike goos readProcMeminfo).Total > 0) →
      Ram cfg goos readProcMeminfo virtualMemory = GetMemGopsutil virtualMemory ∧
      (∀ v, virtualMemory = Except.ok v →
        GetMemGopsutil virtualMemory =
          ⟨v.Total, sub64 v.Total v.Available, "gopsutil".toList⟩ ∧
        (v.Total < 2 ^ 64 → v.Available ≤ v.Total →
          (GetMemGopsutil virtualMemory).Used = v.Total - v.Available))) := by
  refine ⟨?_, ?_, ?_, ?_⟩
  · intro hc
    refine ⟨?_, ?_⟩
    · intro v hv
      subst hv
      have h1 : Ram cfg goos readProcMeminfo (Except.ok v : Except ε VirtualMemoryStat) =
          ⟨v.Total, sub64 v.Total v.Free, "includeCache".toList⟩ := by
        unfold Ram
        rw [if_pos hc]
      refine ⟨h1, ?_⟩
      intro ht hf
      rw [h1]
      exact sub64_of_le _ _ ht hf
    · intro e he
      subst he
      unfold Ram
      rw [if_pos hc]
  · intro hc hr
    unfold Ram
    rw [if_neg (by simp [hc]), if_pos hr]
  · intro hc hr hg ht
    unfold Ram
    rw [if_neg (by simp [hc]), if_neg (by simp [hr]), if_pos ⟨hg, ht⟩]
  · intro hc hr hn
    refine ⟨?_, ?_⟩
    · unfold Ram
      rw [if_neg (by simp [hc]), if_neg (by simp [hr]), if_neg hn]
    · intro v hv
      subst hv
      refine ⟨rfl, ?_⟩
      intro ht ha
      exact sub64_of_le _ _ ht ha

/-- C11 with both switches set, on a machine with 1000 bytes of which 300 are free and
400 available: the includeCache model wins and reports 700 used. -/
theorem Ram_selection_policy_witness :
    Ram ⟨true, true⟩ "linux".toList
      (Except.ok (snapshot 1000 200 100 50 50 0) : Except Unit ProcMemInfo)
      (Except.ok ⟨1000, 400, 300⟩) = ⟨1000, 700, "includeCache".toList⟩ :=
  (((Ram_selection_policy ⟨true, true⟩ "linux".toList
      (Except.ok (snapshot 1000 200 100 50 50 0) : Except Unit ProcMemInfo)
      (Except.ok ⟨1000, 400, 300⟩)).1 rfl).1 ⟨1000, 400, 300⟩ rfl).1.trans (by decide)

/-! ## `Swap` -/

/-- C12: on Linux with a readable snapshot of `uint64` counters, `Swap` returns
`Total = SwapTotal` and `Used = SwapTotal - (SwapFree + SwapCached)` when `SwapTotal`
is at least that sum, else `SwapTotal - SwapFree` (all in `uint64`); the snapshot
`SwapTotal = 1000, SwapFree = 300, SwapCached = 100` gives 600. When the snapshot is
unavailable (read error, or not on Linux) it returns the platform swap reading's total
and used, or the zero value when that reading fails. -/
theorem Swap_formula {ε : Type} (info : ProcMemInfo) (hr : info.InRange)
    (swapMemory : Except ε SwapMemoryStat) :
    Swap "linux".toList (Except.ok info : Except ε ProcMemInfo) swapMemory =
      ⟨info.SwapTotal, swapUsed info, []⟩ ∧
    (info.SwapFree + info.SwapCached ≤ info.SwapTotal →
      swapUsed info = info.SwapTotal - (info.SwapFree + info.SwapCached)) ∧
    (Swap "linux".toList (Except.ok (swapSnapshot 1000 300 100) : Except ε ProcMemInfo)
      swapMemory).Used = 600 ∧
    (∀ (goos : Str) (r : Except ε ProcMemInfo),
      (goos ≠ "linux".toList ∨ ∃ e, r = Except.error e) →
      (∀ s, swapMemory = Except.ok s → Swap goos r swapMemory = ⟨s.Total, s.Used, []⟩) ∧
      (∀ e, swapMemory = Except.error e → Swap goos r swapMemory = ⟨0, 0, []⟩)) := by
  obtain ⟨-, -, -, -, -, hT, hF, hC, -, -, -, -⟩ := hr
  refine ⟨?_, ?_, ?_, ?_⟩
  · unfold Swap swapUsed add64
    simp only [if_true]
    by_cases h1 : info.SwapTotal ≥ (info.SwapFree + info.SwapCached) % 2 ^ 64
    · rw [if_pos h1, if_pos h1, sub64_of_le _ _ hT h1]
    · rw [if_neg h1, if_neg h1]
      by_cases h2 : info.SwapFree ≤ info.SwapTotal
      · rw [if_pos h2, sub64_of_le _ _ hT h2]
      · rw [if_neg h2, sub64_of_lt _ _ hF (not_le.mp h2)]
  · intro h
    unfold swapUsed
    have h1 : (info.SwapFree + info.SwapCached) % 2 ^ 64 = info.SwapFree + info.SwapCached :=
      Nat.mod_eq_of_lt (lt_of_le_of_lt h hT)
    simp only [h1]
    rw [if_pos h]
  · rfl
  · intro goos r h
    have hfall : Swap goos r swapMemory =
        (match swapMemory with
          | .error _ => ⟨0, 0, []⟩
          | .ok s => ⟨s.Total, s.Used, []⟩) := by
      unfold Swap
      by_cases hg : goos = "linux".toList
      · rcases h with h | ⟨e, rfl⟩
        · exact absurd hg h
        · simp only [hg, if_true]
      · simp only [hg, if_false]
    refine ⟨?_, ?_⟩
    · intro s hs
      rw [hfall, hs]
    · intro e he
      rw [hfall, he]

/-- C12 at the snapshot `SwapTotal = 1000, SwapFree = 300, SwapCached = 100`. -/
theorem Swap_formula_witness :
    Swap "linux".toList (Except.ok (swapSnapshot 1000 300 100) : Except Unit ProcMemInfo)
      (Except.error ()) = ⟨1000, 600, []⟩ :=
  (Swap_formula (swapSnapshot 1000 300 100) (by decide) (Except.error ())).1.trans
    (by decide)

/-! ## The htop-like result never exceeds the total -/

/-- The formula `htopUsed` stays below `MemTotal` when `MemFree` does. -/
theorem htopUsed_le (info : ProcMemInfo) (hfree : info.MemFree ≤ info.MemTotal) :
    htopUsed info ≤ info.MemTotal := by
  unfold htopUsed
  simp only
  generalize (info.MemFree + info.Cached + info.SReclaimable + info.Buffers) % 2 ^ 64 = ud
  split_ifs <;> omega

/-- C20: for every snapshot of `uint64` counters with `MemTotal > 0` and
`MemFree <= MemTotal`, the htoplike result has `Used <= Total`, whatever `Cached`,
`SReclaimable`, `Buffers`, `Zswap` and `Zswapped` are, also when their sum with
`MemFree` wraps around 2^64. -/
theorem GetMemHtopLike_used_le_total {ε : Type} (info : ProcMemInfo) (hr : info.InRange)
    (hpos : info.MemTotal > 0) (hfree : info.MemFree ≤ info.MemTotal) :
    (GetMemHtopLike "linux".toList (Except.ok info : Except ε ProcMemInfo)).Used ≤
      (GetMemHtopLike "linux".toList (Except.ok info : Except ε ProcMemInfo)).Total := by
  rw [GetMemHtopLike_ok info hr hpos]
  exact htopUsed_le info hfree

/-- C20 at a snapshot whose `usedDiff` wraps: `MemTotal = 1000`, `MemFree = 200`,
`Cached = 2^64 - 100`; the wrapped `usedDiff` is 100 and `Used` is 900. -/
theorem GetMemHtopLike_used_le_total_witness :
    (GetMemHtopLike "linux".toList
      (Except.ok (snapshot 1000 200 (2 ^ 64 - 100) 0 0 0) : Except Unit ProcMemInfo)).Used = 900 ∧
    (GetMemHtopLike "linux".toList
      (Except.ok (snapshot 1000 200 (2 ^ 64 - 100) 0 0 0) : Except Unit ProcMemInfo)).Used ≤
    (GetMemHtopLike "linux".toList
      (Except.ok (snapshot 1000 200 (2 ^ 64 - 100) 0 0 0) : Except Unit ProcMemInfo)).Total :=
  ⟨by decide,
   GetMemHtopLike_used_le_total (snapshot 1000 200 (2 ^ 64 - 100) 0 0 0) (by decide)
     (by decide) (by decide)⟩

/-! ## Determinism of `Disk` -/

/-- The total of the classification branch, as a sum over the distinct keys. -/
theorem Disk_total_eq {ε : Type} (tbl : Char → Char) (parts : List PartitionStat)
    (usage : Str → Option UsageStat) (ord : RangeOrder) :
    (Disk tbl (Except.ok parts : Except ε (List PartitionStat)) [] usage ord).Total =
      ((distinctKeys tbl usage parts).map (maxTotal tbl usage parts)).sum % 2 ^ 64 := by
  have hinv := mapInv_foldl tbl usage parts
  have hperm := keys_perm_distinctKeys tbl usage parts _ hinv
  rw [Disk_classify_eq]
  generalize parts.foldl (diskStep tbl usage) [] = m at hinv hperm
  show (m.map (fun e => e.2.Total)).sum % 2 ^ 64 = _
  rw [← (hperm.map (maxTotal tbl usage parts)).sum_eq, List.map_map]
  congr 2
  apply List.map_congr_left
  intro e he
  exact (maxTotal_eq_entry tbl usage parts m hinv e.1 e.2 he).symm

theorem foldr_max_perm (l₁ l₂ : List Nat) (h : l₁.Perm l₂) :
    l₁.foldr max 0 = l₂.foldr max 0 := by
  apply List.Perm.foldr_eq' h
  intro x _ y _ z
  simp only [max_left_comm]

theorem accepted_perm (tbl : Char → Char) (usage : Str → Option UsageStat)
    (parts₁ parts₂ : List PartitionStat) (h : parts₁.Perm parts₂) :
    (accepted tbl usage parts₁).Perm (accepted tbl usage parts₂) :=
  h.filter _

theorem maxTotal_perm (tbl : Char → Char) (usage : Str → Option UsageStat)
    (parts₁ parts₂ : List PartitionStat) (h : parts₁.Perm parts₂) (k : Str) :
    maxTotal tbl usage parts₁ k = maxTotal tbl usage parts₂ k := by
  unfold maxTotal
  exact foldr_max_perm _ _ (((accepted_perm tbl usage _ _ h).filter _).map _)

theorem distinctKeys_perm (tbl : Char → Char) (usage : Str → Option UsageStat)
    (parts₁ parts₂ : List PartitionStat) (h : parts₁.Perm parts₂) :
    (distinctKeys tbl usage parts₁).Perm (distinctKeys tbl usage parts₂) := by
  unfold distinctKeys
  exact ((accepted_perm tbl usage _ _ h).map _).dedup

/-- C19: `Disk` does not depend on the order in which the final `range` visits the
dedup map: for a fixed enumeration outcome, allow-list and usage oracle, any two
iteration orders give the same `Total` and the same `Used`, so two calls in unchanged
state return identical aggregates. Moreover `Total` is unchanged by any permutation of
the partition list. -/
theorem Disk_deterministic {ε : Type} (tbl : Char → Char)
    (partitions : Except ε (List PartitionStat)) (allow : Str)
    (usage : Str → Option UsageStat) (ord₁ ord₂ : RangeOrder) :
    Disk tbl partitions allow usage ord₁ = Disk tbl partitions allow usage ord₂ ∧
    (∀ parts₁ parts₂ : List PartitionStat, parts₁.Perm parts₂ →
      (Disk tbl (Except.ok parts₁ : Except ε (List PartitionStat)) allow usage ord₁).Total =
      (Disk tbl (Except.ok parts₂ : Except ε (List PartitionStat)) allow usage ord₂).Total) := by
  constructor
  · cases partitions with
    | error e => rfl
    | ok parts =>
      by_cases h : allow = []
      · subst h
        rw [Disk_classify_eq, Disk_classify_eq]
      · rw [Disk_allow_eq tbl parts allow usage ord₁ h, Disk_allow_eq tbl parts allow usage ord₂ h]
  · intro parts₁ parts₂ hperm
    by_cases h : allow = []
    · subst h
      rw [Disk_total_eq, Disk_total_eq]
      have hk := distinctKeys_perm tbl usage parts₁ parts₂ hperm
      have hm : maxTotal tbl usage parts₁ = maxTotal tbl usage parts₂ :=
        funext (maxTotal_perm tbl usage parts₁ parts₂ hperm)
      rw [hm, (hk.map (maxTotal tbl usage parts₂)).sum_eq]
    · rw [Disk_allow_eq tbl parts₁ allow usage ord₁ h, Disk_allow_eq tbl parts₂ allow usage ord₂ h]

/-- C19 on the demo partitions: insertion order and reverse order of the map give the
aggregate 1200 / 350, and so does the reversed partition list for the total. -/
theorem Disk_deterministic_witness :
    Disk id (Except.ok partsDemo : Except Unit (List PartitionStat)) [] usageDemo
      insertionOrder = ⟨1200, 350⟩ ∧
    Disk id (Except.ok partsDemo : Except Unit (List PartitionStat)) [] usageDemo
      reverseOrder = ⟨1200, 350⟩ ∧
    (Disk id (Except.ok partsDemo.reverse : Except Unit (List PartitionStat)) [] usageDemo
      reverseOrder).Total = 1200 :=
  ⟨by decide,
   (Disk_deterministic id (Except.ok partsDemo) [] usageDemo insertionOrder
      reverseOrder).1.symm.trans (by decide),
   ((Disk_deterministic id (Except.ok partsDemo : Except Unit (List PartitionStat)) []
      usageDemo insertionOrder reverseOrder).2 partsDemo partsDemo.reverse
      (List.reverse_perm partsDemo).symm).symm.trans (by decide)⟩

/-! ## `strconv.ParseUint` -/

/-- The value reached from `n` by reading the decimal digits of `s`. -/
theorem foldl_digits_ge (s : Str) :
    ∀ n : Nat, n ≤ s.foldl (fun n c => 10 * n + (c.toNat - '0'.toNat)) n := by
  induction s with
  | nil => intro n; exact le_refl n
  | cons c s ih =>
    intro n
    rw [List.foldl_cons]
    exact le_trans (by omega) (ih _)

theorem parseUintLoop_eq (s : Str) :
    ∀ n : Nat, n < 2 ^ 64 →
      parseUintLoop s n =
        if (∀ c ∈ s, '0'.toNat ≤ c.toNat ∧ c.toNat ≤ '9'.toNat) ∧
            s.foldl (fun n c => 10 * n + (c.toNat - '0'.toNat)) n < 2 ^ 64
        then some (s.foldl (fun n c => 10 * n + (c.toNat - '0'.toNat)) n) else none := by
  induction s with
  | nil =>
    intro n hn
    have hn2 : n < 18446744073709551616 := by omega
    simp [parseUintLoop, hn2]
  | cons c s ih =>
    intro n hn
    have hcut : cutoff10 = 1844674407370955162 := by decide
    have h0 : '0'.toNat = 48 := by decide
    have h9 : '9'.toNat = 57 := by decide
    rw [List.foldl_cons]
    have hge := foldl_digits_ge s (10 * n + (c.toNat - '0'.toNat))
    by_cases hd : '0'.toNat ≤ c.toNat ∧ c.toNat ≤ '9'.toNat
    · by_cases hc : n ≥ cutoff10
      · have h1 : parseUintLoop (c :: s) n = none := by
          simp only [parseUintLoop, hd, and_self, if_true, hc]
        rw [h1, if_neg]
        rintro ⟨-, h2⟩
        omega
      · by_cases hov : 10 * n + (c.toNat - '0'.toNat) < 2 ^ 64
        · have hm1 : (n * 10) % 2 ^ 64 = n * 10 := Nat.mod_eq_of_lt (by omega)
          have hm2 : (n * 10 + (c.toNat - '0'.toNat)) % 2 ^ 64 =
              10 * n + (c.toNat - '0'.toNat) := by
            rw [Nat.mod_eq_of_lt (by omega)]; omega
          have h1 : parseUintLoop (c :: s) n =
              parseUintLoop s (10 * n + (c.toNat - '0'.toNat)) := by
            simp only [parseUintLoop, hd, and_self, if_true, hc, if_false, hm1, hm2]
            rw [if_neg (by omega)]
          rw [h1, ih _ hov]
          have hall : (∀ x ∈ c :: s, '0'.toNat ≤ x.toNat ∧ x.toNat ≤ '9'.toNat) ↔
              (∀ x ∈ s, '0'.toNat ≤ x.toNat ∧ x.toNat ≤ '9'.toNat) := by
            constructor
            · intro h x hx; exact h x (List.mem_cons_of_mem _ hx)
            · intro h x hx
              rcases List.mem_cons.mp hx with rfl | hx
              · exact hd
              · exact h x hx
          simp only [hall]
        · have hm1 : (n * 10) % 2 ^ 64 = n * 10 := Nat.mod_eq_of_lt (by omega)
          have h1 : parseUintLoop (c :: s) n = none := by
            simp only [parseUintLoop, hd, and_self, if_true, hc, if_false, hm1]
            rw [if_pos]
            left
            omega
          rw [h1, if_neg]
          rintro ⟨-, h2⟩
          omega
    · have h1 : parseUintLoop (c :: s) n = none := by
        simp only [parseUintLoop, hd, if_false]
      rw [h1, if_neg]
      rintro ⟨h2, -⟩
      exact hd (h2 c (List.mem_cons_self _ _))

/-- `strconv.ParseUint(s, 10, 64)` succeeds exactly on the unsigned decimals that fit
in 64 bits, and returns their value. -/
theorem parseUint_eq (s : Str) :
    parseUint s =
      if IsDecimal s ∧ decimalValue s < 2 ^ 64 then some (decimalValue s) else none := by
  unfold parseUint IsDecimal decimalValue
  by_cases hs : s = []
  · simp [hs]
  · rw [if_neg hs, parseUintLoop_eq s 0 (by norm_num)]
    simp only [ne_eq, hs, not_false_eq_true, true_and]

theorem parseUint_of_decimal (s : Str) (v : Nat) (hd : IsDecimal s)
    (hv : decimalValue s = v) (hlt : v < 2 ^ 64) : parseUint s = some v := by
  rw [parseUint_eq, if_pos ⟨hd, by rw [hv]; exact hlt⟩, hv]

/-! ## `ReadProcMeminfo` -/

/-- `strings.TrimSuffix(s, ":")` removes one trailing colon. -/
theorem trimSuffix_colon (s : Str) : trimSuffix s ":".toList = dropColon s := by
  unfold trimSuffix dropColon
  rcases List.eq_nil_or_concat s with rfl | ⟨L, b, hs⟩
  · rfl
  · rw [hs, List.concat_eq_append]
    have hlast : (L ++ [b]).getLast? = some b := by simp
    have hsuf : (":".toList.isSuffixOf (L ++ [b]) = true) ↔ b = ':' := by
      rw [List.isSuffixOf_iff_suffix]
      constructor
      · rintro ⟨t, ht⟩
        have h1 := congrArg List.getLast? ht
        simp at h1
        exact h1.symm
      · rintro rfl
        exact ⟨L, rfl⟩
    by_cases hb : b = ':'
    · rw [if_pos (hsuf.mpr hb), hlast, if_pos (by rw [hb])]
      simp
    · rw [if_neg (fun h => hb (hsuf.mp h)), hlast, if_neg (by simpa using hb)]

theorem setField_of_not_mem (info : ProcMemInfo) (key : Str) (val : Nat)
    (h : key ∉ meminfoKeys) : setField info key val = info := by
  simp only [meminfoKeys, List.mem_cons, List.mem_singleton, List.not_mem_nil, or_false,
    not_or] at h
  obtain ⟨h1, h2, h3, h4, h5, h6, h7, h8, h9, h10, h11, h12⟩ := h
  unfold setField
  rw [if_neg h1, if_neg h2, if_neg h3, if_neg h4, if_neg h5, if_neg h6, if_neg h7, if_neg h8,
    if_neg h9, if_neg h10, if_neg h11, if_neg h12]

theorem getField_setField_self (info : ProcMemInfo) (key : Str) (val : Nat)
    (h : key ∈ meminfoKeys) : getField (setField info key val) key = val := by
  simp only [meminfoKeys, List.mem_cons, List.mem_singleton, List.not_mem_nil, or_false] at h
  rcases h with h | h | h | h | h | h | h | h | h | h | h | h <;> (subst h; rfl)

theorem ite_eq_of_eq {c : Prop} [Decidable c] {a b x : Nat} (ha : a = x) (hb : b = x) :
    (if c then a else b) = x := by
  split_ifs
  · exact ha
  · exact hb

theorem ite_eq_ite_of_eq {c : Prop} [Decidable c] {a b a' b' : Nat} (ha : c → a = a')
    (hb : b = b') : (if c then a else b) = (if c then a' else b') := by
  split_ifs with h
  · exact ha h
  · exact hb

theorem getField_setField_other (info : ProcMemInfo) (key k : Str) (val : Nat)
    (hne : k ≠ key) : getField (setField info key val) k = getField info k := by
  by_cases h : key ∈ meminfoKeys
  · simp only [meminfoKeys, List.mem_cons, List.mem_singleton, List.not_mem_nil,
      or_false] at h
    rcases h with h | h | h | h | h | h | h | h | h | h | h | h <;>
      (subst h
       unfold getField
       iterate 12 (refine ite_eq_ite_of_eq (fun hc => ?_) ?_; first | rfl | exact absurd hc hne)
       rfl)
  · rw [setField_of_not_mem info key val h]

theorem getField_zero (k : Str) : getField zeroMemInfo k = 0 := by
  unfold getField
  iterate 12 (refine ite_eq_of_eq rfl ?_)
  rfl

/-- One iteration of the scan loop, in terms of what the line sets. -/
theorem meminfoStep_eq (info : ProcMemInfo) (line : Str) :
    meminfoStep info line =
      match lineEntry line with
      | some (key, v) => setField info key (v * 1024 % 2 ^ 64)
      | none => info := by
  unfold meminfoStep lineEntry
  cases hf : fields line with
  | nil => rfl
  | cons p0 t =>
    cases t with
    | nil => rfl
    | cons p1 rest =>
      simp only [trimSuffix_colon]
      rw [parseUint_eq]
      by_cases hd : IsDecimal p1 ∧ decimalValue p1 < 2 ^ 64
      · rw [if_pos hd]
        by_cases hk : dropColon p0 ∈ meminfoKeys
        · rw [if_pos ⟨hk, hd⟩]
        · rw [if_neg (fun h => hk h.1)]
          exact setField_of_not_mem _ _ _ hk
      · rw [if_neg hd, if_neg (fun h => hd h.2)]

/-- A key that no line sets keeps its value through the scan. -/
theorem getField_foldl_of_not_set (k : Str) (lines : List Str)
    (h : ∀ line ∈ lines, (lineEntry line).map Prod.fst ≠ some k) :
    ∀ info, getField (lines.foldl meminfoStep info) k = getField info k := by
  induction lines with
  | nil => intro info; rfl
  | cons l lines ih =>
    intro info
    rw [List.foldl_cons, ih (fun x hx => h x (List.mem_cons_of_mem _ hx)), meminfoStep_eq]
    have hl := h l (List.mem_cons_self _ _)
    cases he : lineEntry l with
    | none => rfl
    | some e =>
      obtain ⟨key, v⟩ := e
      rw [he] at hl
      have hne : k ≠ key := by
        intro hk
        apply hl
        rw [hk]
        rfl
      exact getField_setField_other info key k _ hne

/-- C13: for every memory-info text, given as the lines the scanner delivers without
error, the snapshot of `ReadProcMeminfo` is the fold over the lines from the all-zero
snapshot in which a line with at least two whitespace-separated fields, whose first
field minus one trailing colon is one of the 12 recognised keys and whose second field
is an unsigned decimal that fits in 64 bits, sets that counter to value * 1024 modulo
2^64 and leaves the others, and every other line leaves the snapshot unchanged. So a
key that no line sets is zero, and removing a line that sets nothing does not change
the result. -/
theorem ReadProcMeminfo_fold {ε : Type} (lines : List Str) :
    meminfoKeys.length = 12 ∧
    ReadProcMeminfo (Except.ok (lines, none) : Except ε (List Str × Option ε)) =
      (some (lines.foldl meminfoStep zeroMemInfo), none) ∧
    (∀ (info : ProcMemInfo) (line key : Str) (v : Nat), lineEntry line = some (key, v) →
      meminfoStep info line = setField info key (v * 1024 % 2 ^ 64) ∧
      getField (meminfoStep info line) key = v * 1024 % 2 ^ 64 ∧
      ∀ k, k ≠ key → getField (meminfoStep info line) k = getField info k) ∧
    (∀ (info : ProcMemInfo) (line : Str), lineEntry line = none →
      meminfoStep info line = info) ∧
    (∀ k ∈ meminfoKeys, (∀ line ∈ lines, (lineEntry line).map Prod.fst ≠ some k) →
      getField (lines.foldl meminfoStep zeroMemInfo) k = 0) ∧
    (∀ (pre post : List Str) (line : Str), lines = pre ++ line :: post →
      lineEntry line = none →
      ReadProcMeminfo (Except.ok (pre ++ post, none) : Except ε (List Str × Option ε)) =
        ReadProcMeminfo (Except.ok (lines, none) : Except ε (List Str × Option ε))) := by
  refine ⟨rfl, rfl, ?_, ?_, ?_, ?_⟩
  · intro info line key v he
    have h1 : meminfoStep info line = setField info key (v * 1024 % 2 ^ 64) := by
      rw [meminfoStep_eq, he]
    have hk : key ∈ meminfoKeys := by
      unfold lineEntry at he
      cases hf : fields line with
      | nil => rw [hf] at he; cases he
      | cons p0 t =>
        cases t with
        | nil => rw [hf] at he; cases he
        | cons p1 rest =>
          rw [hf] at he
          by_cases hc : dropColon p0 ∈ meminfoKeys ∧ IsDecimal p1 ∧ decimalValue p1 < 2 ^ 64
          · simp only [hc, and_self, if_true, Option.some.injEq, Prod.mk.injEq] at he
            rw [← he.1]
            exact hc.1
          · simp only [hc, if_false] at he
            cases he
    rw [h1]
    exact ⟨rfl, getField_setField_self info key _ hk,
      fun k hne => getField_setField_other info key k _ hne⟩
  · intro info line he
    rw [meminfoStep_eq, he]
  · intro k _ h
    rw [getField_foldl_of_not_set k lines h, getField_zero]
  · intro pre post line hl he
    unfold ReadProcMeminfo
    simp only [hl, List.foldl_append, List.foldl_cons]
    have : meminfoStep (pre.foldl meminfoStep zeroMemInfo) line =
        pre.foldl meminfoStep zeroMemInfo := by
      rw [meminfoStep_eq, he]
    rw [this]

/-- C13 on the demo text: `MemTotal` and `SwapTotal` are set, the line without value,
the unrecognised key, the malformed number and the number beyond 64 bits change
nothing, so `Cached` and `Buffers` stay zero. -/
theorem ReadProcMeminfo_fold_witness :
    (ReadProcMeminfo (Except.ok (meminfoDemo, none) : Except Unit (List Str × Option Unit))).1 =
      some { zeroMemInfo with MemTotal := 16384 * 1024, SwapTotal := 2048 * 1024 } ∧
    getField (meminfoDemo.foldl meminfoStep zeroMemInfo) "Cached".toList = 0 ∧
    getField (meminfoDemo.foldl meminfoStep zeroMemInfo) "Buffers".toList = 0 :=
  ⟨by decide,
   (ReadProcMeminfo_fold (ε := Unit) meminfoDemo).2.2.2.2.1 "Cached".toList (by decide)
     (by decide),
   (ReadProcMeminfo_fold (ε := Unit) meminfoDemo).2.2.2.2.1 "Buffers".toList (by decide)
     (by decide)⟩

/-! ## `CallFree` -/

/-- Rows that do not begin with `Mem:` are passed over once the header is behind. -/
theorem callFreeLoop_skip (pre rest : List Str) (raminfo : RamInfo)
    (hpre : ∀ l ∈ pre, ¬ "Mem:".toList <+: l) :
    ∀ lineNum : Nat, 1 ≤ lineNum →
      callFreeLoop (pre ++ rest) lineNum raminfo =
        callFreeLoop rest (lineNum + pre.length) raminfo := by
  induction pre with
  | nil => intro n _; rfl
  | cons l pre ih =>
    intro n hn
    have hl : hasPrefix l "Mem:".toList = false := by
      cases h : hasPrefix l "Mem:".toList
      · rfl
      · exact absurd ((hasPrefix_iff _ _).mp h) (hpre l (List.mem_cons_self _ _))
    have h1 : callFreeLoop (l :: (pre ++ rest)) n raminfo =
        callFreeLoop (pre ++ rest) (n + 1) raminfo := by
      simp only [callFreeLoop, hl]
      rw [if_neg (by omega)]
      simp
    rw [List.cons_append, h1, ih (fun x hx => hpre x (List.mem_cons_of_mem _ hx)) (n + 1)
      (by omega)]
    congr 1
    simp only [List.length_cons]
    omega

/-- The loop on an output whose first row beginning with `Mem:` is `row`. -/
theorem callFreeLoop_row (header row : Str) (pre post : List Str) (raminfo : RamInfo)
    (hpre : ∀ l ∈ pre, ¬ "Mem:".toList <+: l) (hrow : "Mem:".toList <+: row) :
    callFreeLoop (header :: pre ++ row :: post) 0 raminfo =
      match fields row with
      | _ :: f1 :: f2 :: _ =>
        match parseUint f2 with
        | some used =>
          { (match parseUint f1 with
              | some total => { raminfo with Total := total }
              | none => raminfo) with Used := used }
        | none =>
          match parseUint f1 with
          | some total => { raminfo with Total := total }
          | none => raminfo
      | _ => raminfo := by
  have h0 : callFreeLoop (header :: pre ++ row :: post) 0 raminfo =
      callFreeLoop (pre ++ row :: post) 1 raminfo := by
    simp [callFreeLoop]
  rw [h0, callFreeLoop_skip pre (row :: post) raminfo hpre 1 (le_refl 1)]
  have hr : hasPrefix row "Mem:".toList = true := (hasPrefix_iff _ _).mpr hrow
  simp only [callFreeLoop, hr, if_true]
  rw [if_neg (by omega)]

/-- An output without a row beginning with `Mem:` after the header leaves the result
as it was. -/
theorem callFreeLoop_none (lines : List Str) (raminfo : RamInfo)
    (h : ∀ l ∈ lines.tail, ¬ "Mem:".toList <+: l) :
    callFreeLoop lines 0 raminfo = raminfo := by
  cases lines with
  | nil => rfl
  | cons header rest =>
    have h0 : callFreeLoop (header :: rest) 0 raminfo = callFreeLoop rest 1 raminfo := by
      simp [callFreeLoop]
    have h1 := callFreeLoop_skip rest [] raminfo h 1 (le_refl 1)
    rw [List.append_nil] at h1
    rw [h0, h1]
    rfl

theorem CallFree_ok {ε : Type} (goos : Str) (lines : List Str)
    (hg : goos = "linux".toList ∨ goos = "freebsd".toList) :
    CallFree goos (Except.ok lines : Except ε (List Str)) =
      callFreeLoop lines 0 ⟨0, 0, "callFree".toList⟩ := by
  unfold CallFree
  rw [if_neg]
  rintro ⟨h1, h2⟩
  rcases hg with h | h
  · exact h1 h
  · exact h2 h

/-- C14 as stated fails: in the output `freeHuge` the `Mem:` row has four fields, its
2nd field is the unsigned decimal 99999999999999999999 and its 3rd the unsigned decimal
5, yet the parsed `Total` is 0, not the value of the 2nd field (which does not fit in
64 bits). -/
theorem CallFree_total_beyond_uint64 :
    fields "Mem:      99999999999999999999   5   7".toList =
      ["Mem:".toList, "99999999999999999999".toList, "5".toList, "7".toList] ∧
    IsDecimal "99999999999999999999".toList ∧ IsDecimal "5".toList ∧
    decimalValue "99999999999999999999".toList = 99999999999999999999 ∧
    CallFree "linux".toList (Except.ok freeHuge : Except Unit (List Str)) =
      ⟨0, 5, "callFree".toList⟩ ∧
    (CallFree "linux".toList (Except.ok freeHuge : Except Unit (List Str))).Total ≠
      decimalValue "99999999999999999999".toList := by
  decide

/-- C14, as the code has it: on Linux or FreeBSD, for an output made of a header line
and rows in which the first row after the header that begins with `Mem:` has at least
three whitespace-separated fields whose 2nd and 3rd are unsigned decimals `t` and `u`
that fit in 64 bits, `CallFree` yields `Total = t` and `Used = u`, whatever rows
follow. When no row after the header begins with `Mem:`, or that row has fewer than
three fields, both values stay zero. -/
theorem CallFree_parse {ε : Type} (goos header row : Str) (pre post : List Str)
    (f0 f1 f2 : Str) (more : List Str) (t u : Nat)
    (hg : goos = "linux".toList ∨ goos = "freebsd".toList)
    (hpre : ∀ l ∈ pre, ¬ "Mem:".toList <+: l) (hrow : "Mem:".toList <+: row)
    (hf : fields row = f0 :: f1 :: f2 :: more)
    (ht : IsDecimal f1) (htv : decimalValue f1 = t) (htr : t < 2 ^ 64)
    (hu : IsDecimal f2) (huv : decimalValue f2 = u) (hur : u < 2 ^ 64) :
    CallFree goos (Except.ok (header :: pre ++ row :: post) : Except ε (List Str)) =
      ⟨t, u, "callFree".toList⟩ ∧
    (∀ lines : List Str, (∀ l ∈ lines.tail, ¬ "Mem:".toList <+: l) →
      CallFree goos (Except.ok lines : Except ε (List Str)) = ⟨0, 0, "callFree".toList⟩) ∧
    (∀ (row' : Str) (post' : List Str), "Mem:".toList <+: row' → (fields row').length < 3 →
      CallFree goos (Except.ok (header :: pre ++ row' :: post') : Except ε (List Str)) =
        ⟨0, 0, "callFree".toList⟩) := by
  refine ⟨?_, ?_, ?_⟩
  · rw [CallFree_ok goos _ hg, callFreeLoop_row header row pre post _ hpre hrow, hf]
    simp only [parseUint_of_decimal f1 t ht htv htr, parseUint_of_decimal f2 u hu huv hur]
  · intro lines h
    rw [CallFree_ok goos _ hg, callFreeLoop_none lines _ h]
  · intro row' post' hrow' hlen
    rw [CallFree_ok goos _ hg, callFreeLoop_row header row' pre post' _ hpre hrow']
    rcases hfr : fields row' with _ | ⟨g0, _ | ⟨g1, _ | ⟨g2, more'⟩⟩⟩
    · rfl
    · rfl
    · rfl
    · rw [hfr] at hlen
      simp only [List.length_cons] at hlen
      omega

/-- C14 on the demo output of `free -b`: total 8000000, used 3200000; the `Swap:` row
after it is not read. -/
theorem CallFree_parse_witness :
    CallFree "linux".toList (Except.ok freeDemo : Except Unit (List Str)) =
      ⟨8000000, 3200000, "callFree".toList⟩ :=
  (CallFree_parse "linux".toList
    "               total        used        free      shared  buff/cache   available".toList
    "Mem:      8000000   3200000   1000000   1000   3800000   4500000".toList
    [] ["Swap:     2000000   0   2000000".toList]
    "Mem:".toList "8000000".toList "3200000".toList
    ["1000000".toList, "1000".toList, "3800000".toList, "4500000".toList]
    8000000 3200000 (Or.inl rfl) (by decide) (by decide) (by decide) (by decide) (by decide)
    (by decide) (by decide) (by decide) (by decide)).1

/-! ## `parseSocModel`: the Adreno rule -/

/-- The leftmost start at which the anchored matcher succeeds decides the search. -/
theorem findSubmatch_at (matchHere : Str → Option Str) (s : Str) :
    ∀ i : Nat, (matchHere (s.drop i)).isSome = true →
      (∀ j, j < i → matchHere (s.drop j) = none) →
      findSubmatch matchHere s = matchHere (s.drop i) := by
  induction s with
  | nil =>
    intro i _ _
    simp [findSubmatch]
  | cons c s ih =>
    intro i hi hlt
    cases i with
    | zero =>
      rw [List.drop_zero] at hi ⊢
      cases hm : matchHere (c :: s) with
      | none => rw [hm] at hi; cases hi
      | some m => simp only [findSubmatch, hm]
    | succ i =>
      have h0 : matchHere (c :: s) = none := hlt 0 (Nat.succ_pos i)
      have h1 : findSubmatch matchHere (c :: s) = findSubmatch matchHere s := by
        simp only [findSubmatch, h0]
      rw [h1, List.drop_succ_cons] at *
      exact ih i hi (fun j hj => by
        have := hlt (j + 1) (Nat.succ_lt_succ hj)
        rwa [List.drop_succ_cons] at this)

/-- The search fails when the anchored matcher fails at every start. -/
theorem findSubmatch_none (matchHere : Str → Option Str) (s : Str)
    (h : ∀ i, matchHere (s.drop i) = none) : findSubmatch matchHere s = none := by
  induction s with
  | nil => exact h 0
  | cons c s ih =>
    have h0 : matchHere (c :: s) = none := h 0
    simp only [findSubmatch, h0]
    exact ih (fun i => by
      have := h (i + 1)
      rwa [List.drop_succ_cons] at this)

theorem singleton_isPrefixOf_cons (c sep : Char) (rest : Str) :
    [c].isPrefixOf (sep :: rest) = (c == sep) := by
  simp [List.isPrefixOf]

/-- The part of the Adreno expression after `adreno`: a separator, then digits. -/
theorem adreno_tail_eq (t : Str) :
    (match t with
      | sep :: rest =>
        if sep = '-' ∨ sep = '_' then
          if rest.takeWhile isDigit ≠ [] then some (rest.takeWhile isDigit) else none
        else none
      | [] => none) =
    if ((['-'].isPrefixOf t || ['_'].isPrefixOf t) &&
        (match t.drop 1 with
         | d :: _ => isDigit d
         | [] => false)) = true
    then some ((t.drop 1).takeWhile isDigit) else none := by
  cases t with
  | nil => rfl
  | cons sep rest =>
    rw [singleton_isPrefixOf_cons, singleton_isPrefixOf_cons]
    show (if sep = '-' ∨ sep = '_' then
          if rest.takeWhile isDigit ≠ [] then some (rest.takeWhile isDigit) else none
        else none) =
      if ((('-' == sep) || ('_' == sep)) &&
          (match rest with
           | d :: _ => isDigit d
           | [] => false)) = true
      then some (rest.takeWhile isDigit) else none
    by_cases hs : sep = '-' ∨ sep = '_'
    · have hb : (('-' == sep) || ('_' == sep)) = true := by
        rcases hs with h | h <;> simp [h]
      rw [if_pos hs, hb, Bool.true_and]
      cases rest with
      | nil => rfl
      | cons d rest' =>
        by_cases hdig : isDigit d = true
        · have : List.takeWhile isDigit (d :: rest') ≠ [] := by
            rw [List.takeWhile_cons_of_pos hdig]; exact List.cons_ne_nil _ _
          rw [if_pos this, if_pos hdig]
        · have : List.takeWhile isDigit (d :: rest') = [] := List.takeWhile_cons_of_neg hdig
          rw [if_neg (by rw [this]; exact fun h => h rfl), if_neg hdig]
    · have hb : (('-' == sep) || ('_' == sep)) = false := by
        have h1 : ¬ '-' = sep := fun h => hs (Or.inl h.symm)
        have h2 : ¬ '_' = sep := fun h => hs (Or.inr h.symm)
        simp [h1, h2]
      rw [if_neg hs, hb, Bool.false_and, if_neg (by simp)]

/-- The anchored Adreno match succeeds exactly at an occurrence of `adreno-` or
`adreno_` followed by a digit, and captures the digit run after it. -/
theorem matchAdrenoHere_eq (s : Str) :
    matchAdrenoHere s =
      if adrenoAt s 0 = true then some (digitRunAt s 0) else none := by
  unfold matchAdrenoHere adrenoAt digitRunAt
  by_cases hp : "adreno".toList <+: s
  · obtain ⟨t, rfl⟩ := hp
    have h1 : "adreno".toList.isPrefixOf ("adreno".toList ++ t) = true := by
      rw [List.isPrefixOf_iff_prefix]; exact List.prefix_append _ _
    have h6 : ("adreno".toList ++ t).drop 6 = t := rfl
    have h7 : ("adreno".toList ++ t).drop (0 + 7) = t.drop 1 := rfl
    have ha : "adreno-".toList.isPrefixOf ("adreno".toList ++ t) = ['-'].isPrefixOf t := rfl
    have hb : "adreno_".toList.isPrefixOf ("adreno".toList ++ t) = ['_'].isPrefixOf t := rfl
    rw [if_pos h1, h6, h7, List.drop_zero, ha, hb]
    exact adreno_tail_eq t
  · have h1 : ¬ ("adreno".toList.isPrefixOf s = true) := by
      rw [List.isPrefixOf_iff_prefix]; exact hp
    have h2 : "adreno-".toList.isPrefixOf (s.drop 0) = false := by
      cases h : "adreno-".toList.isPrefixOf (s.drop 0)
      · rfl
      · exfalso
        rw [List.isPrefixOf_iff_prefix, List.drop_zero] at h
        exact hp (List.IsPrefix.trans ⟨['-'], rfl⟩ h)
    have h3 : "adreno_".toList.isPrefixOf (s.drop 0) = false := by
      cases h : "adreno_".toList.isPrefixOf (s.drop 0)
      · rfl
      · exfalso
        rw [List.isPrefixOf_iff_prefix, List.drop_zero] at h
        exact hp (List.IsPrefix.trans ⟨['_'], rfl⟩ h)
    rw [if_neg h1, h2, h3]
    rfl

theorem matchAdrenoHere_drop (s : Str) (i : Nat) :
    matchAdrenoHere (s.drop i) =
      if adrenoAt s i = true then some (digitRunAt s i) else none := by
  rw [matchAdrenoHere_eq]
  have h0 : i + (0 + 7) = i + 7 := by omega
  have h1 : adrenoAt (s.drop i) 0 = adrenoAt s i := by
    unfold adrenoAt
    rw [List.drop_zero, List.drop_drop, h0]
  have h2 : digitRunAt (s.drop i) 0 = digitRunAt s i := by
    unfold digitRunAt
    rw [List.drop_drop, h0]
  rw [h1, h2]

/-- The Adreno branch of `parseSocModel`. -/
theorem parseSocModel_adreno_branch (tbl utbl : Char → Char) (driver blob : Str)
    (h : driver = "msm".toList ∨ "adreno".toList <:+: toLower tbl (replaceNul blob)) :
    parseSocModel tbl utbl driver blob =
      match findSubmatch matchAdrenoHere (toLower tbl (replaceNul blob)) with
      | some m => "Qualcomm Adreno ".toList ++ m
      | none => "Qualcomm Adreno".toList := by
  unfold parseSocModel
  rw [if_pos]
  rcases h with h | h
  · exact Or.inl h
  · exact Or.inr ((contains_iff _ _).mpr h)

/-- C17: when the driver is `msm` or the lower-cased blob (NULs read as spaces)
contains `adreno`, `parseSocModel` returns `Qualcomm Adreno ` followed by the maximal
digit run of the leftmost occurrence of `adreno-` or `adreno_` immediately followed by
a digit, when there is such an occurrence, and exactly `Qualcomm Adreno` otherwise. So
the result is never empty, the match is made on the lower-cased text, and the blob
`qcom,adreno-750.1\0qcom,adreno` with driver `msm` decodes to `Qualcomm Adreno 750`. -/
theorem parseSocModel_adreno (tbl utbl : Char → Char) (driver blob : Str)
    (h : driver = "msm".toList ∨ "adreno".toList <:+: toLower tbl (replaceNul blob)) :
    (∀ i : Nat, adrenoAt (toLower tbl (replaceNul blob)) i = true →
      (∀ j, j < i → adrenoAt (toLower tbl (replaceNul blob)) j = false) →
      parseSocModel tbl utbl driver blob =
        "Qualcomm Adreno ".toList ++ digitRunAt (toLower tbl (replaceNul blob)) i ∧
      digitRunAt (toLower tbl (replaceNul blob)) i ≠ [] ∧
      (∀ c ∈ digitRunAt (toLower tbl (replaceNul blob)) i, isDigit c = true)) ∧
    ((∀ i : Nat, adrenoAt (toLower tbl (replaceNul blob)) i = false) →
      parseSocModel tbl utbl driver blob = "Qualcomm Adreno".toList) ∧
    parseSocModel tbl utbl driver blob ≠ [] ∧
    parseSocModel tbl utbl "msm".toList "qcom,adreno-750.1\x00qcom,adreno".toList =
      "Qualcomm Adreno 750".toList ∧
    parseSocModel tbl utbl "msm".toList "QCOM,Adreno_630v2".toList =
      "Qualcomm Adreno 630".toList := by
  have hb := parseSocModel_adreno_branch tbl utbl driver blob h
  refine ⟨?_, ?_, ?_, rfl, rfl⟩
  · intro i hi hlt
    have h1 := matchAdrenoHere_drop (toLower tbl (replaceNul blob)) i
    rw [if_pos hi] at h1
    have h2 := findSubmatch_at matchAdrenoHere (toLower tbl (replaceNul blob)) i
      (by rw [h1]; rfl)
      (fun j hj => by rw [matchAdrenoHere_drop, if_neg (by rw [hlt j hj]; exact Bool.noConfusion)])
    rw [hb, h2, h1]
    refine ⟨rfl, ?_, ?_⟩
    · unfold adrenoAt at hi
      unfold digitRunAt
      rw [Bool.and_eq_true] at hi
      cases hd : List.drop (i + 7) (toLower tbl (replaceNul blob)) with
      | nil => rw [hd] at hi; exact absurd hi.2 Bool.noConfusion
      | cons d rest =>
        rw [hd] at hi
        have hdig : isDigit d = true := hi.2
        rw [List.takeWhile_cons_of_pos hdig]
        exact List.cons_ne_nil _ _
    · intro c hc
      exact (List.mem_takeWhile_imp hc)
  · intro hnone
    have h2 := findSubmatch_none matchAdrenoHere (toLower tbl (replaceNul blob))
      (fun i => by rw [matchAdrenoHere_drop, if_neg (by rw [hnone i]; exact Bool.noConfusion)])
    rw [hb, h2]
  · rw [hb]
    cases findSubmatch matchAdrenoHere (toLower tbl (replaceNul blob)) with
    | none => exact List.cons_ne_nil _ _
    | some m => exact List.cons_ne_nil _ _

/-- C17 on the blob `qcom,adreno-750.1\0qcom,adreno` with driver `msm`: the leftmost
occurrence is at offset 5 and its digit run is `750`. -/
theorem parseSocModel_adreno_witness :
    parseSocModel id id "msm".toList "qcom,adreno-750.1\x00qcom,adreno".toList =
      "Qualcomm Adreno ".toList ++ "750".toList :=
  (((parseSocModel_adreno id id "msm".toList "qcom,adreno-750.1\x00qcom,adreno".toList
      (Or.inl rfl)).1 5 (by decide) (by decide)).1).trans (by decide)

/-! ## `getFromSysfsDRM` -/

theorem filepathBase_ne_nil (path : Str) : filepathBase path ≠ [] := by
  unfold filepathBase
  by_cases h : path = []
  · rw [if_pos h]
    exact List.cons_ne_nil _ _
  · rw [if_neg h]
    simp only
    split_ifs with h1 h2 h3
    · exact List.cons_ne_nil _ _
    · exact h2
    · exact List.cons_ne_nil _ _
    · exact h3

theorem find_label_of_ne (e : Str × Str) (t : List (Str × Str)) (d : Str) (h : e.1 ≠ d) :
    (e :: t).find? (fun x => decide (x.1 = d)) = t.find? (fun x => decide (x.1 = d)) := by
  rw [List.find?_cons]
  have : decide (e.1 = d) = false := decide_eq_false h
  rw [this]

/-- The `switch driverName` of the source is the table of known drivers. -/
theorem driverLabel_eq_knownLabel (d : Str) : driverLabel d = knownLabel d := by
  by_cases h1 : d = "vc4".toList
  · subst h1; rfl
  by_cases h2 : d = "vc4-drm".toList
  · subst h2; rfl
  by_cases h3 : d = "v3d".toList
  · subst h3; rfl
  by_cases h4 : d = "v3d-drm".toList
  · subst h4; rfl
  by_cases h5 : d = "msm".toList
  · subst h5; rfl
  by_cases h6 : d = "msm_drm".toList
  · subst h6; rfl
  by_cases h7 : d = "panfrost".toList
  · subst h7; rfl
  by_cases h8 : d = "lima".toList
  · subst h8; rfl
  by_cases h9 : d = "sun4i-drm".toList
  · subst h9; rfl
  by_cases h10 : d = "sunxi-drm".toList
  · subst h10; rfl
  by_cases h11 : d = "tegra".toList
  · subst h11; rfl
  by_cases h12 : d = "ast".toList
  · subst h12; rfl
  by_cases h13 : d = "i915".toList
  · subst h13; rfl
  by_cases h14 : d = "i915-drm".toList
  · subst h14; rfl
  by_cases h15 : d = "mgag200".toList
  · subst h15; rfl
  have hl : driverLabel d = none := by
    unfold driverLabel
    rw [if_neg (not_or.mpr ⟨h1, h2⟩), if_neg (not_or.mpr ⟨h3, h4⟩),
      if_neg (not_or.mpr ⟨h5, h6⟩), if_neg h7, if_neg h8, if_neg (not_or.mpr ⟨h9, h10⟩),
      if_neg h11, if_neg h12, if_neg (not_or.mpr ⟨h13, h14⟩), if_neg h15]
  have hr : knownLabel d = none := by
    unfold knownLabel knownDriverLabels
    rw [find_label_of_ne _ _ d (Ne.symm h1), find_label_of_ne _ _ d (Ne.symm h2),
      find_label_of_ne _ _ d (Ne.symm h3), find_label_of_ne _ _ d (Ne.symm h4),
      find_label_of_ne _ _ d (Ne.symm h5), find_label_of_ne _ _ d (Ne.symm h6),
      find_label_of_ne _ _ d (Ne.symm h7), find_label_of_ne _ _ d (Ne.symm h8),
      find_label_of_ne _ _ d (Ne.symm h9), find_label_of_ne _ _ d (Ne.symm h10),
      find_label_of_ne _ _ d (Ne.symm h11), find_label_of_ne _ _ d (Ne.symm h12),
      find_label_of_ne _ _ d (Ne.symm h13), find_label_of_ne _ _ d (Ne.symm h14),
      find_label_of_ne _ _ d (Ne.symm h15)]
    rfl
  rw [hl, hr]

/-- A card that does not qualify is passed over. -/
theorem drmLoop_skip (tbl utbl : Char → Char) (card : DrmCard) (rest : List DrmCard)
    (h : card.qualifies = false) :
    drmLoop tbl utbl (card :: rest) = drmLoop tbl utbl rest := by
  unfold DrmCard.qualifies DrmCard.driverName at h
  cases hl : card.driverLink with
  | none => simp only [drmLoop, hl]
  | some link =>
    rw [hl] at h
    have hin : filepathBase link ∈ excludedDrivers := by
      by_contra hc
      simp only [Option.map_some', hc, not_false_eq_true, decide_True] at h
      exact Bool.noConfusion h
    simp only [drmLoop, hl, hin, if_true]

/-- A qualifying card ends the loop with its result. -/
theorem drmLoop_qualifies (tbl utbl : Char → Char) (card : DrmCard) (rest : List DrmCard)
    (h : card.qualifies = true) :
    drmLoop tbl utbl (card :: rest) = some (cardResult tbl utbl card) := by
  unfold DrmCard.qualifies DrmCard.driverName at h
  unfold cardResult DrmCard.driverName
  cases hl : card.driverLink with
  | none => rw [hl] at h; exact Bool.noConfusion h
  | some link =>
    rw [hl] at h
    have hin : filepathBase link ∉ excludedDrivers := by
      simpa using h
    have hne := filepathBase_ne_nil link
    simp only [drmLoop, hl, hin, if_false, Option.map_some', driverLabel_eq_knownLabel]
    split_ifs with h1
    · rfl
    · cases knownLabel (filepathBase link) with
      | some label => rfl
      | none => simp only [ne_eq, hne, not_false_eq_true, if_true]

theorem drmLoop_first (tbl utbl : Char → Char) (pre post : List DrmCard) (card : DrmCard)
    (hpre : ∀ c ∈ pre, c.qualifies = false) (h : card.qualifies = true) :
    drmLoop tbl utbl (pre ++ card :: post) = some (cardResult tbl utbl card) := by
  induction pre with
  | nil => exact drmLoop_qualifies tbl utbl card post h
  | cons c pre ih =>
    rw [List.cons_append, drmLoop_skip tbl utbl c _ (hpre c (List.mem_cons_self _ _))]
    exact ih (fun x hx => hpre x (List.mem_cons_of_mem _ hx))

theorem drmLoop_none (tbl utbl : Char → Char) (cards : List DrmCard)
    (h : ∀ c ∈ cards, c.qualifies = false) : drmLoop tbl utbl cards = none := by
  induction cards with
  | nil => rfl
  | cons c cards ih =>
    rw [drmLoop_skip tbl utbl c _ (h c (List.mem_cons_self _ _))]
    exact ih (fun x hx => h x (List.mem_cons_of_mem _ hx))

/-- C18: for every ordered list of DRM cards, `getFromSysfsDRM` is decided by the
first card whose driver is present and not in the excluded-driver set (the eleven
names listed): it returns that card's `parseSocModel` result if non-empty, else the
fixed label of a known driver (the table `knownDriverLabels`), else
`Direct Render Manager <driver>`, whatever cards follow and whatever excluded or
unreadable cards precede. If no card qualifies, the result is
`Broadcom VideoCore (Integrated)` when the device-tree model text contains
`Raspberry Pi` and `None` otherwise. Each known driver, on a lone card without
compatible blob, yields its fixed label. -/
theorem getFromSysfsDRM_first_card (tbl utbl : Char → Char) (model : Option Str) :
    excludedDrivers =
      [ "virtio-pci".toList, "virtio_gpu".toList, "bochs-drm".toList, "qxl".toList,
        "vmwgfx".toList, "cirrus".toList, "vboxvideo".toList, "hyperv_fb".toList,
        "simpledrm".toList, "simplefb".toList, "cirrus-qemu".toList ] ∧
    (∀ (pre post : List DrmCard) (card : DrmCard),
      (∀ c ∈ pre, c.qualifies = false) → card.qualifies = true →
      getFromSysfsDRM tbl utbl (pre ++ card :: post) model = cardResult tbl utbl card) ∧
    (∀ cards : List DrmCard, (∀ c ∈ cards, c.qualifies = false) →
      getFromSysfsDRM tbl utbl cards model = boardResult model) ∧
    (∀ e ∈ knownDriverLabels,
      getFromSysfsDRM tbl utbl [⟨some ("../drivers/".toList ++ e.1), none⟩] model = e.2) := by
  refine ⟨rfl, ?_, ?_, ?_⟩
  · intro pre post card hpre h
    have h1 := drmLoop_first tbl utbl pre post card hpre h
    unfold getFromSysfsDRM
    rw [h1]
  · intro cards h
    unfold getFromSysfsDRM boardResult
    rw [drmLoop_none tbl utbl cards h]
    cases model with
    | none => rfl
    | some m =>
      simp only
      by_cases hm : "Raspberry Pi".toList <:+: m
      · rw [if_pos ((contains_iff _ _).mpr hm), if_pos hm]
      · rw [if_neg (fun hc => hm ((contains_iff _ _).mp hc)), if_neg hm]
  · intro e he
    have hall : knownDriverLabels.all (fun e =>
        decide (getFromSysfsDRM tbl utbl [⟨some ("../drivers/".toList ++ e.1), none⟩] model =
          e.2)) = true := rfl
    exact of_decide_eq_true (List.all_eq_true.mp hall e he)

/-- C18 on the demo cards: the card with the unreadable link and the `virtio_gpu` card
are passed over, the `msm` card decides with its decoded model, the `i915` card after
it is not consulted. A lone `i915` card gives the fixed label of that known driver, as
do an `msm` card without compatible blob and an `ast` card behind a `cirrus` one; a
lone `amdgpu` card gives the generic label; and with no qualifying card a Raspberry
Pi model text gives the VideoCore label. -/
theorem getFromSysfsDRM_first_card_witness :
    getFromSysfsDRM id id cardsDemo none = "Qualcomm Adreno 750".toList ∧
    getFromSysfsDRM id id
      [⟨some "../../../bus/pci/drivers/i915".toList, none⟩,
       ⟨some "../drivers/amdgpu".toList, none⟩] none =
      "Intel Integrated Graphics".toList ∧
    getFromSysfsDRM id id [⟨some "../drivers/msm".toList, none⟩] none =
      "Qualcomm Adreno (Unknown Model)".toList ∧
    getFromSysfsDRM id id
      [⟨some "../drivers/cirrus".toList, none⟩, ⟨some "../drivers/ast".toList, none⟩] none =
      "ASPEED Technology, Inc. ASPEED Graphics Family".toList ∧
    getFromSysfsDRM id id [⟨some "../drivers/amdgpu".toList, none⟩] none =
      "Direct Render Manager amdgpu".toList ∧
    getFromSysfsDRM id id [⟨none, none⟩, ⟨some "../drivers/simpledrm".toList, none⟩]
      (some "Raspberry Pi 4 Model B Rev 1.4".toList) =
      "Broadcom VideoCore (Integrated)".toList :=
  ⟨((getFromSysfsDRM_first_card id id none).2.1
      [⟨none, some "qcom,adreno-630.2".toList⟩,
       ⟨some "../../../bus/virtio/drivers/virtio_gpu".toList, none⟩]
      [⟨some "../../../bus/pci/drivers/i915".toList, none⟩]
      ⟨some "../../../../bus/platform/drivers/msm".toList,
        some "qcom,adreno-750.1\x00qcom,adreno".toList⟩
      (by decide) (by decide)).trans (by decide),
   ((getFromSysfsDRM_first_card id id none).2.1 []
      [⟨some "../drivers/amdgpu".toList, none⟩]
      ⟨some "../../../bus/pci/drivers/i915".toList, none⟩ (by decide) (by decide)).trans
      (by decide),
   ((getFromSysfsDRM_first_card id id none).2.1 [] []
      ⟨some "../drivers/msm".toList, none⟩ (by decide) (by decide)).trans (by decide),
   ((getFromSysfsDRM_first_card id id none).2.1
      [⟨some "../drivers/cirrus".toList, none⟩] []
      ⟨some "../drivers/ast".toList, none⟩ (by decide) (by decide)).trans (by decide),
   ((getFromSysfsDRM_first_card id id none).2.1 [] []
      ⟨some "../drivers/amdgpu".toList, none⟩ (by decide) (by decide)).trans (by decide),
   ((getFromSysfsDRM_first_card id id
      (some "Raspberry Pi 4 Model B Rev 1.4".toList)).2.2.1
      [⟨none, none⟩, ⟨some "../drivers/simpledrm".toList, none⟩] (by decide)).trans
      (by decide)⟩

/-! ## `getFromLspci`: the device name of a line -/

/-- A text that contains `c` splits at the first `c`. -/
theorem split_at_first (c : Char) (r : Str) (h : c ∈ r) :
    ∃ rest, r = r.takeWhile (fun x => x ≠ c) ++ c :: rest ∧
      r.dropWhile (fun x => x ≠ c) = c :: rest ∧
      r.indexOf c = (r.takeWhile (fun x => x ≠ c)).length := by
  induction r with
  | nil => cases h
  | cons x r ih =>
    by_cases hx : x = c
    · subst hx
      refine ⟨r, ?_, ?_, ?_⟩
      · rw [List.takeWhile_cons_of_neg (by simp)]; rfl
      · rw [List.dropWhile_cons_of_neg (by simp)]
      · rw [List.takeWhile_cons_of_neg (by simp), List.indexOf_cons_self]; rfl
    · have hc : c ∈ r := by
        rcases List.mem_cons.mp h with h1 | h1
        · exact absurd h1.symm hx
        · exact h1
      obtain ⟨rest, h1, h2, h3⟩ := ih hc
      have hp : decide (x ≠ c) = true := by simpa using hx
      have htw : List.takeWhile (fun x => decide (x ≠ c)) (x :: r) =
          x :: List.takeWhile (fun x => decide (x ≠ c)) r := by
        rw [List.takeWhile_cons, if_pos hp]
      have hdw : List.dropWhile (fun x => decide (x ≠ c)) (x :: r) =
          List.dropWhile (fun x => decide (x ≠ c)) r := by
        rw [List.dropWhile_cons, if_pos hp]
      refine ⟨rest, ?_, ?_, ?_⟩
      · rw [htw, List.cons_append, ← h1]
      · rw [hdw, h2]
      · rw [htw, List.indexOf_cons_ne _ hx, h3]; rfl

/-- A text that contains `c` splits at the last `c`, and `lastIndex`, `afterLast` and
`beforeLast` read off the parts. -/
theorem split_at_last (c : Char) (s : Str) (h : c ∈ s) :
    ∃ pre post, s = pre ++ c :: post ∧ lastIndex s c = (pre.length : Int) ∧
      afterLast c s = post ∧ beforeLast c s = pre := by
  obtain ⟨rest, h1, h2, h3⟩ := split_at_first c s.reverse (List.mem_reverse.mpr h)
  refine ⟨rest.reverse, (s.reverse.takeWhile (fun x => x ≠ c)).reverse, ?_, ?_, rfl, ?_⟩
  · have := congrArg List.reverse h1
    rw [List.reverse_reverse] at this
    exact this.trans (by simp)
  · unfold lastIndex
    rw [if_pos h, h3]
    have hlen := congrArg List.length h1
    rw [List.length_reverse, List.length_append, List.length_cons] at hlen
    rw [List.length_reverse]
    congr 1
    omega
  · unfold beforeLast
    rw [h2]
    rfl

/-- The closure `extractName` computes the device name of the specification. -/
theorem extractName_eq_nameOf (line : Str) : extractName line = nameOf line := by
  unfold extractName nameOf
  by_cases hc : ':' ∈ line
  · obtain ⟨pre, post, hs, hidx, hafter, -⟩ := split_at_last ':' line hc
    rw [if_pos hc, hidx, hafter]
    have hlen : (line.length : Int) = pre.length + 1 + post.length := by
      rw [hs, List.length_append, List.length_cons]
      push_cast
      ring
    have hdrop : line.drop ((pre.length : Int) + 1).toNat = post := by
      have : ((pre.length : Int) + 1).toNat = pre.length + 1 := by omega
      rw [this, hs]
      simp
    by_cases hp : post = []
    · have h1 : (pre.length : Int) = -1 ∨ (pre.length : Int) = (line.length : Int) - 1 := by
        right
        rw [hlen, hp]
        simp
      rw [if_pos h1, hp]
      rfl
    · have h1 : ¬ ((pre.length : Int) = -1 ∨ (pre.length : Int) = (line.length : Int) - 1) := by
        have : 0 < post.length := List.length_pos.mpr hp
        omega
      rw [if_neg h1]
      simp only [hdrop]
      by_cases hparen : '(' ∈ trimSpace post
      · obtain ⟨pre2, post2, -, hidx2, -, hbefore2⟩ := split_at_last '(' (trimSpace post) hparen
        have h2 : lastIndex (trimSpace post) '(' ≠ -1 := by rw [hidx2]; omega
        rw [if_pos h2, if_pos hparen, hbefore2, hidx2]
        have : ((pre2.length : Int)).toNat = pre2.length := by omega
        rw [this]
        obtain ⟨pre3, post3, hs3, -, -, hb3⟩ := split_at_last '(' (trimSpace post) hparen
        rw [hb3] at hbefore2
        rw [hs3, ← hbefore2]
        simp
      · have h2 : ¬ lastIndex (trimSpace post) '(' ≠ -1 := by
          unfold lastIndex
          rw [if_neg hparen]
          exact fun h => h rfl
        rw [if_neg h2, if_neg hparen]
  · have h1 : lastIndex line ':' = -1 := by
      unfold lastIndex
      rw [if_neg hc]
    rw [h1, if_pos (Or.inl rfl), if_neg hc]

/-! ## `getFromLspci`: the exclusion patterns -/

theorem char_eq_iff_toNat (c d : Char) : c = d ↔ c.toNat = d.toNat := by
  constructor
  · intro h; rw [h]
  · intro h
    rw [← Char.ofNat_toNat c, ← Char.ofNat_toNat d, h]

/-- Every pair of the folding table is a pair that `foldEq` accepts. -/
theorem foldPairs_sound :
    ∀ e ∈ foldPairs,
      (('a'.toNat ≤ e.2.toNat ∧ e.2.toNat ≤ 'z'.toNat) ∧ e.1.toNat + 32 = e.2.toNat) ∨
      (e.2 = 's' ∧ e.1.toNat = 0x17F) ∨ (e.2 = 'k' ∧ e.1.toNat = 0x212A) := by
  decide

/-- The capital of a lower-case letter is paired with it in the folding table. -/
theorem foldPairs_capital (n : Nat) (h1 : 97 ≤ n) (h2 : n ≤ 122) :
    (Char.ofNat (n - 32), Char.ofNat n) ∈ foldPairs := by
  interval_cases n <;> decide

/-- The test `foldEq` of the embedding is the case-insensitive reading of the
specification. -/
theorem foldEq_eq_sameFolded (p c : Char) : foldEq p c = sameFolded p c := by
  unfold foldEq sameFolded
  have hmem : ((c, p) ∈ foldPairs) ↔
      ((('a'.toNat ≤ p.toNat ∧ p.toNat ≤ 'z'.toNat) ∧ c.toNat + 32 = p.toNat) ∨
        (p = 's' ∧ c.toNat = 0x17F) ∨ (p = 'k' ∧ c.toNat = 0x212A)) := by
    constructor
    · intro h
      exact foldPairs_sound (c, p) h
    · rintro (⟨⟨h1, h2⟩, h3⟩ | ⟨h1, h2⟩ | ⟨h1, h2⟩)
      · have ha : 'a'.toNat = 97 := by decide
        have hz : 'z'.toNat = 122 := by decide
        have hc : c = Char.ofNat (p.toNat - 32) := by
          rw [char_eq_iff_toNat]
          have : c.toNat = p.toNat - 32 := by omega
          rw [← Char.ofNat_toNat c, this]
        have hcap := foldPairs_capital p.toNat (by omega) (by omega)
        rw [Char.ofNat_toNat] at hcap
        rw [hc]
        exact hcap
      · have hc : c = Char.ofNat 0x17F := by rw [← Char.ofNat_toNat c, h2]
        rw [hc, h1]
        decide
      · have hc : c = Char.ofNat 0x212A := by rw [← Char.ofNat_toNat c, h2]
        rw [hc, h1]
        decide
  rw [Bool.eq_iff_iff]
  simp only [Bool.or_eq_true, Bool.and_eq_true, decide_eq_true_eq]
  rw [hmem]
  tauto

theorem foldPrefix_nil (s : Str) : foldPrefix [] s = true := by
  simp [foldPrefix, foldSame]

theorem foldPrefix_cons_nil (p : Char) (ps : Str) : foldPrefix (p :: ps) [] = false := by
  simp [foldPrefix, foldSame]

theorem foldPrefix_cons (p c : Char) (ps s : Str) :
    foldPrefix (p :: ps) (c :: s) = (sameFolded p c && foldPrefix ps s) := by
  unfold foldPrefix foldSame
  rw [Bool.eq_iff_iff]
  simp only [List.length_cons, List.take_succ_cons, List.zip_cons_cons, List.all_cons,
    Bool.and_eq_true, decide_eq_true_eq, Nat.add_right_cancel_iff]
  tauto

theorem foldPrefix_append (a b : Str) :
    ∀ s : Str, foldPrefix (a ++ b) s = (foldPrefix a s && foldPrefix b (s.drop a.length)) := by
  induction a with
  | nil =>
    intro s
    rw [List.nil_append, foldPrefix_nil, Bool.true_and, List.length_nil, List.drop_zero]
  | cons p ps ih =>
    intro s
    cases s with
    | nil => rw [List.cons_append, foldPrefix_cons_nil, foldPrefix_cons_nil, Bool.false_and]
    | cons c s =>
      rw [List.cons_append, foldPrefix_cons, foldPrefix_cons, ih, List.length_cons,
        List.drop_succ_cons, Bool.and_assoc]

/-- The literal matcher of the embedding succeeds exactly on a case-insensitive prefix
and leaves the rest of the text. -/
theorem matchFold_eq (pat : Str) :
    ∀ s : Str, matchFold pat s =
      if foldPrefix pat s = true then some (s.drop pat.length) else none := by
  induction pat with
  | nil =>
    intro s
    rw [foldPrefix_nil, if_pos rfl, List.length_nil, List.drop_zero]
    cases s <;> rfl
  | cons p ps ih =>
    intro s
    cases s with
    | nil =>
      rw [foldPrefix_cons_nil]
      rfl
    | cons c s =>
      rw [foldPrefix_cons, ← foldEq_eq_sameFolded]
      show (if foldEq p c = true then matchFold ps s else none) = _
      rw [ih, List.length_cons, List.drop_succ_cons]
      by_cases h1 : foldEq p c = true
      · rw [if_pos h1, h1, Bool.true_and]
      · have h2 : foldEq p c = false := by
          cases hb : foldEq p c
          · rfl
          · exact absurd hb h1
        rw [if_neg h1, h2, Bool.false_and, if_neg Bool.noConfusion]

theorem isSome_matchFold (pat s : Str) : (matchFold pat s).isSome = foldPrefix pat s := by
  rw [matchFold_eq]
  cases foldPrefix pat s
  · rw [if_neg Bool.noConfusion]; rfl
  · rw [if_pos rfl]; rfl

/-- The unanchored search of the embedding is case-insensitive containment. -/
theorem searchFold_eq (pat : Str) : ∀ s : Str, searchFold pat s = foldInfix pat s := by
  intro s
  induction s with
  | nil =>
    show (matchFold pat []).isSome = ([[]] : List Str).any (fun t => foldPrefix pat t)
    rw [isSome_matchFold, List.any_cons, List.any_nil, Bool.or_false]
  | cons c s ih =>
    show ((matchFold pat (c :: s)).isSome || searchFold pat s) =
      ((c :: s) :: s.tails).any (fun t => foldPrefix pat t)
    rw [isSome_matchFold, ih, List.any_cons]
    rfl

theorem sameFolded_of_not_letter (sep c : Char) (h : sep ∉ foldPairs.map Prod.snd) :
    sameFolded sep c = decide (c = sep) := by
  unfold sameFolded
  have hn : (c, sep) ∉ foldPairs := fun hm => h (List.mem_map.mpr ⟨(c, sep), hm, rfl⟩)
  rw [decide_eq_false hn, Bool.or_false]

theorem match_matchFold (pat s : Str) (X : Str → Bool) :
    (match matchFold pat s with
     | none => false
     | some r => X r) = (foldPrefix pat s && X (s.drop pat.length)) := by
  rw [matchFold_eq]
  cases foldPrefix pat s
  · rw [if_neg Bool.noConfusion, Bool.false_and]
  · rw [if_pos rfl, Bool.true_and]

/-- The separator test of the Cirrus Logic pattern: a hyphen or one of the five
white-space characters. -/
theorem cirrus_separator (c : Char) :
    (decide (c = '-') || isReSpace c) =
      (decide (c = '-') || decide (c = '\t') || decide (c = '\n') || decide (c = '\x0c') ||
        decide (c = '\r') || decide (c = ' ')) := by
  unfold isReSpace
  rw [Bool.eq_iff_iff]
  simp only [Bool.or_eq_true, decide_eq_true_eq]
  rw [char_eq_iff_toNat c '\t', char_eq_iff_toNat c '\n', char_eq_iff_toNat c '\x0c',
    char_eq_iff_toNat c '\r', char_eq_iff_toNat c ' ']
  have h1 : '\t'.toNat = 0x09 := by decide
  have h2 : '\n'.toNat = 0x0A := by decide
  have h3 : '\x0c'.toNat = 0x0C := by decide
  have h4 : '\r'.toNat = 0x0D := by decide
  have h5 : ' '.toNat = 0x20 := by decide
  rw [h1, h2, h3, h4, h5]
  tauto

theorem cirrus_after_cl (r2 : Str) :
    (match r2 with
     | c :: r3 => (decide (c = '-') || isReSpace c) && (matchFold "gd 5".toList r3).isSome
     | [] => false) =
      (foldPrefix ('-' :: "gd 5".toList) r2 || foldPrefix ('\t' :: "gd 5".toList) r2 ||
        foldPrefix ('\n' :: "gd 5".toList) r2 || foldPrefix ('\x0c' :: "gd 5".toList) r2 ||
        foldPrefix ('\r' :: "gd 5".toList) r2 || foldPrefix (' ' :: "gd 5".toList) r2) := by
  cases r2 with
  | nil =>
    show false = _
    rw [foldPrefix_cons_nil, foldPrefix_cons_nil, foldPrefix_cons_nil, foldPrefix_cons_nil,
      foldPrefix_cons_nil, foldPrefix_cons_nil]
    rfl
  | cons c r3 =>
    show ((decide (c = '-') || isReSpace c) && (matchFold "gd 5".toList r3).isSome) = _
    rw [cirrus_separator, isSome_matchFold, foldPrefix_cons, foldPrefix_cons, foldPrefix_cons,
      foldPrefix_cons, foldPrefix_cons, foldPrefix_cons,
      sameFolded_of_not_letter '-' c (by decide), sameFolded_of_not_letter '\t' c (by decide),
      sameFolded_of_not_letter '\n' c (by decide),
      sameFolded_of_not_letter '\x0c' c (by decide),
      sameFolded_of_not_letter '\r' c (by decide), sameFolded_of_not_letter ' ' c (by decide)]
    rw [Bool.eq_iff_iff]
    simp only [Bool.or_eq_true, Bool.and_eq_true]
    tauto

/-- The matcher for the Cirrus Logic pattern with its literal matches read as
case-insensitive prefixes. -/
theorem matchCirrus_unfold (name : Str) : matchCirrus name =
      (foldPrefix "cirrus logic ".toList name &&
        (foldPrefix "gd 5".toList (name.drop "cirrus logic ".toList.length) ||
          (foldPrefix "cl".toList (name.drop "cirrus logic ".toList.length) &&
            (foldPrefix "gd 5".toList
                ((name.drop "cirrus logic ".toList.length).drop "cl".toList.length) ||
              (match (name.drop "cirrus logic ".toList.length).drop "cl".toList.length with
               | c :: r3 =>
                 (decide (c = '-') || isReSpace c) && (matchFold "gd 5".toList r3).isSome
               | [] => false))))) := by
    unfold matchCirrus
    rw [match_matchFold "cirrus logic ".toList name
      (fun r => (matchFold "gd 5".toList r).isSome ||
        (match matchFold "cl".toList r with
         | none => false
         | some r2 =>
           (matchFold "gd 5".toList r2).isSome ||
           (match r2 with
            | c :: r3 =>
              (decide (c = '-') || isReSpace c) && (matchFold "gd 5".toList r3).isSome
            | [] => false)))]
    show (_ && (_ || (match matchFold "cl".toList _ with
         | none => false
         | some r2 => (fun r2 => (matchFold "gd 5".toList r2).isSome ||
           (match r2 with
            | c :: r3 =>
              (decide (c = '-') || isReSpace c) && (matchFold "gd 5".toList r3).isSome
            | [] => false)) r2))) = _
    rw [match_matchFold, isSome_matchFold]
    show (_ && (_ || (_ && ((matchFold _ _).isSome || _)))) = _
    rw [isSome_matchFold]
    rfl

theorem matchCirrus_branches (name : Str) : matchCirrus name =
      (foldPrefix "cirrus logic ".toList name &&
        (foldPrefix "gd 5".toList (name.drop "cirrus logic ".toList.length) ||
          (foldPrefix "cl".toList (name.drop "cirrus logic ".toList.length) &&
            (foldPrefix "gd 5".toList
                ((name.drop "cirrus logic ".toList.length).drop "cl".toList.length) ||
              (foldPrefix ('-' :: "gd 5".toList)
                  ((name.drop "cirrus logic ".toList.length).drop "cl".toList.length) ||
               foldPrefix ('\t' :: "gd 5".toList)
                  ((name.drop "cirrus logic ".toList.length).drop "cl".toList.length) ||
               foldPrefix ('\n' :: "gd 5".toList)
                  ((name.drop "cirrus logic ".toList.length).drop "cl".toList.length) ||
               foldPrefix ('\x0c' :: "gd 5".toList)
                  ((name.drop "cirrus logic ".toList.length).drop "cl".toList.length) ||
               foldPrefix ('\r' :: "gd 5".toList)
                  ((name.drop "cirrus logic ".toList.length).drop "cl".toList.length) ||
               foldPrefix (' ' :: "gd 5".toList)
                  ((name.drop "cirrus logic ".toList.length).drop "cl".toList.length)))))) := by
  rw [matchCirrus_unfold]
  exact congrArg (fun t =>
    (foldPrefix "cirrus logic ".toList name &&
      (foldPrefix "gd 5".toList (name.drop "cirrus logic ".toList.length) ||
        (foldPrefix "cl".toList (name.drop "cirrus logic ".toList.length) &&
          (foldPrefix "gd 5".toList
              ((name.drop "cirrus logic ".toList.length).drop "cl".toList.length) ||
            t))))) (cirrus_after_cl _)

theorem cirrusPrefixes_any (name : Str) :
    cirrusPrefixes.any (fun p => foldPrefix p name) =
      (foldPrefix ("cirrus logic ".toList ++ "gd 5".toList) name ||
       (foldPrefix ("cirrus logic ".toList ++ ("cl".toList ++ "gd 5".toList)) name ||
       (foldPrefix ("cirrus logic ".toList ++ ("cl".toList ++ ('-' :: "gd 5".toList))) name ||
       (foldPrefix ("cirrus logic ".toList ++ ("cl".toList ++ ('\t' :: "gd 5".toList))) name ||
       (foldPrefix ("cirrus logic ".toList ++ ("cl".toList ++ ('\n' :: "gd 5".toList))) name ||
       (foldPrefix ("cirrus logic ".toList ++ ("cl".toList ++ ('\x0c' :: "gd 5".toList))) name ||
       (foldPrefix ("cirrus logic ".toList ++ ("cl".toList ++ ('\r' :: "gd 5".toList))) name ||
       (foldPrefix ("cirrus logic ".toList ++ ("cl".toList ++ (' ' :: "gd 5".toList))) name ||
         false)))))))) := rfl

/-- The matcher for the Cirrus Logic pattern accepts exactly the names that start, up
to case, with one of the eight beginnings the pattern stands for. -/
theorem matchCirrus_eq (name : Str) :
    matchCirrus name = cirrusPrefixes.any (fun p => foldPrefix p name) := by
  rw [matchCirrus_branches, cirrusPrefixes_any]
  repeat rw [foldPrefix_append]
  generalize foldPrefix "cirrus logic ".toList name = a
  generalize foldPrefix "gd 5".toList (List.drop "cirrus logic ".toList.length name) = b
  generalize foldPrefix "cl".toList (List.drop "cirrus logic ".toList.length name) = c
  generalize List.drop "cl".toList.length (List.drop "cirrus logic ".toList.length name) = r
  generalize foldPrefix "gd 5".toList r = d
  generalize foldPrefix ('-' :: "gd 5".toList) r = e1
  generalize foldPrefix ('\t' :: "gd 5".toList) r = e2
  generalize foldPrefix ('\n' :: "gd 5".toList) r = e3
  generalize foldPrefix ('\x0c' :: "gd 5".toList) r = e4
  generalize foldPrefix ('\r' :: "gd 5".toList) r = e5
  generalize foldPrefix (' ' :: "gd 5".toList) r = e6
  rw [Bool.eq_iff_iff]
  simp only [Bool.or_eq_true, Bool.and_eq_true, Bool.or_false]
  tauto

/-- The exclusion test of `getFromLspci` is the exclusion of the specification. -/
theorem isExcluded_eq (name : Str) : isExcluded name = matchesExclusion name := by
  unfold isExcluded matchesExclusion excludePatterns
  simp only [List.any_cons, List.any_nil, Bool.or_false]
  rw [matchCirrus_eq, searchFold_eq, searchFold_eq, searchFold_eq, searchFold_eq]
  unfold hasPrefix
  simp only [Bool.or_assoc]

theorem codeCandidate_eq (tbl : Char → Char) : codeCandidate tbl = isCandidate tbl := by
  funext l
  unfold codeCandidate isCandidate
  rw [isExcluded_eq]

/-! ## `getFromLspci`: the two passes -/

/-- The inner vendor loop returns the name of the line exactly when the line contains
a listed vendor and its name is non-empty and not excluded. -/
theorem vendorLoop_eq (lower line : Str) (vendors : List Str) :
    vendorLoop lower line vendors =
      if (vendors.any (fun vendor => contains lower vendor) &&
          decide (nameOf line ≠ []) && !isExcluded (nameOf line)) = true
      then some (nameOf line) else none := by
  induction vendors with
  | nil => rfl
  | cons v vs ih =>
    rw [List.any_cons]
    by_cases hv : contains lower v = true
    · by_cases hn : nameOf line ≠ [] ∧ isExcluded (nameOf line) = false
      · have h1 : vendorLoop lower line (v :: vs) = some (nameOf line) := by
          simp only [vendorLoop, hv, if_true, extractName_eq_nameOf]
          rw [if_pos hn]
        rw [h1, if_pos]
        simp [hv, hn.1, hn.2]
      · have h1 : vendorLoop lower line (v :: vs) = vendorLoop lower line vs := by
          simp only [vendorLoop, hv, if_true, extractName_eq_nameOf]
          rw [if_neg hn]
        rw [h1, ih, if_neg, if_neg]
        · intro h
          simp only [Bool.and_eq_true, decide_eq_true_eq, Bool.not_eq_true', Bool.or_eq_true] at h
          exact hn ⟨h.1.2, h.2⟩
        · intro h
          simp only [Bool.and_eq_true, decide_eq_true_eq, Bool.not_eq_true'] at h
          exact hn ⟨h.1.2, h.2⟩
    · have h1 : vendorLoop lower line (v :: vs) = vendorLoop lower line vs := by
        simp only [vendorLoop, hv]
        rfl
      have hv2 : contains lower v = false := by
        cases hb : contains lower v
        · rfl
        · exact absurd hb hv
      rw [h1, ih, hv2, Bool.false_or]

/-- The display test of the first pass, which is written with negations, is the
display test of the second pass. -/
theorem not_display_iff (tbl : Char → Char) (line : Str) :
    ((!contains (toLower tbl line) "vga".toList && !contains (toLower tbl line) "3d".toList &&
        !contains (toLower tbl line) "display".toList) = true) ↔
      isDisplayLine tbl line = false := by
  unfold isDisplayLine
  cases contains (toLower tbl line) "vga".toList <;>
    cases contains (toLower tbl line) "3d".toList <;>
    cases contains (toLower tbl line) "display".toList <;> decide

/-- The first pass returns the name of the first candidate line that contains a
priority vendor. -/
theorem priorityLoop_eq (tbl : Char → Char) (lines : List Str) :
    priorityLoop tbl lines =
      (lines.find? (fun l => codeCandidate tbl l && hasPriorityVendor tbl l)).map nameOf := by
  induction lines with
  | nil => rfl
  | cons l lines ih =>
    by_cases hd : isDisplayLine tbl l = true
    · have hnd : ¬ ((!contains (toLower tbl l) "vga".toList &&
          !contains (toLower tbl l) "3d".toList &&
          !contains (toLower tbl l) "display".toList) = true) := by
        rw [not_display_iff, hd]
        exact Bool.noConfusion
      have h1 : priorityLoop tbl (l :: lines) =
          match vendorLoop (toLower tbl l) l priorityVendors with
          | some name => some name
          | none => priorityLoop tbl lines := by
        simp only [priorityLoop]
        rw [if_neg hnd]
      rw [h1, vendorLoop_eq, List.find?_cons]
      by_cases hc : (codeCandidate tbl l && hasPriorityVendor tbl l) = true
      · have hc2 : (priorityVendors.any (fun vendor => contains (toLower tbl l) vendor) &&
            decide (nameOf l ≠ []) && !isExcluded (nameOf l)) = true := by
          unfold codeCandidate hasPriorityVendor at hc
          simp only [Bool.and_eq_true] at hc ⊢
          exact ⟨⟨hc.2, hc.1.1.2⟩, hc.1.2⟩
        rw [if_pos hc2, hc]
        rfl
      · have hc2 : ¬ ((priorityVendors.any (fun vendor => contains (toLower tbl l) vendor) &&
            decide (nameOf l ≠ []) && !isExcluded (nameOf l)) = true) := by
          intro h
          apply hc
          unfold codeCandidate hasPriorityVendor
          simp only [Bool.and_eq_true] at h ⊢
          exact ⟨⟨⟨hd, h.1.2⟩, h.2⟩, h.1.1⟩
        have hc3 : (codeCandidate tbl l && hasPriorityVendor tbl l) = false := by
          cases hb : (codeCandidate tbl l && hasPriorityVendor tbl l)
          · rfl
          · exact absurd hb hc
        rw [if_neg hc2, hc3]
        exact ih
    · have hd2 : isDisplayLine tbl l = false := by
        cases hb : isDisplayLine tbl l
        · rfl
        · exact absurd hb hd
      have h1 : priorityLoop tbl (l :: lines) = priorityLoop tbl lines := by
        simp only [priorityLoop]
        rw [if_pos ((not_display_iff tbl l).mpr hd2)]
      have hc3 : (codeCandidate tbl l && hasPriorityVendor tbl l) = false := by
        unfold codeCandidate
        rw [hd2]
        rfl
      rw [h1, List.find?_cons, hc3]
      exact ih

/-- The second pass returns the name of the first candidate line. -/
theorem fallbackLoop_eq (tbl : Char → Char) (lines : List Str) :
    fallbackLoop tbl lines = (lines.find? (codeCandidate tbl)).map nameOf := by
  induction lines with
  | nil => rfl
  | cons l lines ih =>
    rw [List.find?_cons]
    by_cases hd : isDisplayLine tbl l = true
    · have hd' := hd
      unfold isDisplayLine at hd'
      by_cases hn : nameOf l ≠ [] ∧ isExcluded (nameOf l) = false
      · have h1 : fallbackLoop tbl (l :: lines) = some (nameOf l) := by
          simp only [fallbackLoop, extractName_eq_nameOf]
          rw [if_pos hd', if_pos hn]
        have hc : codeCandidate tbl l = true := by
          unfold codeCandidate
          simp [hd, hn.1, hn.2]
        rw [h1, hc]
        rfl
      · have h1 : fallbackLoop tbl (l :: lines) = fallbackLoop tbl lines := by
          simp only [fallbackLoop, extractName_eq_nameOf]
          rw [if_pos hd', if_neg hn]
        have hc : codeCandidate tbl l = false := by
          cases hb : codeCandidate tbl l
          · rfl
          · exfalso
            unfold codeCandidate at hb
            simp only [Bool.and_eq_true, decide_eq_true_eq, Bool.not_eq_true'] at hb
            exact hn ⟨hb.1.2, hb.2⟩
        rw [h1, hc]
        exact ih
    · have hd' := hd
      unfold isDisplayLine at hd'
      have h1 : fallbackLoop tbl (l :: lines) = fallbackLoop tbl lines := by
        simp only [fallbackLoop]
        rw [if_neg hd']
      have hc : codeCandidate tbl l = false := by
        have hd2 : isDisplayLine tbl l = false := by
          cases hb : isDisplayLine tbl l
          · rfl
          · exact absurd hb hd
        unfold codeCandidate
        rw [hd2]
        rfl
      rw [h1, hc]
      exact ih

/-- The result of `getFromLspci` on an output, in terms of the two searches. -/
theorem getFromLspci_eq {ε : Type} (tbl : Char → Char) (out : Str) :
    getFromLspci tbl (Except.ok out : Except ε Str) =
      match (split out '\n').find? (fun l => codeCandidate tbl l && hasPriorityVendor tbl l) with
      | some l => nameOf l
      | none =>
        match (split out '\n').find? (codeCandidate tbl) with
        | some l => nameOf l
        | none => "None".toList := by
  unfold getFromLspci
  simp only [priorityLoop_eq, fallbackLoop_eq]
  cases (split out '\n').find? (fun l => codeCandidate tbl l && hasPriorityVendor tbl l) with
  | some l => rfl
  | none =>
    cases (split out '\n').find? (codeCandidate tbl) with
    | some l => rfl
    | none => rfl

/-- The two passes in the words of the specification: the exclusion test is the one
of the specification. -/
theorem getFromLspci_candidates {ε : Type} (tbl : Char → Char) (out : Str) :
    getFromLspci tbl (Except.ok out : Except ε Str) =
      match (split out '\n').find? (fun l => isCandidate tbl l && hasPriorityVendor tbl l) with
      | some l => nameOf l
      | none =>
        match (split out '\n').find? (isCandidate tbl) with
        | some l => nameOf l
        | none => "None".toList := by
  have h := getFromLspci_eq (ε := ε) tbl out
  rw [codeCandidate_eq] at h
  exact h

/-- C15: for every `lspci` output, `getFromLspci` returns the name of the first
candidate line that contains a priority vendor if there is one (whatever excluded or
non-priority display lines precede it), otherwise the name of the first candidate
line, otherwise `None`. The name of a line is the text after its last colon, trimmed
and cut before its last `(` (empty without a colon or with nothing after it); a line
is a candidate when its lower-cased text contains `vga`, `3d` or `display` and its
name is non-empty and matches no exclusion pattern: it does not start with `1111`,
does not start, up to case, with `cirrus logic `, optionally `cl` and optionally one
hyphen or white-space character, and `gd 5`, and does not contain, up to case,
`virtio`, `vmware`, `qxl` or `hyper-v`. The priority vendors are nvidia, amd, radeon,
intel, arc, snap, qualcomm and snapdragon. The returned name never matches an
exclusion pattern; a display line with an excluded name, such as a Cirrus Logic
GD 5446 adapter, alone yields `None`; and the NVIDIA line of the specification
resolves to `NVIDIA Corporation Device 2504`. -/
theorem getFromLspci_priority {ε : Type} (tbl : Char → Char) (out : Str) :
    getFromLspci tbl (Except.ok out : Except ε Str) =
      (match (split out '\n').find?
          (fun l => isCandidate tbl l && hasPriorityVendor tbl l) with
        | some l => nameOf l
        | none =>
          match (split out '\n').find? (isCandidate tbl) with
          | some l => nameOf l
          | none => "None".toList) ∧
    matchesExclusion (getFromLspci tbl (Except.ok out : Except ε Str)) = false ∧
    priorityVendors =
      [ "nvidia".toList, "amd".toList, "radeon".toList, "intel".toList, "arc".toList,
        "snap".toList, "qualcomm".toList, "snapdragon".toList ] ∧
    (∀ line : Str, nameOf line = extractName line ∧ (':' ∉ line → nameOf line = []) ∧
      nameOf (line ++ [':']) = []) ∧
    (∀ line ∈ excludedDemo,
      isDisplayLine id line = true ∧ nameOf line ≠ [] ∧
      matchesExclusion (nameOf line) = true ∧
      getFromLspci id (Except.ok line : Except ε Str) = "None".toList) ∧
    getFromLspci tbl (Except.ok
      "01:00.0 VGA compatible controller: NVIDIA Corporation Device 2504 (rev a1)".toList :
        Except ε Str) = "NVIDIA Corporation Device 2504".toList ∧
    getFromLspci id (Except.ok lspciDemo : Except ε Str) =
      "NVIDIA Corporation Device 2504".toList := by
  refine ⟨getFromLspci_candidates tbl out, ?_, rfl, ?_, ?_, rfl, rfl⟩
  · rw [getFromLspci_candidates]
    cases h1 : (split out '\n').find?
        (fun l => isCandidate tbl l && hasPriorityVendor tbl l) with
    | some l =>
      have hp := List.find?_some h1
      simp only [isCandidate, Bool.and_eq_true, Bool.not_eq_true'] at hp
      exact hp.1.2
    | none =>
      cases h2 : (split out '\n').find? (isCandidate tbl) with
      | some l =>
        have hp := List.find?_some h2
        simp only [isCandidate, Bool.and_eq_true, Bool.not_eq_true'] at hp
        exact hp.2
      | none => decide
  · intro line
    refine ⟨(extractName_eq_nameOf line).symm, ?_, ?_⟩
    · intro h
      unfold nameOf
      rw [if_neg h]
    · unfold nameOf afterLast
      rw [if_pos (by simp)]
      simp only [List.reverse_append, List.reverse_cons, List.reverse_nil, List.nil_append,
        List.singleton_append]
      rw [List.takeWhile_cons_of_neg (by simp)]
      rfl
  · intro line hl
    have hall : excludedDemo.all (fun l =>
        isDisplayLine id l && decide (nameOf l ≠ []) && matchesExclusion (nameOf l) &&
          decide (getFromLspci id (Except.ok l : Except ε Str) = "None".toList)) = true := rfl
    have h := List.all_eq_true.mp hall line hl
    simp only [Bool.and_eq_true, decide_eq_true_eq] at h
    exact ⟨h.1.1.1, h.1.1.2, h.1.2, h.2⟩

/-- C15 on the demo outputs: the Virtio adapter of VGA class is excluded, the Intel
network card is no display line, the ASPEED adapter is a candidate without priority
vendor, and the NVIDIA adapter after them is returned; without the NVIDIA line the
ASPEED adapter is; a Cirrus Logic GD 5446 adapter before an Intel adapter is passed
over; and a Cirrus Logic adapter alone yields `None`. -/
theorem getFromLspci_priority_witness :
    getFromLspci id (Except.ok lspciDemo : Except Unit Str) =
      "NVIDIA Corporation Device 2504".toList ∧
    getFromLspci id (Except.ok
      ("00:01.0 VGA compatible controller: Red Hat, Inc. Virtio GPU (rev 01)\n" ++
       "00:03.0 VGA compatible controller: ASPEED Technology, Inc. ASPEED Graphics Family (rev 41)"
      ).toList : Except Unit Str) =
      "ASPEED Technology, Inc. ASPEED Graphics Family".toList ∧
    getFromLspci id (Except.ok
      ("00:02.0 VGA compatible controller: Cirrus Logic GD 5446\n" ++
       "00:03.0 VGA compatible controller: Intel Corporation UHD Graphics 630 (rev 02)"
      ).toList : Except Unit Str) =
      "Intel Corporation UHD Graphics 630".toList ∧
    getFromLspci id (Except.ok
      "00:02.0 VGA compatible controller: Cirrus Logic GD 5446".toList : Except Unit Str) =
      "None".toList :=
  ⟨(getFromLspci_priority (ε := Unit) id lspciDemo).1.trans (by decide),
   (getFromLspci_priority (ε := Unit) id _).1.trans (by decide),
   (getFromLspci_priority (ε := Unit) id _).1.trans (by decide),
   (getFromLspci_priority (ε := Unit) id _).1.trans (by decide)⟩

/-! ## The display check and the slot address -/

/-- C16 fails on the code: the `lspci` output `lspciBus3d` has a single device line,
an Intel network card in slot `3d:00.0`, whose description contains none of `vga`,
`3d` and `display`; `getFromLspci` nevertheless returns the network card's name, not
`None`, because the display check reads the whole line, slot address included. -/
theorem getFromLspci_bus_3d :
    (∀ l ∈ split lspciBus3d '\n',
      contains (toLower id (description l)) "vga".toList = false ∧
      contains (toLower id (description l)) "3d".toList = false ∧
      contains (toLower id (description l)) "display".toList = false) ∧
    getFromLspci id (Except.ok lspciBus3d : Except Unit Str) =
      "Intel Corporation Ethernet Connection X722 for 10GbE SFP+".toList ∧
    getFromLspci id (Except.ok lspciBus3d : Except Unit Str) ≠ "None".toList := by
  decide

end Komari
